import Mathlib

/-!
Register-level model of `c_gpio.c`.

A shallow embedding of the GPIO driver of the repository.  The memory-mapped
register window `gpio_map` is a function from word offsets to 32-bit words,
threaded explicitly through every operation together with the chronological
trace of bus accesses (reads, writes, settling delays).

C `int` values are represented by their 32-bit two's-complement bit pattern
(a natural number below `2 ^ 32`); `int32` gives the signed reading of a
pattern where a function returns an `int`.
-/

namespace RPiGpio

/-! ## Constants of `c_gpio.c` and `c_gpio.h` -/

def FSEL_OFFSET : Nat := 0
def SET_OFFSET : Nat := 7
def CLR_OFFSET : Nat := 10
def PINLEVEL_OFFSET : Nat := 13
def EVENT_DETECT_OFFSET : Nat := 16
def RISING_ED_OFFSET : Nat := 19
def FALLING_ED_OFFSET : Nat := 22
def HIGH_DETECT_OFFSET : Nat := 25
def LOW_DETECT_OFFSET : Nat := 28
def PULLUPDN_OFFSET : Nat := 37
def PULLUPDNCLK_OFFSET : Nat := 38

def INPUT : Int := 1
def OUTPUT : Int := 0
def ALT0 : Int := 4

def PUD_OFF : Int := 0
def PUD_DOWN : Int := 1
def PUD_UP : Int := 2

def PULSEPAIR_TIMEOUTSTAGE : Int := 65000
def PULSEPAIR_MINPAIRS : Nat := 5

/-! ## 32-bit words -/

/-- Number of distinct 32-bit words. -/
def WORD : Nat := 2 ^ 32

/-- Truncation of a natural number to a 32-bit pattern. -/
def u32 (x : Nat) : Nat := x % 2 ^ 32

/-- Signed (two's-complement) reading of a 32-bit pattern: the value of a C `int`. -/
def int32 (x : Nat) : Int :=
  if x % 2 ^ 32 < 2 ^ 31 then ((x % 2 ^ 32 : Nat) : Int) else ((x % 2 ^ 32 : Nat) : Int) - 2 ^ 32

/-- Bit pattern of a C `int`. -/
def ofInt32 (v : Int) : Nat := (v % 2 ^ 32).toNat

/-- Conversion of a `long` to the `int` it becomes when it is assigned to an
`int` object, such as a cell of the pulse-pair table
(`pulsepairs->pairs[size][0] = pulse`): the value is reduced modulo 2^32 into
the range of `int`. -/
def intCell (v : Int) : Int := int32 (ofInt32 v)

/-- C `~x` on a 32-bit pattern. -/
def not32 (x : Nat) : Nat := (x % 2 ^ 32) ^^^ (2 ^ 32 - 1)

/-- C `x << s` on a 32-bit pattern. -/
def shl32 (x s : Nat) : Nat := (x <<< s) % 2 ^ 32

/-- C `x >> s` for a signed `int` given by its pattern: arithmetic shift (sign fill). -/
def asr32 (x s : Nat) : Nat :=
  if x % 2 ^ 32 < 2 ^ 31 then (x % 2 ^ 32) >>> s
  else (((x % 2 ^ 32) ||| ((2 ^ s - 1) <<< 32)) >>> s) % 2 ^ 32

/-! ## The register bank, the bus and the access trace -/

/-- Contents of the mapped register window, by word offset. -/
abbrev Regs := Nat → Nat

/-- One bus access, or one call of `short_wait`. -/
inductive Access where
  | read (off : Nat)
  | write (off val : Nat)
  | wait
  deriving DecidableEq, Repr

/-- Device behaviour on a word write: the register contents after storing
`val` at word `off`. -/
abbrev Bus := Regs → Nat → Nat → Regs

/-- Plain memory: a write replaces the addressed word and nothing else. -/
def plainBus : Bus := fun r off val => fun i => if i = off then val else r i

/-- Register-level mock of the pin set / clear / level groups: a write to a
set word raises the written bits of the matching level word, a write to a
clear word lowers them, every other write is a plain store. -/
def mockBus : Bus := fun r off val =>
  if off = SET_OFFSET ∨ off = SET_OFFSET + 1 then
    plainBus r (off - SET_OFFSET + PINLEVEL_OFFSET)
      (r (off - SET_OFFSET + PINLEVEL_OFFSET) ||| val)
  else if off = CLR_OFFSET ∨ off = CLR_OFFSET + 1 then
    plainBus r (off - CLR_OFFSET + PINLEVEL_OFFSET)
      (r (off - CLR_OFFSET + PINLEVEL_OFFSET) &&& not32 val)
  else plainBus r off val

/-- The law the mock has to obey: writing the single bit `b` to a set word
raises bit `b` of the matching level word, writing it to a clear word lowers it. -/
def SetClrLaw (bus : Bus) : Prop :=
  ∀ (r : Regs) (k b : Nat), k < 2 → b < 32 →
    (bus r (SET_OFFSET + k) (2 ^ b) (PINLEVEL_OFFSET + k)).testBit b = true ∧
    (bus r (CLR_OFFSET + k) (2 ^ b) (PINLEVEL_OFFSET + k)).testBit b = false

/-- Machine state: register contents and the trace of accesses so far
(oldest first). -/
structure Machine where
  regs : Regs
  trace : List Access

/-- Volatile read of `*(gpio_map+off)`. -/
def rd (m : Machine) (off : Nat) : Nat × Machine :=
  (m.regs off, { m with trace := m.trace ++ [Access.read off] })

/-- Volatile write `*(gpio_map+off) = val` (the value is truncated to 32 bits). -/
def wr (bus : Bus) (m : Machine) (off val : Nat) : Machine :=
  { regs := bus m.regs off (val % 2 ^ 32), trace := m.trace ++ [Access.write off (val % 2 ^ 32)] }

/-- The 150-cycle busy loop `short_wait`: no register access, one trace entry. -/
def short_wait (m : Machine) : Machine :=
  { m with trace := m.trace ++ [Access.wait] }

/-! ## Event detection -/

/-- Embedding of `clear_event_detect`. -/
def clear_event_detect (bus : Bus) (gpio : Nat) (m : Machine) : Machine :=
  let offset := EVENT_DETECT_OFFSET + gpio / 32
  let shift := gpio % 32
  let (v, m1) := rd m offset
  let m2 := wr bus m1 offset (v ||| shl32 1 shift)
  let m3 := short_wait m2
  wr bus m3 offset 0

/-- Embedding of `eventdetected`: the returned `int` and the machine afterwards. -/
def eventdetected (bus : Bus) (gpio : Nat) (m : Machine) : Int × Machine :=
  let offset := EVENT_DETECT_OFFSET + gpio / 32
  let bit := shl32 1 (gpio % 32)
  let (w, m1) := rd m offset
  let value := w &&& bit
  if int32 value ≠ 0 then (int32 value, clear_event_detect bus gpio m1)
  else (int32 value, m1)

/-- Embedding of `set_rising_event`. -/
def set_rising_event (bus : Bus) (gpio : Nat) (enable : Int) (m : Machine) : Machine :=
  let offset := RISING_ED_OFFSET + gpio / 32
  let shift := gpio % 32
  let m1 :=
    if enable ≠ 0 then
      let (v, m0) := rd m offset
      wr bus m0 offset (v ||| shl32 1 shift)
    else
      let (v, m0) := rd m offset
      wr bus m0 offset (v &&& not32 (shl32 1 shift))
  clear_event_detect bus gpio m1

/-- Embedding of `set_falling_event`. -/
def set_falling_event (bus : Bus) (gpio : Nat) (enable : Int) (m : Machine) : Machine :=
  let offset := FALLING_ED_OFFSET + gpio / 32
  let shift := gpio % 32
  let m1 :=
    if enable ≠ 0 then
      let (v, m0) := rd m offset
      let m00 := wr bus m0 offset (v ||| shl32 1 shift)
      wr bus m00 offset (shl32 1 shift)
    else
      let (v, m0) := rd m offset
      wr bus m0 offset (v &&& not32 (shl32 1 shift))
  clear_event_detect bus gpio m1

/-- Embedding of `set_high_event`. -/
def set_high_event (bus : Bus) (gpio : Nat) (enable : Int) (m : Machine) : Machine :=
  let offset := HIGH_DETECT_OFFSET + gpio / 32
  let shift := gpio % 32
  let m1 :=
    if enable ≠ 0 then
      let (v, m0) := rd m offset
      wr bus m0 offset (v ||| shl32 1 shift)
    else
      let (v, m0) := rd m offset
      wr bus m0 offset (v &&& not32 (shl32 1 shift))
  clear_event_detect bus gpio m1

/-- Embedding of `set_low_event`. -/
def set_low_event (bus : Bus) (gpio : Nat) (enable : Int) (m : Machine) : Machine :=
  let offset := LOW_DETECT_OFFSET + gpio / 32
  let shift := gpio % 32
  let m1 :=
    if enable ≠ 0 then
      let (v, m0) := rd m offset
      wr bus m0 offset (v ||| shl32 1 shift)
    else
      let (v, m0) := rd m offset
      wr bus m0 offset (v &&& not32 (shl32 1 shift))
  clear_event_detect bus gpio m1

/-! ## Pin configuration and pull control -/

/-- Embedding of `set_pullupdn`. -/
def set_pullupdn (bus : Bus) (gpio : Nat) (pud : Int) (m : Machine) : Machine :=
  let clk_offset := PULLUPDNCLK_OFFSET + gpio / 32
  let shift := gpio % 32
  let m1 :=
    if pud = PUD_DOWN then
      let (v, m0) := rd m PULLUPDN_OFFSET
      wr bus m0 PULLUPDN_OFFSET ((v &&& not32 3) ||| ofInt32 PUD_DOWN)
    else if pud = PUD_UP then
      let (v, m0) := rd m PULLUPDN_OFFSET
      wr bus m0 PULLUPDN_OFFSET ((v &&& not32 3) ||| ofInt32 PUD_UP)
    else
      let (v, m0) := rd m PULLUPDN_OFFSET
      wr bus m0 PULLUPDN_OFFSET (v &&& not32 3)
  let m2 := short_wait m1
  let m3 := wr bus m2 clk_offset (shl32 1 shift)
  let m4 := short_wait m3
  let (v, m5) := rd m4 PULLUPDN_OFFSET
  let m6 := wr bus m5 PULLUPDN_OFFSET (v &&& not32 3)
  wr bus m6 clk_offset 0

/-- Embedding of `setup_gpio`. -/
def setup_gpio (bus : Bus) (gpio : Nat) (direction pud : Int) (m : Machine) : Machine :=
  let offset := FSEL_OFFSET + gpio / 10
  let shift := (gpio % 10) * 3
  let m1 := set_pullupdn bus gpio pud m
  if direction = OUTPUT then
    let (v, m2) := rd m1 offset
    wr bus m2 offset ((v &&& not32 (shl32 7 shift)) ||| shl32 1 shift)
  else
    let (v, m2) := rd m1 offset
    wr bus m2 offset (v &&& not32 (shl32 7 shift))

/-- Embedding of `gpio_function`. -/
def gpio_function (gpio : Nat) (m : Machine) : Int × Machine :=
  let offset := FSEL_OFFSET + gpio / 10
  let shift := (gpio % 10) * 3
  let (w, m1) := rd m offset
  let value := u32 w
  let value := asr32 value shift
  let value := value &&& 7
  (int32 value, m1)

/-- Embedding of `output_gpio`. -/
def output_gpio (bus : Bus) (gpio : Nat) (value : Int) (m : Machine) : Machine :=
  let offset := if value ≠ 0 then SET_OFFSET + gpio / 32 else CLR_OFFSET + gpio / 32
  let shift := gpio % 32
  wr bus m offset (shl32 1 shift)

/-- Embedding of `input_gpio`. -/
def input_gpio (gpio : Nat) (m : Machine) : Int × Machine :=
  let offset := PINLEVEL_OFFSET + gpio / 32
  let mask := shl32 1 (gpio % 32)
  let (w, m1) := rd m offset
  let value := w &&& mask
  (int32 value, m1)

/-! ## Time, pulse pairs and the outside world

`long` and `time_t` values are modelled as unbounded integers (signed
overflow is undefined in C); a `long` assigned to an `int` cell of the
pulse-pair table is converted by `intCell`.  The calls that leave the translation unit
(`gettimeofday`, the `bcm2835_*` library functions, `realloc`) are taken as
parameters, bundled in `World`. -/

/-- The C `struct timeval`. -/
structure Timeval where
  tv_sec : Int
  tv_usec : Int
  deriving DecidableEq, Repr

/-- The C `struct PulsePair`. -/
structure PulsePair where
  pulse : Int
  pause : Int
  deriving DecidableEq, Repr

/-- The C `struct PulsePairs`: the table of two-cell rows (`int **pairs`,
every cell a C `int`) and the `size` field.  A row that has been allocated
but never written is `none`. -/
structure PulsePairs where
  pairs : List (Option (Int × Int))
  size : Nat
  deriving DecidableEq, Repr

/-- Embedding of `delta_time_in_microseconds`. -/
def delta_time_in_microseconds (t2 t1 : Timeval) : Int :=
  let delta_seconds := t2.tv_sec - t1.tv_sec
  let delta_microseconds := t2.tv_usec - t1.tv_usec
  if delta_microseconds < 0 then
    ((delta_seconds - 1) * 1000000) + (delta_microseconds + 1000000)
  else
    (delta_seconds * 1000000) + delta_microseconds

/-- The environment of the pulse functions, over a state `σ` of the outside
world: the system clock, the pin access and delay functions of the bcm2835
library, and whether `realloc` to a given number of rows succeeds. -/
structure World (σ : Type) where
  gettimeofday : σ → Timeval × σ
  bcm2835_gpio_lev : Nat → σ → Int × σ
  bcm2835_gpio_write : Nat → Int → σ → σ
  bcm2835_delayMicroseconds : Nat → σ → σ
  realloc_ok : Nat → Bool

/-- The cast `(uint64_t)t` of a `long`. -/
def uint64 (t : Int) : Nat := (t % 2 ^ 64).toNat

/-! ## Software-timed pulse generator -/

/-- The carrier loop of `gpio_pulsepause`: `while (tpulse > 0) { ... tpulse -= 26; }`.
`none` when the fuel runs out before the loop exits. -/
def pulse_loop {σ : Type} (W : World σ) (gpio : Nat) : Nat → Int → σ → Option σ
  | 0, tpulse, s => if tpulse > 0 then none else some s
  | fuel + 1, tpulse, s =>
    if tpulse > 0 then
      let s1 := W.bcm2835_gpio_write gpio 1 s
      let s2 := W.bcm2835_delayMicroseconds 13 s1
      let s3 := W.bcm2835_gpio_write gpio 0 s2
      let s4 := W.bcm2835_delayMicroseconds 12 s3
      pulse_loop W gpio fuel (tpulse - 26) s4
    else some s

/-- Embedding of `gpio_pulsepause`: the returned `int`, the pair stored
through `pair`, and the world afterwards. -/
def gpio_pulsepause {σ : Type} (W : World σ) (gpio : Nat) (tpulse tpause : Int)
    (fuel : Nat) (s : σ) : Option (Int × PulsePair × σ) :=
  let (tStart, s1) := W.gettimeofday s
  match pulse_loop W gpio fuel tpulse s1 with
  | none => none
  | some s2 =>
    let (tPulse, s3) := W.gettimeofday s2
    let pulse := delta_time_in_microseconds tPulse tStart
    let s4 := W.bcm2835_delayMicroseconds (uint64 tpause) s3
    let (tPause, s5) := W.gettimeofday s4
    some (0, { pulse := pulse, pause := delta_time_in_microseconds tPause tPulse }, s5)

/-! ## Pulse-pair capture -/

/-- Local variables of `gpio_watchpulsepairs` together with `*pulsepairs`. -/
structure WatchState where
  value : Int
  vread : Int
  size : Nat
  finish : Bool
  pulse : Int
  pause : Int
  tStage : Int
  tStart : Timeval
  pulsepairs : PulsePairs
  deriving DecidableEq, Repr

/-- The inner loop of `gpio_watchpulsepairs`:
`while ((vread == value) & (tStage < PULSEPAIR_TIMEOUTSTAGE)) { ... }`,
returning `vread`, `tStage` and the world at loop exit; `none` when the fuel
runs out first. -/
def stage_loop {σ : Type} (W : World σ) (gpio : Nat) (value : Int) (tStart : Timeval) :
    Nat → Int → Int → σ → Option (Int × Int × σ)
  | 0, vread, tStage, s =>
    if vread = value ∧ tStage < PULSEPAIR_TIMEOUTSTAGE then none else some (vread, tStage, s)
  | fuel + 1, vread, tStage, s =>
    if vread = value ∧ tStage < PULSEPAIR_TIMEOUTSTAGE then
      let (vread1, s1) := W.bcm2835_gpio_lev gpio s
      let (tPulse, s2) := W.gettimeofday s1
      let tStage1 := delta_time_in_microseconds tPulse tStart
      stage_loop W gpio value tStart fuel vread1 tStage1 s2
    else some (vread, tStage, s)

/-- The part of the outer loop body of `gpio_watchpulsepairs` that follows
the inner loop, given the `vread` and `tStage` the inner loop ended with and
the `tStart` read after it.  The `long` values `pulse` and `pause` are
converted to `int` when they are written to the cells of the row.  The
boolean tells whether the body left the loop through `break`. -/
def stage_update {σ : Type} (W : World σ) (st : WatchState) (vread tStage : Int)
    (tStart : Timeval) : WatchState × Bool :=
  let finish := if tStage ≥ PULSEPAIR_TIMEOUTSTAGE then true else st.finish
  let st1 : WatchState :=
    { st with vread := vread, tStage := tStage, tStart := tStart, finish := finish }
  if st1.value = 0 then
    ({ st1 with pulse := tStage, value := vread }, false)
  else if st1.pulse ≠ 0 then
    let st2 : WatchState := { st1 with pause := tStage }
    if st2.size ≠ 0 then
      if W.realloc_ok (st2.size + 1) then
        let grown : PulsePairs :=
          { pairs := st2.pulsepairs.pairs ++ [none], size := st2.size + 1 }
        let stored : PulsePairs :=
          { grown with
            pairs := grown.pairs.set st2.size (some (intCell st2.pulse, intCell st2.pause)) }
        ({ st2 with pulsepairs := stored, size := st2.size + 1, pulse := 0, pause := 0,
                    value := vread }, false)
      else
        ({ st2 with finish := true }, true)
    else
      let stored : PulsePairs :=
        { st2.pulsepairs with
          pairs :=
            st2.pulsepairs.pairs.set st2.size (some (intCell st2.pulse, intCell st2.pause)) }
      ({ st2 with pulsepairs := stored, size := st2.size + 1, pulse := 0, pause := 0,
                  value := vread }, false)
  else
    ({ st1 with value := vread }, false)

/-- The outer loop `while (!finish) { ... }` of `gpio_watchpulsepairs`; the
inner loop of every stage gets `inner` units of fuel.  `none` when fuel runs out. -/
def watch_loop {σ : Type} (W : World σ) (gpio : Nat) (inner : Nat) :
    Nat → WatchState → σ → Option (WatchState × σ)
  | 0, st, s => if st.finish then some (st, s) else none
  | fuel + 1, st, s =>
    if st.finish then some (st, s)
    else
      match stage_loop W gpio st.value st.tStart inner st.vread 0 s with
      | none => none
      | some (vread, tStage, s1) =>
        let (tStart, s2) := W.gettimeofday s1
        let (st1, broke) := stage_update W st vread tStage tStart
        if broke then some (st1, s2) else watch_loop W gpio inner fuel st1 s2

/-- Embedding of `gpio_watchpulsepairs`: the returned `int`, the contents of
`*pulsepairs`, and the world afterwards. -/
def gpio_watchpulsepairs {σ : Type} (W : World σ) (gpio : Nat) (fuel : Nat) (s : σ) :
    Option (Int × PulsePairs × σ) :=
  let pulsepairs : PulsePairs := { pairs := [none], size := 1 }
  let (tStart, s1) := W.gettimeofday s
  let st : WatchState :=
    { value := 0, vread := 0, size := 0, finish := false, pulse := 0, pause := 0,
      tStage := 0, tStart := tStart, pulsepairs := pulsepairs }
  match watch_loop W gpio fuel fuel st s1 with
  | none => none
  | some (st1, s2) =>
    if st1.size < PULSEPAIR_MINPAIRS then some (0, st1.pulsepairs, s2)
    else some (1, st1.pulsepairs, s2)

/-- The pairs a caller finds in a `PulsePairs` table: the written rows, in order. -/
def storedPairs (pp : PulsePairs) : List (Int × Int) := pp.pairs.filterMap id

/-! ## Simulated pin and clock -/

/-- State of the simulation: the clock in microseconds, the level of the
input pin at every microsecond, and the record of the pin writes made so far
(time, pin, level), oldest first. -/
structure Sim where
  now : Nat
  level : Nat → Bool
  wave : List (Nat × Nat × Int)

/-- Reading of the simulated clock as a `struct timeval`. -/
def timevalOf (t : Nat) : Timeval :=
  { tv_sec := ((t / 1000000 : Nat) : Int), tv_usec := ((t % 1000000 : Nat) : Int) }

/-- The value `bcm2835_gpio_lev` returns for a level: `HIGH` = 1, `LOW` = 0. -/
def levelInt (b : Bool) : Int := if b then 1 else 0

/-- The simulated world: reading the clock takes no time; a delay advances
the clock by exactly its argument; a pin write takes no time and is recorded;
sampling the pin takes one microsecond and returns the level at its end;
`realloc` always succeeds. -/
def simWorld : World Sim where
  gettimeofday := fun s => (timevalOf s.now, s)
  bcm2835_gpio_lev := fun _ s =>
    (levelInt (s.level (s.now + 1)), { s with now := s.now + 1 })
  bcm2835_gpio_write := fun gpio v s => { s with wave := s.wave ++ [(s.now, gpio, v)] }
  bcm2835_delayMicroseconds := fun n s => { s with now := s.now + n }
  realloc_ok := fun _ => true

/-- Simulated input signal: starting at level `v`, the level is held for each
of the listed durations in turn, toggling after each one, and stays at the
level reached after the last one (idle). -/
def signal : List Nat → Bool → Nat → Bool
  | [], v, _ => v
  | d :: ds, v, t => if t < d then v else signal ds (!v) (t - d)

/-- The simulation started at time 0 with the given input signal. -/
def simStart (level : Nat → Bool) : Sim := { now := 0, level := level, wave := [] }

/-- Spec-side pairing: consecutive durations taken two at a time, as
(pulse, pause); an unpaired last duration is dropped. -/
def pairUp : List Int → List (Int × Int)
  | a :: b :: rest => (a, b) :: pairUp rest
  | _ => []

/-- The level function `L` follows, from time `a` on, the alternation `ds`
started at level `v` and then stays idle for at least 65000 µs. -/
def Follows (L : Nat → Bool) (a : Nat) (ds : List Nat) (v : Bool) : Prop :=
  ∀ t, 0 < t → t ≤ ds.sum + 65000 → L (a + t) = signal ds v t

/-- The table holding exactly the given pairs, as `gpio_watchpulsepairs`
builds it: one unwritten row and `size` 1 when there is no pair. -/
def tableOf : List (Int × Int) → PulsePairs
  | [] => { pairs := [none], size := 1 }
  | c :: cs => { pairs := (c :: cs).map some, size := (c :: cs).length }

/-- The locals of `gpio_watchpulsepairs` at the start of a stage that begins
at time `a` with the pin at level `v`, the pairs `caps` captured so far. -/
def watchAt (v : Bool) (a : Nat) (caps : List (Int × Int)) (pulse pause tStage : Int) :
    WatchState :=
  { value := levelInt v, vread := levelInt v, size := caps.length, finish := false,
    pulse := pulse, pause := pause, tStage := tStage, tStart := timevalOf a,
    pulsepairs := tableOf caps }

/-- The level durations of a list of (pulse, pause) intervals: for each
interval the low (pulse) duration, then the high (pause) duration. -/
def durationsOf : List (Nat × Nat) → List Nat
  | [] => []
  | p :: ps => p.1 :: p.2 :: durationsOf ps

/-- A list of (pulse, pause) intervals as the integer pairs of the table. -/
def pairsOf (ps : List (Nat × Nat)) : List (Int × Int) :=
  ps.map (fun p => ((p.1 : Int), (p.2 : Int)))

/-- Number of micro-cycles of the carrier loop for a requested pulse
duration: `ceil (tpulse / 26)`, and 0 when `tpulse` is not positive. -/
def microCycles (tpulse : Int) : Nat := ((tpulse + 25) / 26).toNat

/-! ## Initialisation -/

def SETUP_OK : Int := 0
def SETUP_DEVMEM_FAIL : Int := 1
def SETUP_MALLOC_FAIL : Int := 2
def SETUP_MMAP_FAIL : Int := 3

def PAGE_SIZE : Nat := 4 * 1024
def BLOCK_SIZE : Nat := 4 * 1024

/-- The value `MAP_FAILED` of `mmap`, `(void *) -1`, as a 32-bit address. -/
def MAP_FAILED : Nat := 2 ^ 32 - 1

/-- Embedding of `setup`, the outcomes of the three system calls being
inputs: the descriptor returned by `open` (negative on failure), the address
returned by `malloc` (0 for `NULL`) and the address returned by `mmap` for the
aligned staging address (`MAP_FAILED` on failure).  Returns the result code
and the value assigned to `gpio_map`, if any.  The last test is the
comparison `(uint32_t)gpio_map < 0`, made on unsigned values. -/
def setup (open_fd : Int) (malloc_ptr : Nat) (mmap : Nat → Nat) : Int × Option Nat :=
  if open_fd < 0 then (SETUP_DEVMEM_FAIL, none)
  else if malloc_ptr = 0 then (SETUP_MALLOC_FAIL, none)
  else
    let gpio_mem :=
      if u32 malloc_ptr % PAGE_SIZE ≠ 0 then
        malloc_ptr + (PAGE_SIZE - u32 malloc_ptr % PAGE_SIZE)
      else malloc_ptr
    let gpio_map := mmap gpio_mem
    if u32 gpio_map < 0 then (SETUP_MMAP_FAIL, some gpio_map)
    else (SETUP_OK, some gpio_map)

/-! ## The Python binding layer (`py_gpio.c`) -/

/-- The levels `HIGH` and `LOW` of `bcm2835.h`, as quoted in `c_gpio.h`. -/
def HIGH : Int := 1
def LOW : Int := 0

/-- How a Python-level function returns: `Py_RETURN_NONE`, or `NULL` with the
exception that was set (`lookupError` stands for a failed `get_gpio_number`). -/
inductive PyOutcome where
  | ok
  | valueError
  | runtimeError
  | noMemory
  | lookupError
  deriving DecidableEq, Repr

/-- What `py_gpio.c` takes from parts of the repository that are not in the
sources at hand: the outcomes of the system calls of `setup`, the channel
lookup `get_gpio_number` (`none` when it fails) and the constant
`PY_PUD_CONST_OFFSET`. -/
structure Platform where
  open_fd : Int
  malloc_ptr : Nat
  mmap : Nat → Nat
  get_gpio_number : Int → Option Nat
  PY_PUD_CONST_OFFSET : Int

/-- The globals of the binding layer together with the register machine;
`warned` counts the calls of `PyErr_WarnEx`. -/
structure PyState where
  machine : Machine
  gpio_direction : Nat → Int
  module_setup : Bool
  setup_error : Bool
  gpio_warnings : Bool
  warned : Nat

/-- Embedding of `init_module`: the returned code, the exception set on
failure, and the state afterwards. -/
def init_module (P : Platform) (st : PyState) : Int × PyOutcome × PyState :=
  let st1 : PyState :=
    { st with module_setup := false,
              gpio_direction := fun i => if i < 54 then -1 else st.gpio_direction i }
  let result := (setup P.open_fd P.malloc_ptr P.mmap).1
  if result = SETUP_DEVMEM_FAIL then (SETUP_DEVMEM_FAIL, PyOutcome.runtimeError, st1)
  else if result = SETUP_MALLOC_FAIL then (SETUP_MALLOC_FAIL, PyOutcome.noMemory, st1)
  else if result = SETUP_MMAP_FAIL then (SETUP_MALLOC_FAIL, PyOutcome.runtimeError, st1)
  else (SETUP_OK, PyOutcome.ok, { st1 with module_setup := true })

/-- Embedding of `py_setup_channel`; `pud` and `initial` are the parsed
arguments (their defaults are `PUD_OFF + PY_PUD_CONST_OFFSET` and -1). -/
def py_setup_channel (P : Platform) (bus : Bus) (channel direction pud initial : Int)
    (st : PyState) : PyOutcome × PyState :=
  if st.setup_error then (PyOutcome.runtimeError, st)
  else
    let r := if !st.module_setup then init_module P st else (SETUP_OK, PyOutcome.ok, st)
    if r.1 ≠ SETUP_OK then (r.2.1, r.2.2)
    else
      let st1 := r.2.2
      match P.get_gpio_number channel with
      | none => (PyOutcome.lookupError, st1)
      | some gpio =>
        if direction ≠ INPUT ∧ direction ≠ OUTPUT then (PyOutcome.valueError, st1)
        else
          let pud1 := if direction = OUTPUT then PUD_OFF + P.PY_PUD_CONST_OFFSET else pud
          let pud2 := pud1 - P.PY_PUD_CONST_OFFSET
          if pud2 ≠ PUD_OFF ∧ pud2 ≠ PUD_DOWN ∧ pud2 ≠ PUD_UP then (PyOutcome.valueError, st1)
          else
            let (func, m1) := gpio_function gpio st1.machine
            let warned :=
              if st1.gpio_warnings = true ∧
                  ((func ≠ 0 ∧ func ≠ 1) ∨ (st1.gpio_direction gpio = -1 ∧ func = 1)) then
                st1.warned + 1
              else st1.warned
            let m2 :=
              if direction = OUTPUT ∧ (initial = LOW ∨ initial = HIGH) then
                output_gpio bus gpio initial m1
              else m1
            let m3 := setup_gpio bus gpio direction pud2 m2
            (PyOutcome.ok,
              { st1 with machine := m3, warned := warned,
                         gpio_direction := fun i => if i = gpio then direction
                                                    else st1.gpio_direction i })

/-- Embedding of `py_output_gpio`. -/
def py_output_gpio (P : Platform) (bus : Bus) (channel value : Int) (st : PyState) :
    PyOutcome × PyState :=
  match P.get_gpio_number channel with
  | none => (PyOutcome.lookupError, st)
  | some gpio =>
    if st.gpio_direction gpio ≠ OUTPUT then (PyOutcome.runtimeError, st)
    else (PyOutcome.ok, { st with machine := output_gpio bus gpio value st.machine })

/-- One round of the loop of `py_cleanup` over all pins. -/
def cleanup_pin (bus : Bus) (acc : PyState × Bool) (i : Nat) : PyState × Bool :=
  if acc.1.gpio_direction i ≠ -1 then
    ({ acc.1 with machine := setup_gpio bus i INPUT PUD_OFF acc.1.machine,
                  gpio_direction := fun j => if j = i then -1 else acc.1.gpio_direction j },
      true)
  else acc

/-- Embedding of `py_cleanup`; `channel` is -666 when no channel is given.
The local `i` is not initialised on the single-channel path: its
indeterminate value is the input `i`.  `event_cleanup` and
`event_cleanup_all` act on the `/sys/class` exports, outside this state. -/
def py_cleanup (P : Platform) (bus : Bus) (channel : Int) (i : Nat) (st : PyState) :
    PyOutcome × PyState :=
  if channel ≠ -666 ∧ P.get_gpio_number channel = none then (PyOutcome.lookupError, st)
  else
    let r : PyState × Bool :=
      if st.module_setup = true ∧ st.setup_error = false then
        if channel = -666 then
          (List.range 54).foldl (cleanup_pin bus) (st, false)
        else
          match P.get_gpio_number channel with
          | none => (st, false)
          | some gpio =>
            if st.gpio_direction gpio ≠ -1 then
              ({ st with machine := setup_gpio bus gpio INPUT PUD_OFF st.machine,
                         gpio_direction := fun j => if j = i then -1 else st.gpio_direction j },
                true)
            else (st, false)
      else (st, false)
    if r.2 = false ∧ r.1.gpio_warnings = true then
      (PyOutcome.ok, { r.1 with warned := r.1.warned + 1 })
    else (PyOutcome.ok, r.1)

/-- A platform for examples: every system call of `setup` succeeds, channel
`c` is pin `c`, and `PY_PUD_CONST_OFFSET` is 20. -/
def demoPlatform : Platform :=
  { open_fd := 3, malloc_ptr := 4096, mmap := fun a => a,
    get_gpio_number := fun c => if 0 ≤ c ∧ c < 54 then some c.toNat else none,
    PY_PUD_CONST_OFFSET := 20 }

/-- A binding-layer state for examples: module set up, no pin configured,
every register 0. -/
def demoState : PyState :=
  { machine := ⟨fun _ => 0, []⟩, gpio_direction := fun _ => -1, module_setup := true,
    setup_error := false, gpio_warnings := true, warned := 0 }

/-- A binding-layer state for examples: as `demoState`, with pin 17 set up
as output and pin 5 as input. -/
def demoConfigured : PyState :=
  { demoState with
    gpio_direction := fun i => if i = 17 then OUTPUT else if i = 5 then INPUT else -1 }

/-- The simulated world with a memory limit: `realloc` succeeds exactly when
at most `cap` rows are requested. -/
def simWorldLimit (cap : Nat) : World Sim :=
  { simWorld with realloc_ok := fun n => decide (n ≤ cap) }

/-- Embedding of `num_pulsepairs`; `none` is the `NULL` pointer. -/
def num_pulsepairs (pulsepairs : Option PulsePairs) : Int :=
  match pulsepairs with
  | some pp => (pp.size : Int)
  | none => 0

/-- The sending loop of `py_bcm2835_sendPulsePairs`: one `gpio_pulsepause`
call per requested pair, the measured pair replacing the requested one in the
table.  Returns the table of measured pairs and the world afterwards. -/
def sendPulsePairs {σ : Type} (W : World σ) (gpio : Nat) (fuel : Nat) :
    List (Int × Int) → σ → Option (List (Int × Int) × σ)
  | [], s => some ([], s)
  | p :: rest, s =>
    match gpio_pulsepause W gpio p.1 p.2 fuel s with
    | none => none
    | some (_, pair, s1) =>
      match sendPulsePairs W gpio fuel rest s1 with
      | none => none
      | some (out, s2) => some ((pair.pulse, pair.pause) :: out, s2)

/-- The level of pin `gpio` at time `t` according to the record of pin
writes: that of the last write not later than `t`, low before any write. -/
def waveLevel (wave : List (Nat × Nat × Int)) (gpio : Nat) (t : Nat) : Bool :=
  wave.foldl (fun lvl w => if w.2.1 = gpio ∧ w.1 ≤ t then decide (w.2.2 ≠ 0) else lvl) false

/-- The pairs `gpio_pulsepause` measures on the simulated clock for a list
of requested pairs. -/
def measuredPairs (req : List (Int × Int)) : List (Int × Int) :=
  req.map (fun p => (25 * (microCycles p.1 : Int), p.2))

/-- The (pulse, pause) durations of a list of integer pairs, as natural numbers. -/
def natPairs (ms : List (Int × Int)) : List (Nat × Nat) :=
  ms.map (fun p => (p.1.toNat, p.2.toNat))

/-- The pin writes of `n` micro-cycles of the carrier loop started at time
`t`: high at the start of each cycle, low 13 µs later, cycles 25 µs apart. -/
def carrierWave (gpio : Nat) : Nat → Nat → List (Nat × Nat × Int)
  | _, 0 => []
  | t, n + 1 => (t, gpio, 1) :: (t + 13, gpio, 0) :: carrierWave gpio (t + 25) n

/-- The word offset of a bus access (`none` for a settling delay). -/
def accessOffset : Access → Option Nat
  | Access.read off => some off
  | Access.write off _ => some off
  | Access.wait => none

/-- The word offsets read or written in a trace, in order. -/
def offsetsOf (trace : List Access) : List Nat := trace.filterMap accessOffset

/-- The word ranges of the register groups, as (first, last): function
select, set, clear, level, event status, rising, falling, high, low, pull
control, pull clock. -/
def regGroups : List (Nat × Nat) :=
  [(0, 5), (7, 8), (10, 11), (13, 14), (16, 17), (19, 20), (22, 23), (25, 26), (28, 29),
   (37, 37), (38, 39)]

/-! ## Scripted world -/

theorem shl32_one (k : Nat) (h : k < 32) : shl32 1 k = 2 ^ k := by
  unfold shl32
  rw [Nat.one_shiftLeft]
  exact Nat.mod_eq_of_lt (Nat.pow_lt_pow_right (by decide) h)

theorem two_pow_lt_word (k : Nat) (h : k < 32) : 2 ^ k < 2 ^ 32 :=
  Nat.pow_lt_pow_right (by decide) h

theorem int32_eq_zero_iff (x : Nat) : int32 x = 0 ↔ x % 2 ^ 32 = 0 := by
  unfold int32
  have h : x % 2 ^ 32 < 2 ^ 32 := Nat.mod_lt _ (by positivity)
  split <;> omega

theorem and_two_pow_eq_zero_iff (w k : Nat) : w &&& 2 ^ k = 0 ↔ w.testBit k = false := by
  rw [Nat.and_two_pow]
  cases h : w.testBit k <;> simp

theorem and_two_pow_lt_word (w k : Nat) (h : k < 32) : w &&& 2 ^ k < 2 ^ 32 :=
  lt_of_le_of_lt Nat.and_le_right (two_pow_lt_word k h)

/-- The `int` obtained by masking a word with the single bit `k` is zero
exactly when bit `k` of the word is clear. -/
theorem int32_and_bit_eq_zero_iff (w k : Nat) (h : k < 32) :
    int32 (w &&& shl32 1 k) = 0 ↔ w.testBit k = false := by
  rw [shl32_one k h, int32_eq_zero_iff, Nat.mod_eq_of_lt (and_two_pow_lt_word w k h),
    and_two_pow_eq_zero_iff]

theorem testBit_not32 (x i : Nat) :
    (not32 x).testBit i = (decide (i < 32) && !x.testBit i) := by
  unfold not32
  rw [Nat.testBit_xor, Nat.testBit_mod_two_pow, Nat.testBit_two_pow_sub_one]
  by_cases h : i < 32 <;> simp [h]

/-- Reading a 3-bit field with the signed shift of `gpio_function` gives the
field of the word, whatever the sign bit. -/
theorem asr32_field (w s : Nat) (hs : s + 3 ≤ 32) :
    asr32 (u32 w) s &&& 7 = (w >>> s) % 2 ^ 3 := by
  have h7 : (7 : Nat) = 2 ^ 3 - 1 := by decide
  rw [h7, Nat.and_pow_two_sub_one_eq_mod]
  apply Nat.eq_of_testBit_eq
  intro i
  rw [Nat.testBit_mod_two_pow, Nat.testBit_mod_two_pow]
  by_cases hi : i < 3
  · have h1 : s + i < 32 := by omega
    have h2 : i < 32 := by omega
    have h3 : ¬ (s + i ≥ 32) := by omega
    unfold asr32 u32
    split
    · simp only [Nat.testBit_shiftRight, Nat.testBit_mod_two_pow, h1, decide_True,
        Bool.true_and]
    · simp only [Nat.testBit_shiftRight, Nat.testBit_mod_two_pow, Nat.testBit_or,
        Nat.testBit_shiftLeft, h1, h2, h3, decide_True, decide_False, Bool.true_and,
        Bool.false_and, Bool.or_false]
  · simp [hi]

theorem testBit_seven (i : Nat) : Nat.testBit 7 i = decide (i < 3) := by
  have h7 : (7 : Nat) = 2 ^ 3 - 1 := by decide
  rw [h7, Nat.testBit_two_pow_sub_one]

theorem testBit_one (i : Nat) : Nat.testBit 1 i = decide (i < 1) := by
  have h1 : (1 : Nat) = 2 ^ 1 - 1 := by decide
  conv_lhs => rw [h1]
  rw [Nat.testBit_two_pow_sub_one]

/-- The function-select word written by `setup_gpio` for an output pin holds
the field value 1 at the pin's position. -/
theorem fsel_output_field (v s : Nat) (hs : s + 3 ≤ 32) :
    ((((v &&& not32 (shl32 7 s)) ||| shl32 1 s) % 2 ^ 32) >>> s) % 2 ^ 3 = 1 := by
  apply Nat.eq_of_testBit_eq
  intro i
  rw [Nat.testBit_mod_two_pow]
  by_cases hi : i < 3
  · have h1 : s + i < 32 := by omega
    have h2 : s + i ≥ s := by omega
    have h3 : s + i - s = i := by omega
    simp only [shl32, Nat.testBit_shiftRight, Nat.testBit_mod_two_pow, Nat.testBit_or,
      Nat.testBit_and, testBit_not32, Nat.testBit_shiftLeft, h1, h2, h3, hi, decide_True,
      Bool.true_and, testBit_seven, testBit_one]
    simp
  · have : ¬ i < 1 := by omega
    simp [hi, this, testBit_one]

/-- The function-select word written by `setup_gpio` for an input pin holds
the field value 0 at the pin's position. -/
theorem fsel_input_field (v s : Nat) (hs : s + 3 ≤ 32) :
    (((v &&& not32 (shl32 7 s)) % 2 ^ 32) >>> s) % 2 ^ 3 = 0 := by
  apply Nat.eq_of_testBit_eq
  intro i
  rw [Nat.testBit_mod_two_pow]
  by_cases hi : i < 3
  · have h1 : s + i < 32 := by omega
    have h2 : s + i ≥ s := by omega
    have h3 : s + i - s = i := by omega
    simp only [shl32, Nat.testBit_shiftRight, Nat.testBit_mod_two_pow,
      Nat.testBit_and, testBit_not32, Nat.testBit_shiftLeft, h1, h2, h3, hi, decide_True,
      Bool.true_and, testBit_seven]
    simp
  · simp [hi]

theorem testBit_three (i : Nat) : Nat.testBit 3 i = decide (i < 2) := by
  have h3 : (3 : Nat) = 2 ^ 2 - 1 := by decide
  rw [h3, Nat.testBit_two_pow_sub_one]

theorem testBit_mode_high (mode i : Nat) (hmode : mode < 4) (hi : 2 ≤ i) :
    mode.testBit i = false := by
  apply Nat.testBit_lt_two_pow
  calc mode < 2 ^ 2 := hmode
    _ ≤ 2 ^ i := Nat.pow_le_pow_right (by decide) hi

/-- Masking with `~3` fits in 32 bits. -/
theorem and_not32_mod (v x : Nat) : (v &&& not32 x) % 2 ^ 32 = v &&& not32 x := by
  apply Nat.eq_of_testBit_eq
  intro i
  rw [Nat.testBit_mod_two_pow, Nat.testBit_and, testBit_not32]
  by_cases h : i < 32 <;> simp [h]

/-- Writing a mode into the low two bits and clearing them again restores
the word with its low two bits cleared. -/
theorem pull_mode_cleared (v mode : Nat) (hmode : mode < 4) :
    ((((v &&& not32 3) ||| mode) % 2 ^ 32) &&& not32 3) % 2 ^ 32 = v &&& not32 3 := by
  apply Nat.eq_of_testBit_eq
  intro i
  simp only [Nat.testBit_mod_two_pow, Nat.testBit_and, Nat.testBit_or, testBit_not32,
    testBit_three]
  by_cases h2 : i < 2
  · simp [h2]
  · have hm := testBit_mode_high mode i hmode (by omega)
    by_cases h : i < 32 <;> simp [h, h2, hm]

/-- The low two bits of a word masked with `~3` are clear. -/
theorem and_not32_three_low (v : Nat) : (v &&& not32 3) &&& 3 = 0 := by
  apply Nat.eq_of_testBit_eq
  intro i
  simp only [Nat.testBit_and, testBit_not32, testBit_three, Nat.zero_testBit]
  by_cases h2 : i < 2 <;> simp [h2]

/-- The low two bits after or-ing a mode into a word masked with `~3`. -/
theorem pull_mode_low (v mode : Nat) (hmode : mode < 4) :
    (((v &&& not32 3) ||| mode) % 2 ^ 32) &&& 3 = mode := by
  apply Nat.eq_of_testBit_eq
  intro i
  simp only [Nat.testBit_mod_two_pow, Nat.testBit_and, Nat.testBit_or, testBit_not32,
    testBit_three]
  by_cases h2 : i < 2
  · have : i < 32 := by omega
    simp [h2, this]
  · have hm := testBit_mode_high mode i hmode (by omega)
    simp [h2, hm]

/-! ## Basic facts about the memory operations -/

theorem wr_regs (bus : Bus) (m : Machine) (off val : Nat) :
    (wr bus m off val).regs = bus m.regs off (val % 2 ^ 32) := rfl

theorem rd_regs (m : Machine) (off : Nat) : (rd m off).2.regs = m.regs := rfl

theorem rd_val (m : Machine) (off : Nat) : (rd m off).1 = m.regs off := rfl

theorem input_gpio_regs (gpio : Nat) (m : Machine) : (input_gpio gpio m).2.regs = m.regs := rfl

theorem input_gpio_val (gpio : Nat) (m : Machine) :
    (input_gpio gpio m).1 = int32 (m.regs (PINLEVEL_OFFSET + gpio / 32) &&& shl32 1 (gpio % 32)) :=
  rfl

theorem output_gpio_high_regs (bus : Bus) (gpio : Nat) (m : Machine) :
    (output_gpio bus gpio 1 m).regs = bus m.regs (SET_OFFSET + gpio / 32) (2 ^ (gpio % 32)) := by
  have h : gpio % 32 < 32 := Nat.mod_lt _ (by decide)
  simp only [output_gpio, wr_regs, shl32_one _ h, Nat.mod_eq_of_lt (two_pow_lt_word _ h)]
  simp

theorem output_gpio_low_regs (bus : Bus) (gpio : Nat) (m : Machine) :
    (output_gpio bus gpio 0 m).regs = bus m.regs (CLR_OFFSET + gpio / 32) (2 ^ (gpio % 32)) := by
  have h : gpio % 32 < 32 := Nat.mod_lt _ (by decide)
  simp only [output_gpio, wr_regs, shl32_one _ h, Nat.mod_eq_of_lt (two_pow_lt_word _ h)]
  simp

theorem mockBus_law : SetClrLaw mockBus := by
  intro r k b hk hb
  have hk2 : k = 0 ∨ k = 1 := by omega
  rcases hk2 with rfl | rfl
  · constructor
    · simp [mockBus, plainBus, SET_OFFSET, PINLEVEL_OFFSET, CLR_OFFSET, Nat.testBit_or,
        Nat.testBit_two_pow]
    · simp [mockBus, plainBus, SET_OFFSET, PINLEVEL_OFFSET, CLR_OFFSET, Nat.testBit_and,
        testBit_not32, Nat.testBit_two_pow, hb]
  · constructor
    · simp [mockBus, plainBus, SET_OFFSET, PINLEVEL_OFFSET, CLR_OFFSET, Nat.testBit_or,
        Nat.testBit_two_pow]
    · simp [mockBus, plainBus, SET_OFFSET, PINLEVEL_OFFSET, CLR_OFFSET, Nat.testBit_and,
        testBit_not32, Nat.testBit_two_pow, hb]

/-! ## Claims -/

/-- C1: over any register-level mock obeying the set/clear law, for every pin
`p` in 0..53, after `setup_gpio(p, OUTPUT, pud)` and `output_gpio(p, 1)` the
call `input_gpio(p)` returns a non-zero value, and after a further
`output_gpio(p, 0)` it returns 0. -/
theorem output_then_input_loopback (bus : Bus) (hbus : SetClrLaw bus) (p : Nat) (hp : p < 54)
    (pud : Int) (m : Machine) :
    (input_gpio p (output_gpio bus p 1 (setup_gpio bus p OUTPUT pud m))).1 ≠ 0 ∧
    (input_gpio p (output_gpio bus p 0
        (input_gpio p (output_gpio bus p 1 (setup_gpio bus p OUTPUT pud m))).2)).1 = 0 := by
  have hk : p / 32 < 2 := by omega
  have hb : p % 32 < 32 := Nat.mod_lt _ (by decide)
  constructor
  · rw [input_gpio_val, output_gpio_high_regs, Ne, int32_and_bit_eq_zero_iff _ _ hb,
      (hbus _ _ _ hk hb).1]
    simp
  · rw [input_gpio_val, output_gpio_low_regs, int32_and_bit_eq_zero_iff _ _ hb]
    exact (hbus _ _ _ hk hb).2

/-- Witness for C1: the concrete mock `mockBus` obeys the law, pin 17. -/
theorem output_then_input_loopback_witness :
    SetClrLaw mockBus ∧ 17 < 54 ∧
    (input_gpio 17 (output_gpio mockBus 17 1
        (setup_gpio mockBus 17 OUTPUT PUD_OFF ⟨fun _ => 0, []⟩))).1 ≠ 0 ∧
    (input_gpio 17 (output_gpio mockBus 17 0
        (input_gpio 17 (output_gpio mockBus 17 1
          (setup_gpio mockBus 17 OUTPUT PUD_OFF ⟨fun _ => 0, []⟩))).2)).1 = 0 :=
  ⟨mockBus_law, by decide,
    output_then_input_loopback mockBus mockBus_law 17 (by decide) PUD_OFF ⟨fun _ => 0, []⟩⟩

/-- The function-select word of the pin after `setup_gpio` on plain memory. -/
theorem setup_gpio_fsel_word (p : Nat) (d pud : Int) (m : Machine) :
    (setup_gpio plainBus p d pud m).regs (FSEL_OFFSET + p / 10) =
      if d = OUTPUT then
        (((set_pullupdn plainBus p pud m).regs (FSEL_OFFSET + p / 10)
            &&& not32 (shl32 7 (p % 10 * 3))) ||| shl32 1 (p % 10 * 3)) % 2 ^ 32
      else
        ((set_pullupdn plainBus p pud m).regs (FSEL_OFFSET + p / 10)
            &&& not32 (shl32 7 (p % 10 * 3))) % 2 ^ 32 := by
  unfold setup_gpio
  by_cases h : d = OUTPUT <;> simp [h, rd, wr, plainBus]

theorem gpio_function_val (p : Nat) (m : Machine) :
    (gpio_function p m).1 =
      int32 (asr32 (u32 (m.regs (FSEL_OFFSET + p / 10))) (p % 10 * 3) &&& 7) := rfl

theorem int32_one : int32 1 = 1 := by decide

theorem int32_zero : int32 0 = 0 := by decide

/-- A value in the range of `int` is stored unchanged in an `int` cell. -/
theorem intCell_of_range (x : Int) (h0 : -2 ^ 31 ≤ x) (h1 : x < 2 ^ 31) : intCell x = x := by
  unfold intCell int32 ofInt32
  split <;> omega

theorem intCell_nat (d : Nat) (h : d < 2 ^ 31) : intCell (d : Int) = (d : Int) :=
  intCell_of_range _ (by omega) (by omega)

/-- The content of an `int` cell is in the range of `int` and congruent to
the value stored, modulo 2^32. -/
theorem intCell_spec (x : Int) :
    -2 ^ 31 ≤ intCell x ∧ intCell x < 2 ^ 31 ∧ (intCell x - x) % 2 ^ 32 = 0 := by
  unfold intCell int32 ofInt32
  split <;> omega

/-- C2: round trip of `setup_gpio` and `gpio_function` on plain register
memory: for every pin in 0..53, every pull mode and every initial content,
`gpio_function` returns 1 after `setup_gpio(p, OUTPUT, pud)` and 0 after
`setup_gpio(p, d, pud)` with any direction `d` other than `OUTPUT`. -/
theorem setup_gpio_function_roundtrip (p : Nat) (_hp : p < 54) (d pud : Int) (m : Machine) :
    (gpio_function p (setup_gpio plainBus p OUTPUT pud m)).1 = 1 ∧
    (d ≠ OUTPUT → (gpio_function p (setup_gpio plainBus p d pud m)).1 = 0) := by
  have hs : p % 10 * 3 + 3 ≤ 32 := by omega
  constructor
  · rw [gpio_function_val, setup_gpio_fsel_word, if_pos rfl, asr32_field _ _ hs,
      fsel_output_field _ _ hs, int32_one]
  · intro hd
    rw [gpio_function_val, setup_gpio_fsel_word, if_neg hd, asr32_field _ _ hs,
      fsel_input_field _ _ hs, int32_zero]

/-- Witness for C2: pin 9 (the top field of word 0) with the sign bit of the
word set beforehand, direction `INPUT`. -/
theorem setup_gpio_function_roundtrip_witness :
    9 < 54 ∧
    (gpio_function 9 (setup_gpio plainBus 9 OUTPUT PUD_UP ⟨fun _ => 4294967295, []⟩)).1 = 1 ∧
    (INPUT ≠ OUTPUT →
      (gpio_function 9 (setup_gpio plainBus 9 INPUT PUD_UP ⟨fun _ => 4294967295, []⟩)).1 = 0) :=
  ⟨by decide,
    setup_gpio_function_roundtrip 9 (by decide) INPUT PUD_UP ⟨fun _ => 4294967295, []⟩⟩

/-- The pull-control word after `set_pullupdn` on plain memory. -/
theorem set_pullupdn_ctl_word (p : Nat) (pud : Int) (m : Machine) :
    (set_pullupdn plainBus p pud m).regs PULLUPDN_OFFSET = m.regs PULLUPDN_OFFSET &&& not32 3 := by
  have hne : ¬ (37 = 38 + p / 32) := by omega
  have h1 : ofInt32 PUD_DOWN < 4 := by decide
  have h2 : ofInt32 PUD_UP < 4 := by decide
  have hud : ¬ (PUD_UP = PUD_DOWN) := by decide
  unfold set_pullupdn
  by_cases hd : pud = PUD_DOWN
  · simp only [hd, if_true, rd, wr, short_wait, plainBus, PULLUPDN_OFFSET, PULLUPDNCLK_OFFSET,
      hne, if_false]
    exact pull_mode_cleared _ _ h1
  · by_cases hu : pud = PUD_UP
    · simp only [hu, hud, if_true, rd, wr, short_wait, plainBus, PULLUPDN_OFFSET,
        PULLUPDNCLK_OFFSET, hne, if_false]
      exact pull_mode_cleared _ _ h2
    · simp only [hd, hu, if_true, rd, wr, short_wait, plainBus, PULLUPDN_OFFSET,
        PULLUPDNCLK_OFFSET, hne, if_false]
      rw [and_not32_mod, and_not32_mod, Nat.and_assoc, Nat.and_self]

/-- The pin's pull-clock word after `set_pullupdn` on plain memory. -/
theorem set_pullupdn_clk_word (p : Nat) (pud : Int) (m : Machine) :
    (set_pullupdn plainBus p pud m).regs (PULLUPDNCLK_OFFSET + p / 32) = 0 := by
  simp [set_pullupdn, wr, plainBus]

/-- C3 (as amended): on plain register memory, for every pin, every requested
pull mode (any integer) and every initial content, when `set_pullupdn`
returns, the pull-control word 37 equals its initial value with the two mode
bits cleared (so its mode bits are 0, and the higher bits keep their value),
and the pin's pull-clock word is 0. -/
theorem set_pullupdn_exit_state (p : Nat) (pud : Int) (m : Machine) :
    (set_pullupdn plainBus p pud m).regs PULLUPDN_OFFSET = m.regs PULLUPDN_OFFSET &&& not32 3 ∧
    (set_pullupdn plainBus p pud m).regs PULLUPDN_OFFSET &&& 3 = 0 ∧
    (set_pullupdn plainBus p pud m).regs (PULLUPDNCLK_OFFSET + p / 32) = 0 := by
  refine ⟨set_pullupdn_ctl_word p pud m, ?_, set_pullupdn_clk_word p pud m⟩
  rw [set_pullupdn_ctl_word, and_not32_three_low]

/-- Counterexample to C3 as stated: with bit 2 of the pull-control word set
on entry, `set_pullupdn(0, PUD_OFF)` leaves the word equal to 4, not 0. -/
theorem set_pullupdn_ctl_not_zeroed :
    (set_pullupdn plainBus 0 PUD_OFF ⟨fun i => if i = 37 then 4 else 0, []⟩).regs
      PULLUPDN_OFFSET = 4 ∧
    (set_pullupdn plainBus 0 PUD_OFF ⟨fun i => if i = 37 then 4 else 0, []⟩).regs
      PULLUPDN_OFFSET ≠ 0 := by
  decide

theorem pull_mode_mod (v mode : Nat) (hmode : mode < 4) :
    ((v &&& not32 3) ||| mode) % 2 ^ 32 = (v &&& not32 3) ||| mode := by
  apply Nat.eq_of_testBit_eq
  intro i
  simp only [Nat.testBit_mod_two_pow, Nat.testBit_and, Nat.testBit_or, testBit_not32]
  by_cases h : i < 32
  · simp [h]
  · have hm := testBit_mode_high mode i hmode (by omega)
    simp [h, hm]

theorem ofInt32_off : ofInt32 PUD_OFF = 0 := by decide
theorem ofInt32_down : ofInt32 PUD_DOWN = 1 := by decide
theorem ofInt32_up : ofInt32 PUD_UP = 2 := by decide

/-- C4: on plain register memory, for every pin in 0..53 and every mode in
{Off, Down, Up}, `set_pullupdn` appends to the access trace exactly, in this
order: the read and (a) the write of the pull-control word with its low two
bits equal to the mode, (b) a settling delay, (c) the write of `1 << (p % 32)`
to pull-clock word `38 + p / 32`, (d) a settling delay, the read and (e) the
write of the pull-control word with the mode bits cleared, (f) the write of 0
to the pull-clock word. -/
theorem set_pullupdn_latch_sequence (p : Nat) (hp : p < 54) (pud : Int)
    (hpud : pud = PUD_OFF ∨ pud = PUD_DOWN ∨ pud = PUD_UP) (m : Machine) :
    (set_pullupdn plainBus p pud m).trace =
      m.trace ++
        [Access.read PULLUPDN_OFFSET,
         Access.write PULLUPDN_OFFSET ((m.regs PULLUPDN_OFFSET &&& not32 3) ||| ofInt32 pud),
         Access.wait,
         Access.write (PULLUPDNCLK_OFFSET + p / 32) (1 <<< (p % 32)),
         Access.wait,
         Access.read PULLUPDN_OFFSET,
         Access.write PULLUPDN_OFFSET
           (((m.regs PULLUPDN_OFFSET &&& not32 3) ||| ofInt32 pud) &&& not32 3),
         Access.write (PULLUPDNCLK_OFFSET + p / 32) 0] ∧
    ((m.regs PULLUPDN_OFFSET &&& not32 3) ||| ofInt32 pud) &&& 3 = ofInt32 pud := by
  have hne : ¬ (37 = 38 + p / 32) := by omega
  have hud : ¬ (PUD_UP = PUD_DOWN) := by decide
  have hod : ¬ (PUD_OFF = PUD_DOWN) := by decide
  have hou : ¬ (PUD_OFF = PUD_UP) := by decide
  have hb : p % 32 < 32 := Nat.mod_lt _ (by decide)
  have hsh : shl32 1 (p % 32) % 2 ^ 32 = 1 <<< (p % 32) := by
    rw [shl32_one _ hb, Nat.mod_eq_of_lt (two_pow_lt_word _ hb), Nat.one_shiftLeft]
  have hmode : ofInt32 pud < 4 := by
    rcases hpud with h | h | h <;> subst h <;> decide
  constructor
  · rcases hpud with h | h | h <;> subst h
    · simp only [set_pullupdn, hod, hou, if_true, rd, wr, short_wait, plainBus, PULLUPDN_OFFSET,
        PULLUPDNCLK_OFFSET, hne, if_false, List.append_assoc, List.singleton_append,
        List.cons_append, List.nil_append, hsh]
      rw [and_not32_mod, and_not32_mod, ofInt32_off, Nat.or_zero, Nat.zero_mod]
    · simp only [set_pullupdn, if_true, rd, wr, short_wait, plainBus, PULLUPDN_OFFSET,
        PULLUPDNCLK_OFFSET, hne, if_false, List.append_assoc, List.singleton_append,
        List.cons_append, List.nil_append, hsh]
      rw [pull_mode_mod _ _ hmode, and_not32_mod, Nat.zero_mod]
    · simp only [set_pullupdn, hud, if_true, rd, wr, short_wait, plainBus, PULLUPDN_OFFSET,
        PULLUPDNCLK_OFFSET, hne, if_false, List.append_assoc, List.singleton_append,
        List.cons_append, List.nil_append, hsh]
      rw [pull_mode_mod _ _ hmode, and_not32_mod, Nat.zero_mod]
  · have := pull_mode_low (m.regs PULLUPDN_OFFSET) (ofInt32 pud) hmode
    rw [pull_mode_mod _ _ hmode] at this
    exact this

/-- Witness for C4: pin 33, mode Up, the pull-control word holding 5 on entry. -/
theorem set_pullupdn_latch_sequence_witness :
    (set_pullupdn plainBus 33 PUD_UP ⟨fun i => if i = 37 then 5 else 0, []⟩).trace =
      [Access.read 37, Access.write 37 6, Access.wait, Access.write 39 2, Access.wait,
       Access.read 37, Access.write 37 4, Access.write 39 0] :=
  (set_pullupdn_latch_sequence 33 (by decide) PUD_UP (Or.inr (Or.inr rfl))
    ⟨fun i => if i = 37 then 5 else 0, []⟩).1.trans (by decide)

/-- Value returned by `eventdetected`. -/
theorem eventdetected_val (bus : Bus) (p : Nat) (m : Machine) :
    (eventdetected bus p m).1 =
      int32 (m.regs (EVENT_DETECT_OFFSET + p / 32) &&& shl32 1 (p % 32)) := by
  unfold eventdetected
  simp only [rd]
  split <;> rfl

/-- The event-status word after `clear_event_detect` on plain memory is 0. -/
theorem clear_event_detect_word (p : Nat) (m : Machine) :
    (clear_event_detect plainBus p m).regs (EVENT_DETECT_OFFSET + p / 32) = 0 := by
  simp [clear_event_detect, wr, plainBus]

/-- C5: `eventdetected` is consuming on plain register memory: for every pin
in 0..53 and every register content, the second of two consecutive calls
returns 0, so the two calls never both return non-zero. -/
theorem eventdetected_consumes (p : Nat) (_hp : p < 54) (m : Machine) :
    (eventdetected plainBus p (eventdetected plainBus p m).2).1 = 0 ∧
    ¬ ((eventdetected plainBus p m).1 ≠ 0 ∧
        (eventdetected plainBus p (eventdetected plainBus p m).2).1 ≠ 0) := by
  have hb : p % 32 < 32 := Nat.mod_lt _ (by decide)
  have h2 : (eventdetected plainBus p (eventdetected plainBus p m).2).1 = 0 := by
    rw [eventdetected_val]
    by_cases h : int32 (m.regs (EVENT_DETECT_OFFSET + p / 32) &&& shl32 1 (p % 32)) ≠ 0
    · have hm : (eventdetected plainBus p m).2 =
          clear_event_detect plainBus p (rd m (EVENT_DETECT_OFFSET + p / 32)).2 := by
        unfold eventdetected
        simp only [rd] at h ⊢
        rw [if_pos h]
      rw [hm, clear_event_detect_word, Nat.zero_and, int32_zero]
    · have hm : (eventdetected plainBus p m).2 = (rd m (EVENT_DETECT_OFFSET + p / 32)).2 := by
        unfold eventdetected
        simp only [rd] at h ⊢
        rw [if_neg h]
      rw [hm, rd_regs]
      exact not_not.mp h
  exact ⟨h2, fun h => h.2 h2⟩

/-- Witness for C5: pin 31 with every event-status bit pending. -/
theorem eventdetected_consumes_witness :
    (eventdetected plainBus 31 ⟨fun _ => 4294967295, []⟩).1 ≠ 0 ∧
    (eventdetected plainBus 31 (eventdetected plainBus 31 ⟨fun _ => 4294967295, []⟩).2).1 = 0 :=
  ⟨by decide, (eventdetected_consumes 31 (by decide) ⟨fun _ => 4294967295, []⟩).1⟩

/-- C6: for every pin in 0..53 and any bus, `eventdetected` returns non-zero
exactly when bit `p % 32` of event-status word `16 + p / 32` is set on entry;
when it returns 0 it has only read that word (registers unchanged, no write in
the trace), and when it returns non-zero the machine is the one produced by
`clear_event_detect(p)` run right after that read. -/
theorem eventdetected_spec (bus : Bus) (p : Nat) (_hp : p < 54) (m : Machine) :
    ((eventdetected bus p m).1 ≠ 0 ↔
        (m.regs (EVENT_DETECT_OFFSET + p / 32)).testBit (p % 32) = true) ∧
    ((eventdetected bus p m).1 = 0 →
        (eventdetected bus p m).2.regs = m.regs ∧
        (eventdetected bus p m).2.trace =
          m.trace ++ [Access.read (EVENT_DETECT_OFFSET + p / 32)]) ∧
    ((eventdetected bus p m).1 ≠ 0 →
        (eventdetected bus p m).2 =
          clear_event_detect bus p
            ⟨m.regs, m.trace ++ [Access.read (EVENT_DETECT_OFFSET + p / 32)]⟩) := by
  have hb : p % 32 < 32 := Nat.mod_lt _ (by decide)
  refine ⟨?_, ?_, ?_⟩
  · rw [eventdetected_val, Ne, int32_and_bit_eq_zero_iff _ _ hb]
    simp
  · intro h
    rw [eventdetected_val] at h
    have hn : ¬ (int32 (m.regs (EVENT_DETECT_OFFSET + p / 32) &&& shl32 1 (p % 32)) ≠ 0) :=
      not_not.mpr h
    unfold eventdetected
    simp only [rd]
    rw [if_neg hn]
    exact ⟨rfl, rfl⟩
  · intro h
    rw [eventdetected_val] at h
    unfold eventdetected
    simp only [rd]
    rw [if_pos h]

/-- Witness for C6: pin 40 with bit 8 of event-status word 17 pending, on the mock bus. -/
theorem eventdetected_spec_witness :
    (eventdetected mockBus 40 ⟨fun i => if i = 17 then 256 else 0, []⟩).1 ≠ 0 ∧
    (eventdetected mockBus 40 ⟨fun i => if i = 17 then 256 else 0, []⟩).2.trace =
      [Access.read 17, Access.read 17, Access.write 17 256, Access.wait, Access.write 17 0] :=
  ⟨(eventdetected_spec mockBus 40 (by decide) ⟨fun i => if i = 17 then 256 else 0, []⟩).1.mpr
      (by decide),
    by decide⟩

/-! ## Simulated clock -/

/-- On the simulated clock, `delta_time_in_microseconds` of two readings is
the difference of the two times. -/
theorem delta_timevalOf (b a : Nat) :
    delta_time_in_microseconds (timevalOf b) (timevalOf a) = (b : Int) - (a : Int) := by
  unfold delta_time_in_microseconds timevalOf
  simp only
  split <;> omega

theorem microCycles_nonpos (tpulse : Int) (h : ¬ tpulse > 0) : microCycles tpulse = 0 := by
  unfold microCycles
  omega

theorem microCycles_pos (tpulse : Int) (h : tpulse > 0) :
    microCycles tpulse = microCycles (tpulse - 26) + 1 := by
  unfold microCycles
  omega

/-- On the simulated clock the carrier loop ends, after `microCycles tpulse`
micro-cycles of 25 µs each. -/
theorem pulse_loop_sim (gpio : Nat) (fuel : Nat) :
    ∀ (tpulse : Int) (s : Sim), microCycles tpulse ≤ fuel →
      ∃ s1, pulse_loop simWorld gpio fuel tpulse s = some s1 ∧
        s1.now = s.now + 25 * microCycles tpulse := by
  induction fuel with
  | zero =>
    intro tpulse s hf
    have h0 : microCycles tpulse = 0 := by omega
    have hn : ¬ tpulse > 0 := by
      intro hpos
      have := microCycles_pos tpulse hpos
      omega
    refine ⟨s, ?_, by omega⟩
    simp [pulse_loop, hn]
  | succ fuel ih =>
    intro tpulse s hf
    by_cases hpos : tpulse > 0
    · have hc := microCycles_pos tpulse hpos
      obtain ⟨s1, h1, h2⟩ := ih (tpulse - 26)
        (simWorld.bcm2835_delayMicroseconds 12
          (simWorld.bcm2835_gpio_write gpio 0
            (simWorld.bcm2835_delayMicroseconds 13
              (simWorld.bcm2835_gpio_write gpio 1 s)))) (by omega)
      refine ⟨s1, ?_, ?_⟩
      · simp only [pulse_loop, hpos, if_true]
        exact h1
      · rw [h2, hc]
        simp only [simWorld]
        omega
    · refine ⟨s, ?_, ?_⟩
      · simp [pulse_loop, hpos]
      · rw [microCycles_nonpos tpulse hpos]
        omega

theorem uint64_of_nonneg (t : Int) (h0 : 0 ≤ t) (h1 : t < 2 ^ 63) : ((uint64 t : Nat) : Int) = t := by
  unfold uint64
  omega

/-- C7 (as amended): over the simulated clock (each delay advances time by
exactly its argument, pin writes take no time), `gpio_pulsepause` returns 0
after `ceil (tpulse / 26)` micro-cycles of 13 µs high and 12 µs low: the
pulse component of the pair is `25 * ceil (tpulse / 26)`, where
`26 * ceil (tpulse / 26) ≥ tpulse`, and the pause component equals `tpause`
(for `tpause` a non-negative `long`). -/
theorem gpio_pulsepause_sim (gpio : Nat) (tpulse tpause : Int) (h0 : 0 ≤ tpause)
    (h1 : tpause < 2 ^ 63) (fuel : Nat) (hf : microCycles tpulse ≤ fuel) (s : Sim) :
    (gpio_pulsepause simWorld gpio tpulse tpause fuel s).map (fun r => (r.1, r.2.1)) =
      some (0, { pulse := 25 * (microCycles tpulse : Int), pause := tpause }) ∧
    tpulse ≤ 26 * (microCycles tpulse : Int) := by
  constructor
  · obtain ⟨s1, hs1, hnow⟩ := pulse_loop_sim gpio fuel tpulse s hf
    have hd := uint64_of_nonneg tpause h0 h1
    unfold gpio_pulsepause
    simp only [simWorld] at hs1 ⊢
    rw [hs1]
    simp only [Option.map_some', delta_timevalOf, hnow]
    congr 2
    · congr 1
      · push_cast
        omega
      · push_cast
        omega
  · unfold microCycles
    omega

/-- Witness for C7 (as amended): `gpio_pulsepause(pin, 100, 50)` returns the pair (100, 50). -/
theorem gpio_pulsepause_sim_witness :
    (gpio_pulsepause simWorld 4 100 50 4 (simStart (fun _ => false))).map
        (fun r => (r.1, r.2.1)) = some (0, { pulse := 100, pause := 50 }) :=
  (gpio_pulsepause_sim 4 100 50 (by decide) (by decide) 4 (by decide)
    (simStart (fun _ => false))).1.trans (by decide)

/-- Counterexample to C7 as stated: on the simulated clock
`gpio_pulsepause(pin, 26, 50)` runs one micro-cycle of 13 + 12 µs and returns
a pulse component of 25, which is below the requested 26. -/
theorem gpio_pulsepause_short_pulse :
    ∃ r, gpio_pulsepause simWorld 4 26 50 4 (simStart (fun _ => false)) = some r ∧
      r.2.1.pulse = 25 ∧ ¬ (r.2.1.pulse ≥ 26) :=
  ⟨_, rfl, by decide, by decide⟩

/-! ## Capture on the simulated pin -/

theorem levelInt_ne (v : Bool) : levelInt (!v) ≠ levelInt v := by
  cases v <;> decide

theorem stage_loop_exit {σ : Type} (W : World σ) (gpio : Nat) (value : Int) (tStart : Timeval)
    (fuel : Nat) (vread tStage : Int) (s : σ)
    (h : ¬ (vread = value ∧ tStage < PULSEPAIR_TIMEOUTSTAGE)) :
    stage_loop W gpio value tStart fuel vread tStage s = some (vread, tStage, s) := by
  cases fuel <;> simp [stage_loop, h]

/-- One stage on the simulated pin: if the level stays at `v` strictly
between `a` and `a + d`, and either `d` is the timeout or the level differs
at `a + d`, the inner loop ends at time `a + d` with `tStage = d`. -/
theorem stage_loop_sim (gpio : Nat) (L : Nat → Bool) (wave : List (Nat × Nat × Int))
    (a d : Nat) (v : Bool) (hd : d ≤ 65000)
    (hold : ∀ t, 0 < t → t < d → L (a + t) = v)
    (hend : d = 65000 ∨ L (a + d) = !v) (fuel : Nat) :
    ∀ k, k < d → d - k ≤ fuel →
      stage_loop simWorld gpio (levelInt v) (timevalOf a) fuel (levelInt v) (k : Int)
          { now := a + k, level := L, wave := wave } =
        some (levelInt (L (a + d)), (d : Int), { now := a + d, level := L, wave := wave }) := by
  induction fuel with
  | zero => intro k hk hf; omega
  | succ fuel ih =>
    intro k hk hf
    have hcond : levelInt v = levelInt v ∧ (k : Int) < PULSEPAIR_TIMEOUTSTAGE := by
      refine ⟨rfl, ?_⟩
      unfold PULSEPAIR_TIMEOUTSTAGE
      omega
    have hdelta : delta_time_in_microseconds (timevalOf (a + k + 1)) (timevalOf a)
        = ((k + 1 : Nat) : Int) := by
      rw [delta_timevalOf]
      push_cast
      omega
    simp only [stage_loop, hcond, and_self, if_true, simWorld, hdelta]
    by_cases hlast : k + 1 = d
    · have hx : ¬ (levelInt (L (a + k + 1)) = levelInt v ∧
          (((k + 1 : Nat) : Int)) < PULSEPAIR_TIMEOUTSTAGE) := by
        rcases hend with h | h
        · intro hc
          have := hc.2
          unfold PULSEPAIR_TIMEOUTSTAGE at this
          omega
        · intro hc
          have h' : L (a + k + 1) = !v := by
            have : a + k + 1 = a + d := by omega
            rw [this]; exact h
          rw [h'] at hc
          exact levelInt_ne v hc.1
      rw [stage_loop_exit _ _ _ _ _ _ _ _ hx]
      have e1 : a + k + 1 = a + d := by omega
      rw [e1, hlast]
    · have hL : L (a + k + 1) = v := by
        have := hold (k + 1) (by omega) (by omega)
        rw [← this]
        congr 1
      rw [hL]
      have := ih (k + 1) (by omega) (by omega)
      have e1 : a + (k + 1) = a + k + 1 := by omega
      rw [e1] at this
      exact this

theorem set_last {α : Type} (l : List α) (x y : α) : (l ++ [x]).set l.length y = l ++ [y] := by
  induction l with
  | nil => rfl
  | cons h t ih => simp [List.set, ih]

/-- Storing one more pair in the table of `caps`, the way the loop body does. -/
theorem tableOf_snoc (caps : List (Int × Int)) (x : Int × Int) :
    tableOf (caps ++ [x]) =
      if caps.length ≠ 0 then
        { pairs := ((tableOf caps).pairs ++ [none]).set caps.length (some x),
          size := caps.length + 1 }
      else
        { tableOf caps with pairs := (tableOf caps).pairs.set caps.length (some x) } := by
  cases caps with
  | nil => simp [tableOf]
  | cons c cs =>
    have h := set_last ((c :: cs).map some) none (some x)
    rw [List.length_map] at h
    simp only [tableOf, List.cons_append, List.length_cons, ne_eq, Nat.add_one_ne_zero,
      not_false_eq_true, if_true, List.map_cons, List.map_append, List.length_append,
      List.length_nil, List.length_singleton] at h ⊢
    rw [h]
    simp

theorem stage_update_low (a : Nat) (caps : List (Int × Int)) (pl pa ts vread tStage : Int)
    (tStart : Timeval) :
    stage_update simWorld (watchAt false a caps pl pa ts) vread tStage tStart =
      ({ value := vread, vread := vread, size := caps.length,
         finish := if tStage ≥ PULSEPAIR_TIMEOUTSTAGE then true else false,
         pulse := tStage, pause := pa, tStage := tStage, tStart := tStart,
         pulsepairs := tableOf caps }, false) := by
  simp [stage_update, watchAt, levelInt]

theorem stage_update_high (a : Nat) (caps : List (Int × Int)) (pl pa ts vread tStage : Int)
    (tStart : Timeval) (hpl : pl ≠ 0) :
    stage_update simWorld (watchAt true a caps pl pa ts) vread tStage tStart =
      ({ value := vread, vread := vread,
         size := (caps ++ [(intCell pl, intCell tStage)]).length,
         finish := if tStage ≥ PULSEPAIR_TIMEOUTSTAGE then true else false,
         pulse := 0, pause := 0, tStage := tStage, tStart := tStart,
         pulsepairs := tableOf (caps ++ [(intCell pl, intCell tStage)]) }, false) := by
  rw [tableOf_snoc]
  by_cases hc : caps.length = 0
  · simp [stage_update, watchAt, levelInt, hpl, hc]
  · simp [stage_update, watchAt, levelInt, hpl, hc, simWorld]

theorem signal_zero (ds : List Nat) (v : Bool) (hpos : ∀ d ∈ ds, 0 < d) : signal ds v 0 = v := by
  cases ds with
  | nil => rfl
  | cons d ds =>
    have : 0 < d := hpos d (List.mem_cons_self d ds)
    simp [signal, this]

theorem Follows.hold {L : Nat → Bool} {a d : Nat} {ds : List Nat} {v : Bool}
    (h : Follows L a (d :: ds) v) : ∀ t, 0 < t → t < d → L (a + t) = v := by
  intro t h0 ht
  have := h t h0 (by simp only [List.sum_cons]; omega)
  simpa [signal, ht] using this

theorem Follows.toggle {L : Nat → Bool} {a d : Nat} {ds : List Nat} {v : Bool}
    (h : Follows L a (d :: ds) v) (hd : 0 < d) (hpos : ∀ x ∈ ds, 0 < x) :
    L (a + d) = !v := by
  have := h d hd (by simp only [List.sum_cons]; omega)
  simpa [signal, signal_zero ds (!v) hpos] using this

theorem Follows.tail {L : Nat → Bool} {a d : Nat} {ds : List Nat} {v : Bool}
    (h : Follows L a (d :: ds) v) : Follows L (a + d) ds (!v) := by
  intro t h0 ht
  have := h (d + t) (by omega) (by simp only [List.sum_cons]; omega)
  have e : ¬ (d + t < d) := by omega
  rw [Nat.add_assoc, this]
  simp [signal, e]

theorem Follows.idle {L : Nat → Bool} {a : Nat} {v : Bool}
    (h : Follows L a [] v) : ∀ t, 0 < t → t ≤ 65000 → L (a + t) = v := by
  intro t h0 ht
  have := h t h0 (by simpa using ht)
  simpa [signal] using this

theorem watch_loop_finished {σ : Type} (W : World σ) (gpio inner fuel : Nat) (st : WatchState)
    (s : σ) (h : st.finish = true) : watch_loop W gpio inner fuel st s = some (st, s) := by
  cases fuel <;> simp [watch_loop, h]

theorem sim_gettimeofday (s : Sim) : simWorld.gettimeofday s = (timevalOf s.now, s) := rfl

theorem watch_loop_step (gpio inner fuel : Nat) (v : Bool) (a : Nat) (caps : List (Int × Int))
    (pl pa ts : Int) (s : Sim) :
    watch_loop simWorld gpio inner (fuel + 1) (watchAt v a caps pl pa ts) s =
      match stage_loop simWorld gpio (levelInt v) (timevalOf a) inner (levelInt v) 0 s with
      | none => none
      | some (vread, tStage, s1) =>
        if (stage_update simWorld (watchAt v a caps pl pa ts) vread tStage (timevalOf s1.now)).2
        then some ((stage_update simWorld (watchAt v a caps pl pa ts) vread tStage
          (timevalOf s1.now)).1, s1)
        else watch_loop simWorld gpio inner fuel
          (stage_update simWorld (watchAt v a caps pl pa ts) vread tStage (timevalOf s1.now)).1
          s1 := by
  rw [watch_loop]
  have hfin : (watchAt v a caps pl pa ts).finish = false := rfl
  rw [hfin]
  simp only [Bool.false_eq_true, if_false]
  have hv : (watchAt v a caps pl pa ts).value = levelInt v := rfl
  have hvr : (watchAt v a caps pl pa ts).vread = levelInt v := rfl
  have hts : (watchAt v a caps pl pa ts).tStart = timevalOf a := rfl
  rw [hv, hvr, hts]
  cases stage_loop simWorld gpio (levelInt v) (timevalOf a) inner (levelInt v) 0 s with
  | none => rfl
  | some r =>
    obtain ⟨vread, tStage, s1⟩ := r
    rfl

theorem watch_loop_sim (gpio inner : Nat) (hin : 65000 ≤ inner) (L : Nat → Bool)
    (wave : List (Nat × Nat × Int)) :
    ∀ (ds : List Nat), (∀ d ∈ ds, 0 < d ∧ d < 65000) →
    ∀ (v : Bool) (a : Nat) (caps : List (Int × Int)) (pl pa ts : Int) (fuel : Nat),
      Follows L a ds v → (v = true → pl ≠ 0 ∧ intCell pl = pl) → ds.length + 2 ≤ fuel →
      ∃ st1 s1,
        watch_loop simWorld gpio inner fuel (watchAt v a caps pl pa ts)
            { now := a, level := L, wave := wave } = some (st1, s1) ∧
        st1.size =
          (caps ++ pairUp ((if v then [pl] else []) ++ ds.map Int.ofNat ++ [65000])).length ∧
        st1.pulsepairs =
          tableOf (caps ++ pairUp ((if v then [pl] else []) ++ ds.map Int.ofNat ++ [65000])) := by
  intro ds
  induction ds with
  | nil =>
    intro _ v a caps pl pa ts fuel hF hpl hfuel
    obtain ⟨fuel, rfl⟩ : ∃ f, fuel = f + 1 := ⟨fuel - 1, by omega⟩
    have hst := stage_loop_sim gpio L wave a 65000 v (le_refl _)
      (fun t h0 ht => hF.idle t h0 (by omega)) (Or.inl rfl) inner 0 (by decide) (by omega)
    have hL : L (a + 65000) = v := hF.idle 65000 (by decide) (le_refl _)
    simp only [Nat.add_zero, Nat.cast_zero, hL] at hst
    rw [watch_loop_step, hst]
    have hT : (if ((65000 : Nat) : Int) ≥ PULSEPAIR_TIMEOUTSTAGE then true else false) = true := by
      decide
    cases v with
    | false =>
      simp only [stage_update_low, hT, Bool.false_eq_true, if_false]
      rw [watch_loop_finished _ _ _ _ _ _ rfl]
      exact ⟨_, _, rfl, by simp [pairUp], by simp [pairUp]⟩
    | true =>
      have hp : pl ≠ 0 := (hpl rfl).1
      have hc : intCell ((65000 : Nat) : Int) = ((65000 : Nat) : Int) := by decide
      simp only [stage_update_high _ _ _ _ _ _ _ _ hp, hT, Bool.false_eq_true, if_false,
        (hpl rfl).2, hc]
      rw [watch_loop_finished _ _ _ _ _ _ rfl]
      exact ⟨_, _, rfl, by simp [pairUp], by simp [pairUp]⟩
  | cons d ds ih =>
    intro hds v a caps pl pa ts fuel hF hpl hfuel
    obtain ⟨fuel, rfl⟩ : ∃ f, fuel = f + 1 := ⟨fuel - 1, by simp at hfuel; omega⟩
    have hd := hds d (List.mem_cons_self d ds)
    have hds1 : ∀ x ∈ ds, 0 < x ∧ x < 65000 := fun x hx => hds x (List.mem_cons_of_mem d hx)
    have hst := stage_loop_sim gpio L wave a d v (by omega) hF.hold
      (Or.inr (hF.toggle hd.1 (fun x hx => (hds1 x hx).1))) inner 0 hd.1 (by omega)
    have hL : L (a + d) = !v := hF.toggle hd.1 (fun x hx => (hds1 x hx).1)
    simp only [Nat.add_zero, Nat.cast_zero, hL] at hst
    rw [watch_loop_step, hst]
    have hT : (if ((d : Nat) : Int) ≥ PULSEPAIR_TIMEOUTSTAGE then true else false) = false := by
      have : ¬ (((d : Nat) : Int) ≥ PULSEPAIR_TIMEOUTSTAGE) := by
        unfold PULSEPAIR_TIMEOUTSTAGE
        omega
      simp [this]
    have hfuel1 : ds.length + 2 ≤ fuel := by simp at hfuel; omega
    cases v with
    | false =>
      simp only [stage_update_low, hT, Bool.false_eq_true, if_false, Bool.not_false]
      have hdz : ((d : Nat) : Int) ≠ 0 := by omega
      obtain ⟨st1, s1, h1, h2, h3⟩ := ih hds1 true (a + d) caps (d : Int) pa (d : Int) fuel
        hF.tail (fun _ => ⟨hdz, intCell_nat d (by omega)⟩) hfuel1
      refine ⟨st1, s1, h1, ?_, ?_⟩
      · rw [h2]; simp
      · rw [h3]; simp
    | true =>
      have hp : pl ≠ 0 := (hpl rfl).1
      simp only [stage_update_high _ _ _ _ _ _ _ _ hp, hT, Bool.false_eq_true, if_false,
        Bool.not_true, (hpl rfl).2, intCell_nat d (by omega)]
      obtain ⟨st1, s1, h1, h2, h3⟩ := ih hds1 false (a + d) (caps ++ [(pl, (d : Int))]) 0 0
        (d : Int) fuel hF.tail (fun h => by cases h) hfuel1
      refine ⟨st1, s1, h1, ?_, ?_⟩
      · rw [h2]; simp [pairUp]
      · rw [h3]; simp [pairUp]

theorem storedPairs_tableOf (caps : List (Int × Int)) : storedPairs (tableOf caps) = caps := by
  cases caps with
  | nil => rfl
  | cons c cs =>
    simp only [storedPairs, tableOf]
    rw [List.filterMap_map]
    simp

/-- Outcome of a capture on the simulated pin, for a level function that
follows the alternation `ds` from time 0, starting low. -/
theorem gpio_watchpulsepairs_sim (gpio : Nat) (ds : List Nat)
    (hds : ∀ d ∈ ds, 0 < d ∧ d < 65000) (L : Nat → Bool) (hL : Follows L 0 ds false)
    (fuel : Nat) (h1 : 65000 ≤ fuel) (h2 : ds.length + 2 ≤ fuel) :
    ∃ s1, gpio_watchpulsepairs simWorld gpio fuel (simStart L) =
      some (if (pairUp (ds.map Int.ofNat ++ [65000])).length < PULSEPAIR_MINPAIRS then 0 else 1,
        tableOf (pairUp (ds.map Int.ofNat ++ [65000])), s1) := by
  obtain ⟨st1, s1, h, hsize, htab⟩ :=
    watch_loop_sim gpio fuel h1 L [] ds hds false 0 [] 0 0 0 fuel hL (fun h => by cases h) h2
  refine ⟨s1, ?_⟩
  have h' : watch_loop simWorld gpio fuel fuel
      { value := 0, vread := 0, size := 0, finish := false, pulse := 0, pause := 0,
        tStage := 0, tStart := timevalOf 0, pulsepairs := { pairs := [none], size := 1 } }
      (simStart L) = some (st1, s1) := h
  simp only [gpio_watchpulsepairs, sim_gettimeofday, simStart] at h' ⊢
  rw [h']
  simp only [List.nil_append, Bool.false_eq_true, if_false] at hsize htab
  simp only [hsize, htab]
  split <;> rfl

theorem pairUp_durationsOf (ps : List (Nat × Nat)) (x : Int) :
    pairUp ((durationsOf ps).map Int.ofNat ++ [x]) = pairsOf ps := by
  induction ps with
  | nil => rfl
  | cons p ps ih =>
    have hstep : pairUp (Int.ofNat p.1 :: Int.ofNat p.2 ::
        ((durationsOf ps).map Int.ofNat ++ [x])) =
        (Int.ofNat p.1, Int.ofNat p.2) :: pairUp ((durationsOf ps).map Int.ofNat ++ [x]) := rfl
    simp only [durationsOf, List.map_cons, List.cons_append]
    rw [hstep, ih]
    rfl

theorem durationsOf_length (ps : List (Nat × Nat)) : (durationsOf ps).length = 2 * ps.length := by
  induction ps with
  | nil => rfl
  | cons p ps ih => simp only [durationsOf, List.length_cons, ih]; omega

theorem durationsOf_bound (ps : List (Nat × Nat))
    (h : ∀ p ∈ ps, (0 < p.1 ∧ p.1 < 65000) ∧ (0 < p.2 ∧ p.2 < 65000)) :
    ∀ d ∈ durationsOf ps, 0 < d ∧ d < 65000 := by
  induction ps with
  | nil => intro d hd; cases hd
  | cons p ps ih =>
    intro d hd
    simp only [durationsOf, List.mem_cons] at hd
    rcases hd with rfl | rfl | hd
    · exact (h p (List.mem_cons_self p ps)).1
    · exact (h p (List.mem_cons_self p ps)).2
    · exact ih (fun q hq => h q (List.mem_cons_of_mem p hq)) d hd

theorem follows_signal (ds : List Nat) (v : Bool) : Follows (signal ds v) 0 ds v := by
  intro t _ _
  rw [Nat.zero_add]

theorem pairUp_get (x : Int) :
    ∀ (k : Nat) (ds : List Nat), 2 * k + 1 < ds.length →
      (pairUp (ds.map Int.ofNat ++ [x]))[k]? =
        some (Int.ofNat (ds.getD (2 * k) 0), Int.ofNat (ds.getD (2 * k + 1) 0)) := by
  intro k
  induction k with
  | zero =>
    intro ds h
    match ds, h with
    | a :: b :: rest, _ =>
      have hstep : pairUp ((a :: b :: rest).map Int.ofNat ++ [x]) =
          (Int.ofNat a, Int.ofNat b) :: pairUp (rest.map Int.ofNat ++ [x]) := rfl
      rw [hstep]
      simp
  | succ k ih =>
    intro ds h
    match ds, h with
    | a :: b :: rest, h =>
      have hr : 2 * k + 1 < rest.length := by
        simp only [List.length_cons] at h
        omega
      have hstep : pairUp ((a :: b :: rest).map Int.ofNat ++ [x]) =
          (Int.ofNat a, Int.ofNat b) :: pairUp (rest.map Int.ofNat ++ [x]) := rfl
      have e1 : 2 * (k + 1) = 2 * k + 1 + 1 := by omega
      have e2 : 2 * (k + 1) + 1 = 2 * k + 1 + 1 + 1 := by omega
      rw [hstep, List.getElem?_cons_succ, ih rest hr, e2, e1]
      simp

/-- C8 (as amended): over the simulated pin and clock (sampling the pin takes 1 µs,
reading the clock takes no time), for a signal that starts low and consists
of the (pulse, pause) intervals `ps`, each a low duration followed by a high
duration, every duration strictly between 0 and
65000 µs, followed by an idle period of at least 65000 µs:
with exactly 5 intervals `gpio_watchpulsepairs` returns 1 and a 5-row table
whose pulse and pause values are the fed durations; with 4 intervals it
returns 0. -/
theorem watch_five_intervals (gpio : Nat) (ps : List (Nat × Nat))
    (hps : ∀ p ∈ ps, (0 < p.1 ∧ p.1 < 65000) ∧ (0 < p.2 ∧ p.2 < 65000))
    (L : Nat → Bool) (hL : Follows L 0 (durationsOf ps) false)
    (fuel : Nat) (hfuel : 65000 ≤ fuel) :
    (ps.length = 5 →
      (gpio_watchpulsepairs simWorld gpio fuel (simStart L)).map (fun r => (r.1, r.2.1)) =
        some (1, { pairs := (pairsOf ps).map some, size := 5 })) ∧
    (ps.length = 4 →
      (gpio_watchpulsepairs simWorld gpio fuel (simStart L)).map (fun r => r.1) = some 0) := by
  have hlen := durationsOf_length ps
  constructor
  · intro h5
    obtain ⟨s1, h⟩ := gpio_watchpulsepairs_sim gpio (durationsOf ps) (durationsOf_bound ps hps)
      L hL fuel hfuel (by omega)
    rw [h, pairUp_durationsOf]
    have hl : (pairsOf ps).length = 5 := by simp [pairsOf, h5]
    have hne : ¬ ((pairsOf ps).length < PULSEPAIR_MINPAIRS) := by
      rw [hl]; decide
    simp only [hne, if_false, Option.map_some']
    match hq : pairsOf ps, hl with
    | c :: cs, hl => simp [tableOf, hl]
  · intro h4
    obtain ⟨s1, h⟩ := gpio_watchpulsepairs_sim gpio (durationsOf ps) (durationsOf_bound ps hps)
      L hL fuel hfuel (by omega)
    rw [h, pairUp_durationsOf]
    have hl : (pairsOf ps).length = 4 := by simp [pairsOf, h4]
    have hlt : (pairsOf ps).length < PULSEPAIR_MINPAIRS := by
      rw [hl]; decide
    simp only [hlt, if_true, Option.map_some']

/-- Witness for C8 (as amended): five intervals (100, 200), (300, 400), ..., (900, 1000) µs. -/
theorem watch_five_intervals_witness :
    (gpio_watchpulsepairs simWorld 17 65000
        (simStart (signal [100, 200, 300, 400, 500, 600, 700, 800, 900, 1000] false))).map
          (fun r => (r.1, r.2.1)) =
      some (1, { pairs := [some (100, 200), some (300, 400), some (500, 600), some (700, 800),
                           some (900, 1000)],
                 size := 5 }) :=
  (watch_five_intervals 17 [(100, 200), (300, 400), (500, 600), (700, 800), (900, 1000)]
    (by decide) _ (follows_signal _ false) 65000 (le_refl _)).1 rfl

/-- The loop body keeps the table in step with the local pair count. -/
theorem stage_update_inv {σ : Type} (W : World σ) (st : WatchState) (vread tStage : Int)
    (tStart : Timeval) (h : ∃ caps, st.size = caps.length ∧ st.pulsepairs = tableOf caps) :
    ∃ caps, (stage_update W st vread tStage tStart).1.size = caps.length ∧
      (stage_update W st vread tStage tStart).1.pulsepairs = tableOf caps := by
  obtain ⟨caps, hs, ht⟩ := h
  unfold stage_update
  by_cases hv : st.value = 0
  · rw [if_pos hv]
    exact ⟨caps, hs, ht⟩
  · rw [if_neg hv]
    by_cases hp : st.pulse ≠ 0
    · rw [if_pos hp]
      by_cases hz : st.size ≠ 0
      · rw [if_pos hz]
        by_cases hr : W.realloc_ok (st.size + 1) = true
        · rw [if_pos hr]
          refine ⟨caps ++ [(intCell st.pulse, intCell tStage)], by simp [hs], ?_⟩
          have hc : caps.length ≠ 0 := by rw [← hs]; exact hz
          rw [tableOf_snoc, if_pos hc, ht, hs]
        · rw [if_neg hr]
          exact ⟨caps, hs, ht⟩
      · rw [if_neg hz]
        refine ⟨caps ++ [(intCell st.pulse, intCell tStage)], by simp [hs], ?_⟩
        have hc : ¬ (caps.length ≠ 0) := by rw [← hs]; exact hz
        rw [tableOf_snoc, if_neg hc, ht, hs]
    · rw [if_neg hp]
      exact ⟨caps, hs, ht⟩

/-- The outer loop keeps the table in step with the local pair count. -/
theorem watch_loop_inv {σ : Type} (W : World σ) (gpio inner : Nat) :
    ∀ (fuel : Nat) (st : WatchState) (s : σ) (st1 : WatchState) (s1 : σ),
      (∃ caps, st.size = caps.length ∧ st.pulsepairs = tableOf caps) →
      watch_loop W gpio inner fuel st s = some (st1, s1) →
      ∃ caps, st1.size = caps.length ∧ st1.pulsepairs = tableOf caps := by
  intro fuel
  induction fuel with
  | zero =>
    intro st s st1 s1 hinv h
    by_cases hf : st.finish = true
    · simp only [watch_loop, hf, if_true, Option.some.injEq, Prod.mk.injEq] at h
      rw [← h.1]; exact hinv
    · simp [watch_loop, hf] at h
  | succ fuel ih =>
    intro st s st1 s1 hinv h
    by_cases hf : st.finish = true
    · simp only [watch_loop, hf, if_true, Option.some.injEq, Prod.mk.injEq] at h
      rw [← h.1]; exact hinv
    · rw [watch_loop] at h
      simp only [hf, Bool.false_eq_true, if_false] at h
      cases hst : stage_loop W gpio st.value st.tStart inner st.vread 0 s with
      | none => rw [hst] at h; cases h
      | some r =>
        obtain ⟨vread, tStage, s2⟩ := r
        rw [hst] at h
        simp only at h
        have hinv1 := stage_update_inv W st vread tStage (W.gettimeofday s2).1 hinv
        by_cases hb : (stage_update W st vread tStage (W.gettimeofday s2).1).2 = true
        · simp only [hb, if_true, Option.some.injEq, Prod.mk.injEq] at h
          rw [← h.1]; exact hinv1
        · simp only [hb, Bool.false_eq_true, if_false] at h
          exact ih _ _ _ _ hinv1 h

/-- C9: completion policy of `gpio_watchpulsepairs`, for every outside world
(signal, clock, `realloc` behaviour) on which the call returns: it returns 0
if and only if fewer than `PULSEPAIR_MINPAIRS` (5) pairs were stored, and
otherwise returns 1 with every row of the table written and the `size` field
equal to the number of stored pairs. -/
theorem watch_completion_policy {σ : Type} (W : World σ) (gpio fuel : Nat) (s : σ)
    (r : Int × PulsePairs × σ) (h : gpio_watchpulsepairs W gpio fuel s = some r) :
    (r.1 = 0 ↔ (storedPairs r.2.1).length < PULSEPAIR_MINPAIRS) ∧
    (r.1 ≠ 0 →
      r.1 = 1 ∧ r.2.1.pairs = (storedPairs r.2.1).map some ∧
      r.2.1.size = (storedPairs r.2.1).length) := by
  unfold gpio_watchpulsepairs at h
  simp only at h
  cases hw : watch_loop W gpio fuel fuel
      { value := 0, vread := 0, size := 0, finish := false, pulse := 0, pause := 0,
        tStage := 0, tStart := (W.gettimeofday s).1,
        pulsepairs := { pairs := [none], size := 1 } } (W.gettimeofday s).2 with
  | none => rw [hw] at h; cases h
  | some q =>
    obtain ⟨st1, s2⟩ := q
    rw [hw] at h
    obtain ⟨caps, hsz, htab⟩ := watch_loop_inv W gpio fuel fuel _ _ st1 s2 ⟨[], rfl, rfl⟩ hw
    simp only at h
    by_cases hlt : st1.size < PULSEPAIR_MINPAIRS
    · rw [if_pos hlt] at h
      cases h
      simp only [htab, storedPairs_tableOf, ← hsz, hlt, ne_eq, not_true_eq_false,
        false_implies, and_self]
    · rw [if_neg hlt] at h
      cases h
      simp only [htab, storedPairs_tableOf, ← hsz, hlt, one_ne_zero, ne_eq, not_false_eq_true,
        true_implies, true_and, false_iff]
      have hpos : 0 < caps.length := by
        unfold PULSEPAIR_MINPAIRS at hlt
        omega
      rw [hsz]
      match caps, hpos with
      | c :: cs, _ => exact ⟨rfl, rfl⟩

/-- Witness for C9: a capture of four intervals on the simulated pin returns 0. -/
theorem watch_completion_policy_witness :
    ∃ r, gpio_watchpulsepairs simWorld 17 65000
        (simStart (signal [100, 200, 300, 400, 500, 600, 700, 800] false)) = some r ∧
      (r.1 = 0 ↔ (storedPairs r.2.1).length < PULSEPAIR_MINPAIRS) ∧
      (storedPairs r.2.1).length = 4 := by
  obtain ⟨s1, h⟩ := gpio_watchpulsepairs_sim 17 [100, 200, 300, 400, 500, 600, 700, 800]
    (by decide) _ (follows_signal _ false) 65000 (le_refl _) (by decide)
  exact ⟨_, h, (watch_completion_policy simWorld 17 65000 _ _ h).1,
    by rw [storedPairs_tableOf]; rfl⟩

/-- C10: pairing rule of `gpio_watchpulsepairs` on the simulated pin.  At a
transition, when the level that just ended was low its duration becomes the
pending pulse and the table is unchanged; when it was high and a pulse is
pending, the pending pulse and the duration are appended as one pair (each
converted to the `int` cell it is stored in, which leaves every value in the
range of `int` unchanged) and the pending pulse is reset.  Consequently, for a signal that starts low and
alternates with durations `ds`, each strictly between 0 and 65000 µs, then
idles, the call returns and the `k`-th stored pair is the `(2k+1)`-th and
`(2k+2)`-th durations, in order of occurrence. -/
theorem watch_pairing_rule (gpio : Nat) (ds : List Nat)
    (hds : ∀ d ∈ ds, 0 < d ∧ d < 65000) (L : Nat → Bool) (hL : Follows L 0 ds false)
    (fuel : Nat) (h1 : 65000 ≤ fuel) (h2 : ds.length + 2 ≤ fuel) :
    (∀ (a : Nat) (caps : List (Int × Int)) (pl pa ts vread tStage : Int) (tStart : Timeval),
      (stage_update simWorld (watchAt false a caps pl pa ts) vread tStage tStart).1.pulse = tStage ∧
      (stage_update simWorld (watchAt false a caps pl pa ts) vread tStage tStart).1.pulsepairs =
        tableOf caps) ∧
    (∀ (a : Nat) (caps : List (Int × Int)) (pl pa ts vread tStage : Int) (tStart : Timeval),
      pl ≠ 0 →
      (stage_update simWorld (watchAt true a caps pl pa ts) vread tStage tStart).1.pulse = 0 ∧
      (stage_update simWorld (watchAt true a caps pl pa ts) vread tStage tStart).1.pulsepairs =
        tableOf (caps ++ [(intCell pl, intCell tStage)])) ∧
    (∀ x : Int, -2 ^ 31 ≤ x → x < 2 ^ 31 → intCell x = x) ∧
    ∃ r, gpio_watchpulsepairs simWorld gpio fuel (simStart L) = some r ∧
      storedPairs r.2.1 = pairUp (ds.map Int.ofNat ++ [65000]) ∧
      ∀ k, 2 * k + 1 < ds.length →
        (storedPairs r.2.1)[k]? =
          some (Int.ofNat (ds.getD (2 * k) 0), Int.ofNat (ds.getD (2 * k + 1) 0)) := by
  refine ⟨?_, ?_, intCell_of_range, ?_⟩
  · intro a caps pl pa ts vread tStage tStart
    rw [stage_update_low]
    exact ⟨rfl, rfl⟩
  · intro a caps pl pa ts vread tStage tStart hpl
    rw [stage_update_high _ _ _ _ _ _ _ _ hpl]
    exact ⟨rfl, rfl⟩
  · obtain ⟨s1, h⟩ := gpio_watchpulsepairs_sim gpio ds hds L hL fuel h1 h2
    refine ⟨_, h, storedPairs_tableOf _, ?_⟩
    intro k hk
    simp only [storedPairs_tableOf]
    exact pairUp_get 65000 k ds hk

/-- Witness for C10: low 100, high 200, low 300, high 400, low 500 µs, then idle. -/
theorem watch_pairing_rule_witness :
    ∃ r, gpio_watchpulsepairs simWorld 17 65000
        (simStart (signal [100, 200, 300, 400, 500] false)) = some r ∧
      storedPairs r.2.1 = [(100, 200), (300, 400), (500, 65000)] := by
  obtain ⟨_, _, _, r, h, hs, _⟩ := watch_pairing_rule 17 [100, 200, 300, 400, 500]
    (by decide) _ (follows_signal _ false) 65000 (le_refl _) (by decide)
  exact ⟨r, h, hs.trans (by decide)⟩

/-! ## Pin output and function read-back: frame and exactness -/

theorem plainBus_apply (r : Regs) (off val i : Nat) :
    plainBus r off val i = if i = off then val else r i := rfl

theorem testBit_or_bit (v k j : Nat) (hj : j < 32) :
    ((v ||| 2 ^ k) % 2 ^ 32).testBit j = (v.testBit j || decide (k = j)) := by
  rw [Nat.testBit_mod_two_pow, Nat.testBit_or, Nat.testBit_two_pow]
  simp [hj]

theorem testBit_andnot_bit (v k j : Nat) (hj : j < 32) :
    ((v &&& not32 (2 ^ k)) % 2 ^ 32).testBit j = (v.testBit j && !decide (k = j)) := by
  rw [Nat.testBit_mod_two_pow, Nat.testBit_and, testBit_not32, Nat.testBit_two_pow]
  simp [hj]

/-- C12: for every pin in 0..53, every level value and any bus,
`output_gpio` appends exactly one access to the trace, the write of the
single-bit value `1 << (p % 32)` to set word `7 + p / 32` when the value is
non-zero and to clear word `10 + p / 32` when it is 0, and no read; on the
set/clear mock, every register bit other than bit `p % 32` of level word
`13 + p / 32` keeps its value. -/
theorem output_gpio_single_write (bus : Bus) (p : Nat) (hp : p < 54) (v : Int) (m : Machine) :
    (output_gpio bus p v m).trace =
      m.trace ++ [Access.write
        (if v ≠ 0 then SET_OFFSET + p / 32 else CLR_OFFSET + p / 32) (1 <<< (p % 32))] ∧
    (1 <<< (p % 32)) < 2 ^ 32 ∧
    ∀ w j, j < 32 → ¬ (w = PINLEVEL_OFFSET + p / 32 ∧ j = p % 32) →
      ((output_gpio mockBus p v m).regs w).testBit j = (m.regs w).testBit j := by
  have hb : p % 32 < 32 := Nat.mod_lt _ (by decide)
  have hk : p / 32 = 0 ∨ p / 32 = 1 := by omega
  have hsh : shl32 1 (p % 32) % 2 ^ 32 = 1 <<< (p % 32) := by
    rw [shl32_one _ hb, Nat.mod_eq_of_lt (two_pow_lt_word _ hb), Nat.one_shiftLeft]
  refine ⟨?_, ?_, ?_⟩
  · simp only [output_gpio, wr, hsh]
  · rw [Nat.one_shiftLeft]; exact two_pow_lt_word _ hb
  · intro w j hj hne
    have hsh2 : shl32 1 (p % 32) % 2 ^ 32 = 2 ^ (p % 32) := by
      rw [shl32_one _ hb, Nat.mod_eq_of_lt (two_pow_lt_word _ hb)]
    simp only [output_gpio, wr, hsh2]
    by_cases hv : v ≠ 0
    · rw [if_pos hv]
      rcases hk with h0 | h1
      · simp only [h0, mockBus, plainBus, SET_OFFSET, CLR_OFFSET, PINLEVEL_OFFSET] at hne ⊢
        by_cases hw : w = 13
        · have hjb : ¬ (p % 32 = j) := fun h => hne ⟨hw, h.symm⟩
          simp [hw, plainBus_apply, Nat.testBit_or, Nat.testBit_two_pow, hjb]
        · simp [hw, plainBus_apply]
      · simp only [h1, mockBus, plainBus, SET_OFFSET, CLR_OFFSET, PINLEVEL_OFFSET] at hne ⊢
        by_cases hw : w = 14
        · have hjb : ¬ (p % 32 = j) := fun h => hne ⟨hw, h.symm⟩
          simp [hw, plainBus_apply, Nat.testBit_or, Nat.testBit_two_pow, hjb]
        · simp [hw, plainBus_apply]
    · rw [if_neg hv]
      rcases hk with h0 | h1
      · simp only [h0, mockBus, plainBus, SET_OFFSET, CLR_OFFSET, PINLEVEL_OFFSET] at hne ⊢
        by_cases hw : w = 13
        · have hjb : ¬ (p % 32 = j) := fun h => hne ⟨hw, h.symm⟩
          simp [hw, plainBus_apply, Nat.testBit_and, testBit_not32, Nat.testBit_two_pow, hjb, hj]
        · simp [hw, plainBus_apply]
      · simp only [h1, mockBus, plainBus, SET_OFFSET, CLR_OFFSET, PINLEVEL_OFFSET] at hne ⊢
        by_cases hw : w = 14
        · have hjb : ¬ (p % 32 = j) := fun h => hne ⟨hw, h.symm⟩
          simp [hw, plainBus_apply, Nat.testBit_and, testBit_not32, Nat.testBit_two_pow, hjb, hj]
        · simp [hw, plainBus_apply]

/-- Witness for C12: pin 40 driven high; the trace holds the single write of 256 to word 8. -/
theorem output_gpio_single_write_witness :
    (output_gpio mockBus 40 1 ⟨fun _ => 0, []⟩).trace = [Access.write 8 256] :=
  (output_gpio_single_write mockBus 40 (by decide) 1 ⟨fun _ => 0, []⟩).1.trans (by decide)

theorem int32_small (x : Nat) (h : x < 2 ^ 31) : int32 x = (x : Int) := by
  unfold int32
  have h1 : x % 2 ^ 32 = x := Nat.mod_eq_of_lt (by omega)
  rw [h1, if_pos h]

/-- C15: for every pin in 0..53 and every register content, `gpio_function`
returns the 3-bit field at bit position `3 * (p % 10)` of function-select
word `p / 10`, that is `(word >> (3 * (p % 10))) mod 8`, a value in 0..7
whatever the top bit of the word, and its only bus access is the read of
that word: the registers are unchanged. -/
theorem gpio_function_exact (p : Nat) (_hp : p < 54) (m : Machine) :
    (gpio_function p m).1 =
      (((m.regs (FSEL_OFFSET + p / 10) >>> (3 * (p % 10))) % 8 : Nat) : Int) ∧
    0 ≤ (gpio_function p m).1 ∧ (gpio_function p m).1 < 8 ∧
    (gpio_function p m).2.regs = m.regs ∧
    (gpio_function p m).2.trace = m.trace ++ [Access.read (FSEL_OFFSET + p / 10)] := by
  have hs : p % 10 * 3 + 3 ≤ 32 := by omega
  have hval : (gpio_function p m).1 =
      (((m.regs (FSEL_OFFSET + p / 10) >>> (3 * (p % 10))) % 8 : Nat) : Int) := by
    rw [gpio_function_val, asr32_field _ _ hs, Nat.mul_comm 3 (p % 10)]
    have h8 : (2 : Nat) ^ 3 = 8 := by decide
    rw [h8]
    apply int32_small
    have : (m.regs (FSEL_OFFSET + p / 10) >>> (p % 10 * 3)) % 8 < 8 := Nat.mod_lt _ (by decide)
    omega
  refine ⟨hval, ?_, ?_, rfl, rfl⟩
  · rw [hval]; omega
  · rw [hval]
    have : (m.regs (FSEL_OFFSET + p / 10) >>> (3 * (p % 10))) % 8 < 8 := Nat.mod_lt _ (by decide)
    omega

/-- Witness for C15: pin 9, whose field is the top one of word 0, with every bit of the
word set. -/
theorem gpio_function_exact_witness :
    (gpio_function 9 ⟨fun _ => 4294967295, []⟩).1 = 7 :=
  (gpio_function_exact 9 (by decide) ⟨fun _ => 4294967295, []⟩).1.trans (by decide)

/-- On plain memory `set_pullupdn` leaves every word other than the
pull-control word and the pin's pull-clock word unchanged. -/
theorem set_pullupdn_regs_other (p : Nat) (pud : Int) (m : Machine) (off : Nat)
    (h1 : off ≠ PULLUPDN_OFFSET) (h2 : off ≠ PULLUPDNCLK_OFFSET + p / 32) :
    (set_pullupdn plainBus p pud m).regs off = m.regs off := by
  unfold set_pullupdn
  by_cases hd : pud = PUD_DOWN
  · simp [hd, rd, wr, short_wait, plainBus_apply, h1, h2]
  · by_cases hu : pud = PUD_UP
    · have hud : ¬ (PUD_UP = PUD_DOWN) := by decide
      simp [hu, hud, rd, wr, short_wait, plainBus_apply, h1, h2]
    · simp [hd, hu, rd, wr, short_wait, plainBus_apply, h1, h2]

/-- On plain memory `setup_gpio` leaves every function-select word other
than the pin's unchanged. -/
theorem setup_gpio_regs_other (p : Nat) (d pud : Int) (m : Machine) (off : Nat)
    (h0 : off ≠ FSEL_OFFSET + p / 10) (h1 : off ≠ PULLUPDN_OFFSET)
    (h2 : off ≠ PULLUPDNCLK_OFFSET + p / 32) :
    (setup_gpio plainBus p d pud m).regs off = m.regs off := by
  unfold setup_gpio
  by_cases h : d = OUTPUT
  · simp only [h, if_true, rd, wr, plainBus_apply, if_neg h0]
    exact set_pullupdn_regs_other p pud m off h1 h2
  · simp only [h, if_false, rd, wr, plainBus_apply, if_neg h0]
    exact set_pullupdn_regs_other p pud m off h1 h2

theorem testBit_shl32_seven (s i : Nat) :
    (shl32 7 s).testBit i = (decide (i < 32) && (decide (i ≥ s) && decide (i - s < 3))) := by
  unfold shl32
  rw [Nat.testBit_mod_two_pow, Nat.testBit_shiftLeft, testBit_seven]

theorem testBit_shl32_one (s i : Nat) :
    (shl32 1 s).testBit i = (decide (i < 32) && (decide (i ≥ s) && decide (i - s < 1))) := by
  unfold shl32
  rw [Nat.testBit_mod_two_pow, Nat.testBit_shiftLeft, testBit_one]

/-- C14: on plain register memory, for every pin in 0..53, `setup_gpio`
changes no bit of the six function-select words other than the three bits at
position `3 * (p % 10)` of word `p / 10`. -/
theorem setup_gpio_fsel_frame (p : Nat) (hp : p < 54) (d pud : Int) (m : Machine)
    (w i : Nat) (hw : w < 6) (hi : i < 32)
    (hout : w ≠ p / 10 ∨ i < 3 * (p % 10) ∨ 3 * (p % 10) + 3 ≤ i) :
    ((setup_gpio plainBus p d pud m).regs (FSEL_OFFSET + w)).testBit i =
      (m.regs (FSEL_OFFSET + w)).testBit i := by
  have hctl : FSEL_OFFSET + w ≠ PULLUPDN_OFFSET := by
    unfold FSEL_OFFSET PULLUPDN_OFFSET; omega
  have hclk : FSEL_OFFSET + w ≠ PULLUPDNCLK_OFFSET + p / 32 := by
    unfold FSEL_OFFSET PULLUPDNCLK_OFFSET; omega
  by_cases hwp : w = p / 10
  · subst hwp
    have hfield : i < 3 * (p % 10) ∨ 3 * (p % 10) + 3 ≤ i := by
      rcases hout with h | h
      · exact absurd rfl h
      · exact h
    have h7 : (decide (i ≥ p % 10 * 3) && decide (i - p % 10 * 3 < 3)) = false := by
      rcases hfield with h | h
      · have : ¬ (i ≥ p % 10 * 3) := by omega
        simp [this]
      · have : ¬ (i - p % 10 * 3 < 3) := by omega
        simp [this]
    have h1 : (decide (i ≥ p % 10 * 3) && decide (i - p % 10 * 3 < 1)) = false := by
      rcases hfield with h | h
      · have : ¬ (i ≥ p % 10 * 3) := by omega
        simp [this]
      · have : ¬ (i - p % 10 * 3 < 1) := by omega
        simp [this]
    rw [setup_gpio_fsel_word, set_pullupdn_regs_other p pud m _ hctl hclk]
    by_cases h : d = OUTPUT
    · rw [if_pos h, Nat.testBit_mod_two_pow, Nat.testBit_or, Nat.testBit_and, testBit_not32,
        testBit_shl32_seven, testBit_shl32_one, h7, h1]
      simp [hi]
    · rw [if_neg h, Nat.testBit_mod_two_pow, Nat.testBit_and, testBit_not32,
        testBit_shl32_seven, h7]
      simp [hi]
  · have h0 : FSEL_OFFSET + w ≠ FSEL_OFFSET + p / 10 := by omega
    rw [setup_gpio_regs_other p d pud m _ h0 hctl hclk]

/-- Witness for C14: pin 17 set up as output leaves bit 20 of word 1 (inside
the field of pin 16) as it was. -/
theorem setup_gpio_fsel_frame_witness :
    ((setup_gpio plainBus 17 OUTPUT PUD_OFF ⟨fun _ => 4294967295, []⟩).regs
        (FSEL_OFFSET + 1)).testBit 20 = true :=
  (setup_gpio_fsel_frame 17 (by decide) OUTPUT PUD_OFF ⟨fun _ => 4294967295, []⟩ 1 20
    (by decide) (by decide) (by decide)).trans (by decide)

/-! ## Trigger configuration -/

/-- On plain memory `clear_event_detect` changes no word other than the
pin's event-status word. -/
theorem clear_event_detect_regs_other (p : Nat) (m : Machine) (off : Nat)
    (h : off ≠ EVENT_DETECT_OFFSET + p / 32) :
    (clear_event_detect plainBus p m).regs off = m.regs off := by
  simp [clear_event_detect, rd, wr, short_wait, plainBus_apply, h]

/-- Bit `k` of a word after the read-modify-write `|= 1 << k`. -/
theorem rmw_set_bit (m : Machine) (off k : Nat) (hk : k < 32) :
    ((wr plainBus (rd m off).2 off ((rd m off).1 ||| shl32 1 k)).regs off).testBit k = true := by
  simp only [rd, wr, plainBus_apply, if_true, shl32_one k hk]
  rw [testBit_or_bit _ _ _ hk]
  simp

/-- Bit `k` of a word after the read-modify-write `&= ~(1 << k)`. -/
theorem rmw_clear_bit (m : Machine) (off k : Nat) (hk : k < 32) :
    ((wr plainBus (rd m off).2 off ((rd m off).1 &&& not32 (shl32 1 k))).regs off).testBit k
      = false := by
  simp only [rd, wr, plainBus_apply, if_true, shl32_one k hk]
  rw [testBit_andnot_bit _ _ _ hk]
  simp

/-- Bit `k` of a word after the plain store `= 1 << k`. -/
theorem store_bit (m : Machine) (off k : Nat) (hk : k < 32) :
    ((wr plainBus m off (shl32 1 k)).regs off).testBit k = true := by
  simp only [wr, plainBus_apply, if_true, shl32_one k hk,
    Nat.mod_eq_of_lt (two_pow_lt_word k hk), Nat.testBit_two_pow]
  simp

theorem set_rising_event_bit (p : Nat) (_hp : p < 54) (e : Int) (m : Machine) :
    (e ≠ 0 → ((set_rising_event plainBus p e m).regs (RISING_ED_OFFSET + p / 32)).testBit (p % 32) = true) ∧
    (e = 0 → ((set_rising_event plainBus p e m).regs (RISING_ED_OFFSET + p / 32)).testBit (p % 32) = false) ∧
    ∃ m1, set_rising_event plainBus p e m = clear_event_detect plainBus p m1 := by
  have hb : p % 32 < 32 := Nat.mod_lt _ (by decide)
  have hoff : RISING_ED_OFFSET + p / 32 ≠ EVENT_DETECT_OFFSET + p / 32 := by
    unfold RISING_ED_OFFSET EVENT_DETECT_OFFSET; omega
  refine ⟨?_, ?_, ?_⟩
  · intro he
    unfold set_rising_event
    simp only [he, ne_eq, not_false_eq_true, if_true]
    rw [clear_event_detect_regs_other _ _ _ hoff]
    exact rmw_set_bit _ _ _ hb
  · intro he
    unfold set_rising_event
    simp only [he, ne_eq, not_true_eq_false, if_false]
    rw [clear_event_detect_regs_other _ _ _ hoff]
    exact rmw_clear_bit _ _ _ hb
  · exact ⟨_, rfl⟩

theorem set_falling_event_bit (p : Nat) (_hp : p < 54) (e : Int) (m : Machine) :
    (e ≠ 0 → ((set_falling_event plainBus p e m).regs (FALLING_ED_OFFSET + p / 32)).testBit (p % 32) = true) ∧
    (e = 0 → ((set_falling_event plainBus p e m).regs (FALLING_ED_OFFSET + p / 32)).testBit (p % 32) = false) ∧
    ∃ m1, set_falling_event plainBus p e m = clear_event_detect plainBus p m1 := by
  have hb : p % 32 < 32 := Nat.mod_lt _ (by decide)
  have hoff : FALLING_ED_OFFSET + p / 32 ≠ EVENT_DETECT_OFFSET + p / 32 := by
    unfold FALLING_ED_OFFSET EVENT_DETECT_OFFSET; omega
  refine ⟨?_, ?_, ?_⟩
  · intro he
    unfold set_falling_event
    simp only [he, ne_eq, not_false_eq_true, if_true]
    rw [clear_event_detect_regs_other _ _ _ hoff]
    exact store_bit _ _ _ hb
  · intro he
    unfold set_falling_event
    simp only [he, ne_eq, not_true_eq_false, if_false]
    rw [clear_event_detect_regs_other _ _ _ hoff]
    exact rmw_clear_bit _ _ _ hb
  · exact ⟨_, rfl⟩

theorem set_high_event_bit (p : Nat) (_hp : p < 54) (e : Int) (m : Machine) :
    (e ≠ 0 → ((set_high_event plainBus p e m).regs (HIGH_DETECT_OFFSET + p / 32)).testBit (p % 32) = true) ∧
    (e = 0 → ((set_high_event plainBus p e m).regs (HIGH_DETECT_OFFSET + p / 32)).testBit (p % 32) = false) ∧
    ∃ m1, set_high_event plainBus p e m = clear_event_detect plainBus p m1 := by
  have hb : p % 32 < 32 := Nat.mod_lt _ (by decide)
  have hoff : HIGH_DETECT_OFFSET + p / 32 ≠ EVENT_DETECT_OFFSET + p / 32 := by
    unfold HIGH_DETECT_OFFSET EVENT_DETECT_OFFSET; omega
  refine ⟨?_, ?_, ?_⟩
  · intro he
    unfold set_high_event
    simp only [he, ne_eq, not_false_eq_true, if_true]
    rw [clear_event_detect_regs_other _ _ _ hoff]
    exact rmw_set_bit _ _ _ hb
  · intro he
    unfold set_high_event
    simp only [he, ne_eq, not_true_eq_false, if_false]
    rw [clear_event_detect_regs_other _ _ _ hoff]
    exact rmw_clear_bit _ _ _ hb
  · exact ⟨_, rfl⟩

theorem set_low_event_bit (p : Nat) (_hp : p < 54) (e : Int) (m : Machine) :
    (e ≠ 0 → ((set_low_event plainBus p e m).regs (LOW_DETECT_OFFSET + p / 32)).testBit (p % 32) = true) ∧
    (e = 0 → ((set_low_event plainBus p e m).regs (LOW_DETECT_OFFSET + p / 32)).testBit (p % 32) = false) ∧
    ∃ m1, set_low_event plainBus p e m = clear_event_detect plainBus p m1 := by
  have hb : p % 32 < 32 := Nat.mod_lt _ (by decide)
  have hoff : LOW_DETECT_OFFSET + p / 32 ≠ EVENT_DETECT_OFFSET + p / 32 := by
    unfold LOW_DETECT_OFFSET EVENT_DETECT_OFFSET; omega
  refine ⟨?_, ?_, ?_⟩
  · intro he
    unfold set_low_event
    simp only [he, ne_eq, not_false_eq_true, if_true]
    rw [clear_event_detect_regs_other _ _ _ hoff]
    exact rmw_set_bit _ _ _ hb
  · intro he
    unfold set_low_event
    simp only [he, ne_eq, not_true_eq_false, if_false]
    rw [clear_event_detect_regs_other _ _ _ hoff]
    exact rmw_clear_bit _ _ _ hb
  · exact ⟨_, rfl⟩

/-- C13: on plain register memory, for each of the four trigger kinds
(rising, falling, high, low), every pin in 0..53 and every initial content:
after the call with enable non-zero, bit `p % 32` of the trigger-enable word
of the kind (19, 22, 25 or 28, plus `p / 32`) is set; after the call with
enable 0 that bit is clear; and in both cases the machine returned is the
result of `clear_event_detect(p)`, run as the last step of the call. -/
theorem set_event_enable_bit (p : Nat) (hp : p < 54) (e : Int) (m : Machine) :
    ((e ≠ 0 → ((set_rising_event plainBus p e m).regs (RISING_ED_OFFSET + p / 32)).testBit
        (p % 32) = true) ∧
     (e = 0 → ((set_rising_event plainBus p e m).regs (RISING_ED_OFFSET + p / 32)).testBit
        (p % 32) = false) ∧
     ∃ m1, set_rising_event plainBus p e m = clear_event_detect plainBus p m1) ∧
    ((e ≠ 0 → ((set_falling_event plainBus p e m).regs (FALLING_ED_OFFSET + p / 32)).testBit
        (p % 32) = true) ∧
     (e = 0 → ((set_falling_event plainBus p e m).regs (FALLING_ED_OFFSET + p / 32)).testBit
        (p % 32) = false) ∧
     ∃ m1, set_falling_event plainBus p e m = clear_event_detect plainBus p m1) ∧
    ((e ≠ 0 → ((set_high_event plainBus p e m).regs (HIGH_DETECT_OFFSET + p / 32)).testBit
        (p % 32) = true) ∧
     (e = 0 → ((set_high_event plainBus p e m).regs (HIGH_DETECT_OFFSET + p / 32)).testBit
        (p % 32) = false) ∧
     ∃ m1, set_high_event plainBus p e m = clear_event_detect plainBus p m1) ∧
    ((e ≠ 0 → ((set_low_event plainBus p e m).regs (LOW_DETECT_OFFSET + p / 32)).testBit
        (p % 32) = true) ∧
     (e = 0 → ((set_low_event plainBus p e m).regs (LOW_DETECT_OFFSET + p / 32)).testBit
        (p % 32) = false) ∧
     ∃ m1, set_low_event plainBus p e m = clear_event_detect plainBus p m1) :=
  ⟨set_rising_event_bit p hp e m, set_falling_event_bit p hp e m,
    set_high_event_bit p hp e m, set_low_event_bit p hp e m⟩

/-- Witness for C13: enabling falling-edge detection on pin 35 sets bit 3 of
word 23, and the trace ends with the accesses of `clear_event_detect(35)`. -/
theorem set_event_enable_bit_witness :
    ((set_falling_event plainBus 35 1 ⟨fun _ => 0, []⟩).regs (FALLING_ED_OFFSET + 35 / 32)).testBit
        (35 % 32) = true ∧
    (set_falling_event plainBus 35 1 ⟨fun _ => 0, []⟩).trace =
      [Access.read 23, Access.write 23 8, Access.write 23 8,
       Access.read 17, Access.write 17 8, Access.wait, Access.write 17 0] :=
  ⟨(set_event_enable_bit 35 (by decide) 1 ⟨fun _ => 0, []⟩).2.1.1 (by decide), by decide⟩

/-! ## Initialisation and the binding layer -/

/-- Result codes of `setup` that the code does deliver: the device failure
and the allocation failure have their own codes, and whenever both calls
succeed the result is `SETUP_OK`, whatever `mmap` returns. -/
theorem setup_codes (open_fd : Int) (malloc_ptr : Nat) (mmap : Nat → Nat) :
    (open_fd < 0 → (setup open_fd malloc_ptr mmap).1 = SETUP_DEVMEM_FAIL) ∧
    (0 ≤ open_fd → malloc_ptr = 0 → (setup open_fd malloc_ptr mmap).1 = SETUP_MALLOC_FAIL) ∧
    (0 ≤ open_fd → malloc_ptr ≠ 0 → (setup open_fd malloc_ptr mmap).1 = SETUP_OK) := by
  refine ⟨?_, ?_, ?_⟩
  · intro h
    simp [setup, h]
  · intro h h0
    have : ¬ open_fd < 0 := by omega
    simp [setup, this, h0]
  · intro h h0
    have : ¬ open_fd < 0 := by omega
    simp [setup, this, h0]

/-- C16 (evaluation at the failing input): with `open` and `malloc`
succeeding and `mmap` returning `MAP_FAILED`, `setup` returns `SETUP_OK`,
not `SETUP_MMAP_FAIL`, and leaves `gpio_map` equal to `MAP_FAILED`. -/
theorem setup_mmap_failure_unreported :
    setup 3 4096 (fun _ => MAP_FAILED) = (SETUP_OK, some MAP_FAILED) ∧
    (setup 3 4096 (fun _ => MAP_FAILED)).1 ≠ SETUP_MMAP_FAIL := by
  decide

/-- C18 (as amended): with the module set up and the channel lookup
successful, `py_setup_channel` raises `ValueError` and leaves the whole state
untouched (no register access at all) whenever the direction is neither
`INPUT` nor `OUTPUT`, and whenever the direction is `INPUT` and the
`pull_up_down` argument less `PY_PUD_CONST_OFFSET` is not one of `PUD_OFF`,
`PUD_DOWN`, `PUD_UP`; for direction `OUTPUT` the `pull_up_down` argument is
ignored: the call succeeds and configures the pin with `PUD_OFF`. -/
theorem py_setup_channel_validation (P : Platform) (bus : Bus)
    (channel direction pud initial : Int) (st : PyState) (g : Nat)
    (herr : st.setup_error = false) (hmod : st.module_setup = true)
    (hlook : P.get_gpio_number channel = some g) :
    (direction ≠ INPUT → direction ≠ OUTPUT →
      py_setup_channel P bus channel direction pud initial st = (PyOutcome.valueError, st)) ∧
    (direction = INPUT → pud - P.PY_PUD_CONST_OFFSET ≠ PUD_OFF →
      pud - P.PY_PUD_CONST_OFFSET ≠ PUD_DOWN → pud - P.PY_PUD_CONST_OFFSET ≠ PUD_UP →
      py_setup_channel P bus channel direction pud initial st = (PyOutcome.valueError, st)) ∧
    (direction = OUTPUT →
      (py_setup_channel P bus channel direction pud initial st).1 = PyOutcome.ok ∧
      (py_setup_channel P bus channel direction pud initial st).2.machine =
        setup_gpio bus g OUTPUT PUD_OFF
          (if initial = LOW ∨ initial = HIGH then
            output_gpio bus g initial (gpio_function g st.machine).2
           else (gpio_function g st.machine).2)) := by
  have hio : INPUT ≠ OUTPUT := by decide
  refine ⟨?_, ?_, ?_⟩
  · intro h1 h2
    simp [py_setup_channel, herr, hmod, hlook, h1, h2]
  · intro h1 h2 h3 h4
    subst h1
    simp [py_setup_channel, herr, hmod, hlook, hio, h2, h3, h4]
  · intro h1
    subst h1
    have hoff : ¬ (PUD_OFF + P.PY_PUD_CONST_OFFSET - P.PY_PUD_CONST_OFFSET ≠ PUD_OFF ∧
        PUD_OFF + P.PY_PUD_CONST_OFFSET - P.PY_PUD_CONST_OFFSET ≠ PUD_DOWN ∧
        PUD_OFF + P.PY_PUD_CONST_OFFSET - P.PY_PUD_CONST_OFFSET ≠ PUD_UP) := by
      intro h
      exact h.1 (by omega)
    have hsub : PUD_OFF + P.PY_PUD_CONST_OFFSET - P.PY_PUD_CONST_OFFSET = PUD_OFF := by omega
    have hne : ¬ (OUTPUT ≠ INPUT ∧ OUTPUT ≠ OUTPUT) := fun h => h.2 rfl
    constructor
    · simp only [py_setup_channel, herr, hmod, hlook, Bool.false_eq_true, if_false,
        Bool.not_true, ne_eq, not_true_eq_false, hne, if_true, hoff, and_false]
    · simp only [py_setup_channel, herr, hmod, hlook, Bool.false_eq_true, if_false,
        Bool.not_true, ne_eq, not_true_eq_false, hne, if_true, hoff, hsub, true_and, and_false,
        false_and]

/-- Witness for C18 (as amended): direction `INPUT` with the pull value 7 is rejected with
the state untouched. -/
theorem py_setup_channel_validation_witness :
    py_setup_channel demoPlatform plainBus 17 INPUT (7 + 20) (-1) demoState =
      (PyOutcome.valueError, demoState) :=
  (py_setup_channel_validation demoPlatform plainBus 17 INPUT (7 + 20) (-1) demoState 17
    rfl rfl (by decide)).2.1 rfl (by decide) (by decide) (by decide)

/-- Counterexample to C18 as stated: for direction `OUTPUT` an invalid
`pull_up_down` argument (7 after removing the offset) raises no error; the
call succeeds and writes the pull and function-select registers. -/
theorem py_setup_channel_output_ignores_pud :
    (7 : Int) ≠ PUD_OFF ∧ (7 : Int) ≠ PUD_DOWN ∧ (7 : Int) ≠ PUD_UP ∧
    (py_setup_channel demoPlatform plainBus 17 OUTPUT (7 + 20) (-1) demoState).1 =
      PyOutcome.ok ∧
    (py_setup_channel demoPlatform plainBus 17 OUTPUT (7 + 20) (-1) demoState).2.machine.trace =
      [Access.read 1, Access.read 37, Access.write 37 0, Access.wait, Access.write 38 131072,
       Access.wait, Access.read 37, Access.write 37 0, Access.write 38 0,
       Access.read 1, Access.write 1 2097152] := by
  decide

/-- Single-channel `py_cleanup`: whatever value the uninitialised local `i`
holds, the pin is reset with `setup_gpio(g, INPUT, PUD_OFF)`, entry `i` of
`gpio_direction` is set to -1 and every other entry, the one of the cleaned
pin included when `i` differs from it, keeps its value. -/
theorem py_cleanup_single (P : Platform) (bus : Bus) (channel : Int) (i g : Nat) (st : PyState)
    (hch : channel ≠ -666) (hlook : P.get_gpio_number channel = some g)
    (hmod : st.module_setup = true) (herr : st.setup_error = false)
    (hdir : st.gpio_direction g ≠ -1) :
    (py_cleanup P bus channel i st).2.machine = setup_gpio bus g INPUT PUD_OFF st.machine ∧
    (py_cleanup P bus channel i st).2.gpio_direction i = -1 ∧
    ∀ j, j ≠ i → (py_cleanup P bus channel i st).2.gpio_direction j = st.gpio_direction j := by
  have h1 : ¬ (channel ≠ -666 ∧ P.get_gpio_number channel = none) := by
    rw [hlook]
    intro h
    cases h.2
  unfold py_cleanup
  rw [if_neg h1]
  simp only [hmod, herr, and_self, if_true, if_neg hch, hlook, if_pos hdir]
  refine ⟨?_, ?_, ?_⟩
  · split <;> rfl
  · split <;> simp
  · intro j hj
    split <;> simp [hj]

/-- C20 (evaluation at the failing input): with pin 17 set up as output and
pin 5 as input, and the uninitialised local `i` holding 5, `py_cleanup(17)`
resets pin 17 in the registers but leaves `gpio_direction[17]` equal to
`OUTPUT`, sets `gpio_direction[5]` to -1 instead, and a following
`py_output_gpio(17, 1)` is accepted. -/
theorem py_cleanup_wrong_index :
    (py_cleanup demoPlatform plainBus 17 5 demoConfigured).2.gpio_direction 17 = OUTPUT ∧
    (py_cleanup demoPlatform plainBus 17 5 demoConfigured).2.gpio_direction 17 ≠ -1 ∧
    demoConfigured.gpio_direction 5 = INPUT ∧
    (py_cleanup demoPlatform plainBus 17 5 demoConfigured).2.gpio_direction 5 = -1 ∧
    (py_output_gpio demoPlatform plainBus 17 1
      (py_cleanup demoPlatform plainBus 17 5 demoConfigured).2).1 = PyOutcome.ok := by
  decide

/-! ## Capture with failing reallocation -/

theorem stage_loop_limit (cap gpio : Nat) (value : Int) (tStart : Timeval) (fuel : Nat) :
    ∀ (vread tStage : Int) (s : Sim),
      stage_loop (simWorldLimit cap) gpio value tStart fuel vread tStage s =
        stage_loop simWorld gpio value tStart fuel vread tStage s := by
  induction fuel with
  | zero => intro vread tStage s; rfl
  | succ fuel ih =>
    intro vread tStage s
    simp only [stage_loop]
    split
    · exact ih _ _ _
    · rfl

theorem watch_loop_step_limit (cap gpio inner fuel : Nat) (v : Bool) (a : Nat)
    (caps : List (Int × Int)) (pl pa ts : Int) (s : Sim) :
    watch_loop (simWorldLimit cap) gpio inner (fuel + 1) (watchAt v a caps pl pa ts) s =
      match stage_loop simWorld gpio (levelInt v) (timevalOf a) inner (levelInt v) 0 s with
      | none => none
      | some (vread, tStage, s1) =>
        if (stage_update (simWorldLimit cap) (watchAt v a caps pl pa ts) vread tStage
            (timevalOf s1.now)).2
        then some ((stage_update (simWorldLimit cap) (watchAt v a caps pl pa ts) vread tStage
          (timevalOf s1.now)).1, s1)
        else watch_loop (simWorldLimit cap) gpio inner fuel
          (stage_update (simWorldLimit cap) (watchAt v a caps pl pa ts) vread tStage
            (timevalOf s1.now)).1 s1 := by
  rw [watch_loop]
  have hfin : (watchAt v a caps pl pa ts).finish = false := rfl
  rw [hfin]
  simp only [Bool.false_eq_true, if_false]
  have hv : (watchAt v a caps pl pa ts).value = levelInt v := rfl
  have hvr : (watchAt v a caps pl pa ts).vread = levelInt v := rfl
  have hts : (watchAt v a caps pl pa ts).tStart = timevalOf a := rfl
  rw [hv, hvr, hts, stage_loop_limit]
  cases stage_loop simWorld gpio (levelInt v) (timevalOf a) inner (levelInt v) 0 s with
  | none => rfl
  | some r =>
    obtain ⟨vread, tStage, s1⟩ := r
    rfl

theorem stage_update_low_limit (cap a : Nat) (caps : List (Int × Int))
    (pl pa ts vread tStage : Int) (tStart : Timeval) :
    stage_update (simWorldLimit cap) (watchAt false a caps pl pa ts) vread tStage tStart =
      ({ value := vread, vread := vread, size := caps.length,
         finish := if tStage ≥ PULSEPAIR_TIMEOUTSTAGE then true else false,
         pulse := tStage, pause := pa, tStage := tStage, tStart := tStart,
         pulsepairs := tableOf caps }, false) := by
  simp [stage_update, watchAt, levelInt]

/-- A high stage ending with a pending pulse while memory still allows one more row. -/
theorem stage_update_high_limit (cap a : Nat) (caps : List (Int × Int))
    (pl pa ts vread tStage : Int) (tStart : Timeval) (hpl : pl ≠ 0) (hroom : caps.length < cap) :
    stage_update (simWorldLimit cap) (watchAt true a caps pl pa ts) vread tStage tStart =
      ({ value := vread, vread := vread,
         size := (caps ++ [(intCell pl, intCell tStage)]).length,
         finish := if tStage ≥ PULSEPAIR_TIMEOUTSTAGE then true else false,
         pulse := 0, pause := 0, tStage := tStage, tStart := tStart,
         pulsepairs := tableOf (caps ++ [(intCell pl, intCell tStage)]) }, false) := by
  rw [tableOf_snoc]
  have hok : caps.length + 1 ≤ cap := hroom
  by_cases hc : caps.length = 0
  · simp [stage_update, watchAt, levelInt, hpl, hc]
  · simp [stage_update, watchAt, levelInt, hpl, hc, simWorldLimit, hok]

/-- A high stage ending with a pending pulse when the table is full: the
reallocation fails and the body leaves the loop, table and count unchanged. -/
theorem stage_update_high_full (cap a : Nat) (caps : List (Int × Int))
    (pl pa ts vread tStage : Int) (tStart : Timeval) (hpl : pl ≠ 0) (hcap : 1 ≤ cap)
    (hfull : caps.length = cap) :
    stage_update (simWorldLimit cap) (watchAt true a caps pl pa ts) vread tStage tStart =
      ({ value := levelInt true, vread := vread, size := caps.length, finish := true,
         pulse := pl, pause := tStage, tStage := tStage, tStart := tStart,
         pulsepairs := tableOf caps }, true) := by
  have hc : ¬ (caps.length = 0) := by omega
  have hno : ¬ (caps.length + 1 ≤ cap) := by omega
  simp [stage_update, watchAt, levelInt, hpl, hc, simWorldLimit, hno]

theorem take_full {α : Type} (caps new : List α) (cap : Nat) (h : caps.length = cap) :
    (caps ++ new).take cap = caps := by
  rw [← h]
  exact List.take_left _ _

theorem take_room {α : Type} (l : List α) (cap : Nat) (h : l.length ≤ cap) : l.take cap = l :=
  List.take_of_length_le h

/-- Outcome of the capture loop on the simulated pin when memory allows at
most `cap` rows: the pairs of the signal, cut after the first `cap`. -/
theorem watch_loop_limit (cap : Nat) (hcap : 1 ≤ cap) (gpio inner : Nat) (hin : 65000 ≤ inner)
    (L : Nat → Bool) (wave : List (Nat × Nat × Int)) :
    ∀ (ds : List Nat), (∀ d ∈ ds, 0 < d ∧ d < 65000) →
    ∀ (v : Bool) (a : Nat) (caps : List (Int × Int)) (pl pa ts : Int) (fuel : Nat),
      Follows L a ds v → (v = true → pl ≠ 0 ∧ intCell pl = pl) → ds.length + 2 ≤ fuel →
      caps.length ≤ cap →
      ∃ st1 s1,
        watch_loop (simWorldLimit cap) gpio inner fuel (watchAt v a caps pl pa ts)
            { now := a, level := L, wave := wave } = some (st1, s1) ∧
        st1.size =
          ((caps ++ pairUp ((if v then [pl] else []) ++ ds.map Int.ofNat ++ [65000])).take
            cap).length ∧
        st1.pulsepairs =
          tableOf ((caps ++ pairUp ((if v then [pl] else []) ++ ds.map Int.ofNat ++ [65000])).take
            cap) := by
  intro ds
  induction ds with
  | nil =>
    intro _ v a caps pl pa ts fuel hF hpl hfuel hlen
    obtain ⟨fuel, rfl⟩ : ∃ f, fuel = f + 1 := ⟨fuel - 1, by omega⟩
    have hst := stage_loop_sim gpio L wave a 65000 v (le_refl _)
      (fun t h0 ht => hF.idle t h0 (by omega)) (Or.inl rfl) inner 0 (by decide) (by omega)
    have hL : L (a + 65000) = v := hF.idle 65000 (by decide) (le_refl _)
    simp only [Nat.add_zero, Nat.cast_zero, hL] at hst
    rw [watch_loop_step_limit, hst]
    have hT : (if ((65000 : Nat) : Int) ≥ PULSEPAIR_TIMEOUTSTAGE then true else false) = true := by
      decide
    cases v with
    | false =>
      simp only [stage_update_low_limit, hT, Bool.false_eq_true, if_false]
      rw [watch_loop_finished _ _ _ _ _ _ rfl]
      refine ⟨_, _, rfl, ?_, ?_⟩
      · simp [pairUp, take_room caps cap hlen]
      · simp [pairUp, take_room caps cap hlen]
    | true =>
      have hp : pl ≠ 0 := (hpl rfl).1
      have hc : intCell ((65000 : Nat) : Int) = ((65000 : Nat) : Int) := by decide
      by_cases hroom : caps.length < cap
      · simp only [stage_update_high_limit _ _ _ _ _ _ _ _ _ hp hroom, hT, Bool.false_eq_true,
          if_false, (hpl rfl).2, hc]
        rw [watch_loop_finished _ _ _ _ _ _ rfl]
        have hl : (caps ++ [(pl, (65000 : Int))]).length ≤ cap := by
          simp only [List.length_append, List.length_singleton]; omega
        refine ⟨_, _, rfl, ?_, ?_⟩
        · simp [pairUp, take_room _ cap hl]
        · simp [pairUp, take_room _ cap hl]
      · have hfull : caps.length = cap := by omega
        simp only [stage_update_high_full _ _ _ _ _ _ _ _ _ hp hcap hfull, if_true]
        refine ⟨_, _, rfl, ?_, ?_⟩
        · simp only [take_full caps _ cap hfull]
        · simp only [take_full caps _ cap hfull]
  | cons d ds ih =>
    intro hds v a caps pl pa ts fuel hF hpl hfuel hlen
    obtain ⟨fuel, rfl⟩ : ∃ f, fuel = f + 1 := ⟨fuel - 1, by simp at hfuel; omega⟩
    have hd := hds d (List.mem_cons_self d ds)
    have hds1 : ∀ x ∈ ds, 0 < x ∧ x < 65000 := fun x hx => hds x (List.mem_cons_of_mem d hx)
    have hst := stage_loop_sim gpio L wave a d v (by omega) hF.hold
      (Or.inr (hF.toggle hd.1 (fun x hx => (hds1 x hx).1))) inner 0 hd.1 (by omega)
    have hL : L (a + d) = !v := hF.toggle hd.1 (fun x hx => (hds1 x hx).1)
    simp only [Nat.add_zero, Nat.cast_zero, hL] at hst
    rw [watch_loop_step_limit, hst]
    have hT : (if ((d : Nat) : Int) ≥ PULSEPAIR_TIMEOUTSTAGE then true else false) = false := by
      have : ¬ (((d : Nat) : Int) ≥ PULSEPAIR_TIMEOUTSTAGE) := by
        unfold PULSEPAIR_TIMEOUTSTAGE
        omega
      simp [this]
    have hfuel1 : ds.length + 2 ≤ fuel := by simp at hfuel; omega
    cases v with
    | false =>
      simp only [stage_update_low_limit, hT, Bool.false_eq_true, if_false, Bool.not_false]
      have hdz : ((d : Nat) : Int) ≠ 0 := by omega
      obtain ⟨st1, s1, h1, h2, h3⟩ := ih hds1 true (a + d) caps (d : Int) pa (d : Int) fuel
        hF.tail (fun _ => ⟨hdz, intCell_nat d (by omega)⟩) hfuel1 hlen
      refine ⟨st1, s1, h1, ?_, ?_⟩
      · rw [h2]; simp
      · rw [h3]; simp
    | true =>
      have hp : pl ≠ 0 := (hpl rfl).1
      by_cases hroom : caps.length < cap
      · simp only [stage_update_high_limit _ _ _ _ _ _ _ _ _ hp hroom, hT, Bool.false_eq_true,
          if_false, Bool.not_true, (hpl rfl).2, intCell_nat d (by omega)]
        have hl : (caps ++ [(pl, ((d : Nat) : Int))]).length ≤ cap := by
          simp only [List.length_append, List.length_singleton]; omega
        obtain ⟨st1, s1, h1, h2, h3⟩ := ih hds1 false (a + d) (caps ++ [(pl, (d : Int))]) 0 0
          (d : Int) fuel hF.tail (fun h => by cases h) hfuel1 hl
        refine ⟨st1, s1, h1, ?_, ?_⟩
        · rw [h2]; simp [pairUp]
        · rw [h3]; simp [pairUp]
      · have hfull : caps.length = cap := by omega
        simp only [stage_update_high_full _ _ _ _ _ _ _ _ _ hp hcap hfull, if_true]
        refine ⟨_, _, rfl, ?_, ?_⟩
        · simp only [take_full caps _ cap hfull]
        · simp only [take_full caps _ cap hfull]

/-- Outcome of a capture on the simulated pin when memory allows at most `cap` rows. -/
theorem gpio_watchpulsepairs_limit (cap : Nat) (hcap : 1 ≤ cap) (gpio : Nat) (ds : List Nat)
    (hds : ∀ d ∈ ds, 0 < d ∧ d < 65000) (L : Nat → Bool) (hL : Follows L 0 ds false)
    (fuel : Nat) (h1 : 65000 ≤ fuel) (h2 : ds.length + 2 ≤ fuel) :
    ∃ s1, gpio_watchpulsepairs (simWorldLimit cap) gpio fuel (simStart L) =
      some (if ((pairUp (ds.map Int.ofNat ++ [65000])).take cap).length < PULSEPAIR_MINPAIRS
              then 0 else 1,
        tableOf ((pairUp (ds.map Int.ofNat ++ [65000])).take cap), s1) := by
  obtain ⟨st1, s1, h, hsize, htab⟩ :=
    watch_loop_limit cap hcap gpio fuel h1 L [] ds hds false 0 [] 0 0 0 fuel hL
      (fun h => by cases h) h2 (Nat.zero_le _)
  refine ⟨s1, ?_⟩
  have h' : watch_loop (simWorldLimit cap) gpio fuel fuel
      { value := 0, vread := 0, size := 0, finish := false, pulse := 0, pause := 0,
        tStage := 0, tStart := timevalOf 0, pulsepairs := { pairs := [none], size := 1 } }
      (simStart L) = some (st1, s1) := h
  have hg : (simWorldLimit cap).gettimeofday (simStart L) = (timevalOf 0, simStart L) := rfl
  simp only [gpio_watchpulsepairs, hg]
  rw [h']
  simp only [List.nil_append, Bool.false_eq_true, if_false] at hsize htab
  simp only [hsize, htab]
  split <;> rfl

theorem pairsOf_take (ps : List (Nat × Nat)) (cap : Nat) :
    (pairsOf ps).take cap = pairsOf (ps.take cap) := by
  unfold pairsOf
  rw [List.map_take]

theorem durationsOf_take_bound (ps : List (Nat × Nat)) (cap : Nat)
    (h : ∀ p ∈ ps, (0 < p.1 ∧ p.1 < 65000) ∧ (0 < p.2 ∧ p.2 < 65000)) :
    ∀ p ∈ ps.take cap, (0 < p.1 ∧ p.1 < 65000) ∧ (0 < p.2 ∧ p.2 < 65000) :=
  fun p hp => h p (List.mem_of_mem_take hp)

/-- C17 (as amended): over the simulated pin with reallocation success as an
input (memory allowing at most `cap ≥ 1` rows), for a signal of more than
`cap` intervals, so that the reallocation to `cap + 1` rows fails: the capture
returns at once with the `cap` pairs stored so far, and its result (return
value and table) is the same as that of a capture of those `cap` intervals
that ended by timeout: 0 when `cap < 5` and the success value 1 when
`cap ≥ 5`. -/
theorem watch_realloc_failure (gpio cap : Nat) (hcap : 1 ≤ cap) (ps : List (Nat × Nat))
    (hps : ∀ p ∈ ps, (0 < p.1 ∧ p.1 < 65000) ∧ (0 < p.2 ∧ p.2 < 65000))
    (hmore : cap < ps.length)
    (L : Nat → Bool) (hL : Follows L 0 (durationsOf ps) false)
    (L1 : Nat → Bool) (hL1 : Follows L1 0 (durationsOf (ps.take cap)) false)
    (fuel : Nat) (h1 : 65000 ≤ fuel) (h2 : 2 * ps.length + 2 ≤ fuel) :
    (gpio_watchpulsepairs (simWorldLimit cap) gpio fuel (simStart L)).map
        (fun r => (r.1, r.2.1)) =
      some (if cap < PULSEPAIR_MINPAIRS then 0 else 1, tableOf (pairsOf (ps.take cap))) ∧
    (gpio_watchpulsepairs simWorld gpio fuel (simStart L1)).map (fun r => (r.1, r.2.1)) =
      some (if cap < PULSEPAIR_MINPAIRS then 0 else 1, tableOf (pairsOf (ps.take cap))) := by
  have hlen : (pairsOf (ps.take cap)).length = cap := by
    simp only [pairsOf, List.length_map, List.length_take]
    omega
  constructor
  · obtain ⟨s1, h⟩ := gpio_watchpulsepairs_limit cap hcap gpio (durationsOf ps)
      (durationsOf_bound ps hps) L hL fuel h1 (by rw [durationsOf_length]; exact h2)
    rw [h, pairUp_durationsOf, pairsOf_take, hlen]
    rfl
  · have hl2 : (durationsOf (ps.take cap)).length + 2 ≤ fuel := by
      rw [durationsOf_length, List.length_take]
      omega
    obtain ⟨s1, h⟩ := gpio_watchpulsepairs_sim gpio (durationsOf (ps.take cap))
      (durationsOf_bound _ (durationsOf_take_bound ps cap hps)) L1 hL1 fuel h1 hl2
    rw [h, pairUp_durationsOf, hlen]
    rfl

/-- Witness for C17 (as amended): memory for 5 rows, a signal of six intervals of 100 and
200 µs; the failing capture and the timeout-ended capture of five intervals
both return 1 with the same five pairs. -/
theorem watch_realloc_failure_witness :
    (gpio_watchpulsepairs (simWorldLimit 5) 17 65000
        (simStart (signal [100, 200, 100, 200, 100, 200, 100, 200, 100, 200, 100, 200]
          false))).map (fun r => (r.1, r.2.1)) =
      some (1, { pairs := [some (100, 200), some (100, 200), some (100, 200), some (100, 200),
                           some (100, 200)], size := 5 }) :=
  (watch_realloc_failure 17 5 (by decide)
    [(100, 200), (100, 200), (100, 200), (100, 200), (100, 200), (100, 200)]
    (by decide) (by decide) _ (follows_signal _ false) _ (follows_signal _ false) 65000
    (le_refl _) (by decide)).1

/-- Counterexample to C17 as stated: with memory for 5 rows and a signal of
six intervals, the reallocation to 6 rows fails, and the call still returns
the success value 1, with the five pairs captured before the failure. -/
theorem realloc_failure_still_success :
    (simWorldLimit 5).realloc_ok 6 = false ∧
    (gpio_watchpulsepairs (simWorldLimit 5) 17 40
        (simStart (signal [2, 3, 2, 3, 2, 3, 2, 3, 2, 3, 2, 3] false))).map
          (fun r => (r.1, r.2.1)) =
      some (1, { pairs := [some (2, 3), some (2, 3), some (2, 3), some (2, 3), some (2, 3)],
                 size := 5 }) := by
  decide

/-! ## The recorded length of the table -/

theorem tableOf_size (caps : List (Int × Int)) : (tableOf caps).size = max 1 caps.length := by
  cases caps with
  | nil => rfl
  | cons c cs =>
    simp only [tableOf, List.length_cons]
    omega

/-- The loop body stores at most one more pair and keeps the stored ones in place. -/
theorem stage_update_prefix {σ : Type} (W : World σ) (st : WatchState) (vread tStage : Int)
    (tStart : Timeval) (caps : List (Int × Int)) (hs : st.size = caps.length)
    (ht : st.pulsepairs = tableOf caps) :
    ∃ caps1, (stage_update W st vread tStage tStart).1.size = caps1.length ∧
      (stage_update W st vread tStage tStart).1.pulsepairs = tableOf caps1 ∧
      (caps1 = caps ∨ caps1 = caps ++ [(intCell st.pulse, intCell tStage)]) := by
  unfold stage_update
  by_cases hv : st.value = 0
  · rw [if_pos hv]
    exact ⟨caps, hs, ht, Or.inl rfl⟩
  · rw [if_neg hv]
    by_cases hp : st.pulse ≠ 0
    · rw [if_pos hp]
      by_cases hz : st.size ≠ 0
      · rw [if_pos hz]
        by_cases hr : W.realloc_ok (st.size + 1) = true
        · rw [if_pos hr]
          refine ⟨caps ++ [(intCell st.pulse, intCell tStage)], by simp [hs], ?_, Or.inr rfl⟩
          have hc : caps.length ≠ 0 := by rw [← hs]; exact hz
          rw [tableOf_snoc, if_pos hc, ht, hs]
        · rw [if_neg hr]
          exact ⟨caps, hs, ht, Or.inl rfl⟩
      · rw [if_neg hz]
        refine ⟨caps ++ [(intCell st.pulse, intCell tStage)], by simp [hs], ?_, Or.inr rfl⟩
        have hc : ¬ (caps.length ≠ 0) := by rw [← hs]; exact hz
        rw [tableOf_snoc, if_neg hc, ht, hs]
    · rw [if_neg hp]
      exact ⟨caps, hs, ht, Or.inl rfl⟩

/-- C19 (as amended): the table of `gpio_watchpulsepairs` is created with
one unwritten row and `size` 1; every run of the loop body keeps the count
and the table in step, storing at most one more pair after the pairs already
stored, which keep their positions (the pair stored being the pending pulse
and the elapsed time, each converted to the `int` cell it is written to);
and on return `pulsepairs->size`, the
value `num_pulsepairs` reports, is the number of stored pairs when at least
one pair was stored and 1 when none was. -/
theorem pulsepairs_size_tracks_rows {σ : Type} (W : World σ) (gpio fuel : Nat) (s : σ)
    (r : Int × PulsePairs × σ) (h : gpio_watchpulsepairs W gpio fuel s = some r) :
    (tableOf [] = { pairs := [none], size := 1 }) ∧
    (∀ (st : WatchState) (vread tStage : Int) (tStart : Timeval) (caps : List (Int × Int)),
      st.size = caps.length → st.pulsepairs = tableOf caps →
      ∃ caps1, (stage_update W st vread tStage tStart).1.size = caps1.length ∧
        (stage_update W st vread tStage tStart).1.pulsepairs = tableOf caps1 ∧
        (caps1 = caps ∨ caps1 = caps ++ [(intCell st.pulse, intCell tStage)])) ∧
    r.2.1 = tableOf (storedPairs r.2.1) ∧
    num_pulsepairs (some r.2.1) = ((max 1 (storedPairs r.2.1).length : Nat) : Int) := by
  refine ⟨rfl, fun st vread tStage tStart caps hs ht =>
    stage_update_prefix W st vread tStage tStart caps hs ht, ?_⟩
  unfold gpio_watchpulsepairs at h
  simp only at h
  cases hw : watch_loop W gpio fuel fuel
      { value := 0, vread := 0, size := 0, finish := false, pulse := 0, pause := 0,
        tStage := 0, tStart := (W.gettimeofday s).1,
        pulsepairs := { pairs := [none], size := 1 } } (W.gettimeofday s).2 with
  | none => rw [hw] at h; cases h
  | some q =>
    obtain ⟨st1, s2⟩ := q
    rw [hw] at h
    obtain ⟨caps, hsz, htab⟩ := watch_loop_inv W gpio fuel fuel _ _ st1 s2 ⟨[], rfl, rfl⟩ hw
    simp only at h
    have hr : r.2.1 = st1.pulsepairs := by
      by_cases hlt : st1.size < PULSEPAIR_MINPAIRS
      · rw [if_pos hlt] at h; cases h; rfl
      · rw [if_neg hlt] at h; cases h; rfl
    rw [hr, htab, storedPairs_tableOf]
    refine ⟨rfl, ?_⟩
    simp only [num_pulsepairs, tableOf_size]

/-- Witness for C19 (as amended): a capture of four intervals returns a table of size 4. -/
theorem pulsepairs_size_tracks_rows_witness :
    ∃ r, gpio_watchpulsepairs simWorld 17 65000
        (simStart (signal [100, 200, 300, 400, 500, 600, 700, 800] false)) = some r ∧
      num_pulsepairs (some r.2.1) = 4 := by
  obtain ⟨s1, h⟩ := gpio_watchpulsepairs_sim 17 [100, 200, 300, 400, 500, 600, 700, 800]
    (by decide) _ (follows_signal _ false) 65000 (le_refl _) (by decide)
  refine ⟨_, h, ?_⟩
  rw [(pulsepairs_size_tracks_rows simWorld 17 65000 _ _ h).2.2.2, storedPairs_tableOf]
  rfl

/-- Counterexample to C19 as stated: a capture of an idle pin stores no pair,
yet the recorded length, as `num_pulsepairs` reports it, is 1, not 0. -/
theorem pulsepairs_size_one_when_empty :
    ∃ r, gpio_watchpulsepairs simWorld 17 65000 (simStart (signal [] false)) = some r ∧
      storedPairs r.2.1 = [] ∧ num_pulsepairs (some r.2.1) = 1 := by
  obtain ⟨s1, h⟩ := gpio_watchpulsepairs_sim 17 [] (by decide) _ (follows_signal _ false)
    65000 (le_refl _) (by decide)
  exact ⟨_, h, rfl, rfl⟩

/-! ## Emission followed by capture -/

/-- Result of one `gpio_pulsepause` call on the simulated clock. -/
theorem gpio_pulsepause_result (gpio : Nat) (tpulse tpause : Int) (h0 : 0 ≤ tpause)
    (h1 : tpause < 2 ^ 63) (fuel : Nat) (hf : microCycles tpulse ≤ fuel) (s : Sim) :
    ∃ s1, gpio_pulsepause simWorld gpio tpulse tpause fuel s =
      some (0, { pulse := 25 * (microCycles tpulse : Int), pause := tpause }, s1) := by
  obtain ⟨s1, hs1, hnow⟩ := pulse_loop_sim gpio fuel tpulse s hf
  have hd := uint64_of_nonneg tpause h0 h1
  unfold gpio_pulsepause
  simp only [simWorld] at hs1 ⊢
  rw [hs1]
  simp only [delta_timevalOf, hnow]
  have e1 : ((s.now + 25 * microCycles tpulse : Nat) : Int) - (s.now : Int) =
      25 * (microCycles tpulse : Int) := by
    push_cast
    omega
  have e2 : ((s.now + 25 * microCycles tpulse + uint64 tpause : Nat) : Int) -
      ((s.now + 25 * microCycles tpulse : Nat) : Int) = tpause := by
    push_cast
    omega
  rw [e1, e2]
  exact ⟨_, rfl⟩

theorem sendPulsePairs_sim (gpio fuel : Nat) :
    ∀ (req : List (Int × Int)),
      (∀ p ∈ req, 0 ≤ p.2 ∧ p.2 < 2 ^ 63 ∧ microCycles p.1 ≤ fuel) →
      ∀ s : Sim, ∃ s1, sendPulsePairs simWorld gpio fuel req s = some (measuredPairs req, s1) := by
  intro req
  induction req with
  | nil => intro _ s; exact ⟨s, rfl⟩
  | cons p rest ih =>
    intro h s
    have hp := h p (List.mem_cons_self p rest)
    obtain ⟨s1, h1⟩ := gpio_pulsepause_result gpio p.1 p.2 hp.1 hp.2.1 fuel hp.2.2 s
    obtain ⟨s2, h2⟩ := ih (fun q hq => h q (List.mem_cons_of_mem p hq)) s1
    refine ⟨s2, ?_⟩
    simp only [sendPulsePairs, h1, h2, measuredPairs, List.map_cons]

theorem microCycles_ge_one (tpulse : Int) (h : 0 < tpulse) : 1 ≤ microCycles tpulse := by
  have := microCycles_pos tpulse h
  omega

theorem pairsOf_natPairs (ms : List (Int × Int)) (h : ∀ p ∈ ms, 0 ≤ p.1 ∧ 0 ≤ p.2) :
    pairsOf (natPairs ms) = ms := by
  induction ms with
  | nil => rfl
  | cons p rest ih =>
    have hp := h p (List.mem_cons_self p rest)
    have ih1 := ih (fun q hq => h q (List.mem_cons_of_mem p hq))
    simp only [pairsOf, natPairs, List.map_cons, List.map_map] at ih1 ⊢
    rw [ih1, Int.toNat_of_nonneg hp.1, Int.toNat_of_nonneg hp.2]

theorem measuredPairs_bound (req : List (Int × Int))
    (hreq : ∀ p ∈ req, 0 < p.1 ∧ 25 * (microCycles p.1 : Int) < 65000 ∧ 0 < p.2 ∧ p.2 < 65000) :
    ∀ q ∈ measuredPairs req, (0 < q.1 ∧ q.1 < 65000) ∧ (0 < q.2 ∧ q.2 < 65000) := by
  intro q hq
  simp only [measuredPairs, List.mem_map] at hq
  obtain ⟨p, hp, rfl⟩ := hq
  have h := hreq p hp
  have h1 := microCycles_ge_one p.1 h.1
  refine ⟨⟨?_, h.2.1⟩, h.2.2⟩
  show 0 < 25 * (microCycles p.1 : Int)
  omega

theorem natPairs_bound (ms : List (Int × Int))
    (h : ∀ q ∈ ms, (0 < q.1 ∧ q.1 < 65000) ∧ (0 < q.2 ∧ q.2 < 65000)) :
    ∀ p ∈ natPairs ms, (0 < p.1 ∧ p.1 < 65000) ∧ (0 < p.2 ∧ p.2 < 65000) := by
  intro p hp
  simp only [natPairs, List.mem_map] at hp
  obtain ⟨q, hq, rfl⟩ := hp
  have := h q hq
  refine ⟨⟨?_, ?_⟩, ⟨?_, ?_⟩⟩ <;> simp only <;> omega

/-- C11 (as amended): under the simulated clock with exact delays, for every
list of requested pulse pairs whose measured durations are positive and below
the timeout, the successive `gpio_pulsepause` calls return the measured pairs
(pulse `25 * ceil (tpulse / 26)`, pause `tpause`), and a signal whose
successive low and high durations are these measured pairs, followed by an
idle period, fed as the simulated input of `gpio_watchpulsepairs`, is
reconstructed as exactly the same list of (pulse, pause) pairs. -/
theorem emit_capture_roundtrip (gpio : Nat) (req : List (Int × Int))
    (hreq : ∀ p ∈ req, 0 < p.1 ∧ 25 * (microCycles p.1 : Int) < 65000 ∧ 0 < p.2 ∧ p.2 < 65000)
    (fuel : Nat) (h1 : 65000 ≤ fuel) (h2 : 2 * req.length + 2 ≤ fuel) (s : Sim)
    (L : Nat → Bool) (hL : Follows L 0 (durationsOf (natPairs (measuredPairs req))) false) :
    (sendPulsePairs simWorld gpio fuel req s).map (fun r => r.1) = some (measuredPairs req) ∧
    (gpio_watchpulsepairs simWorld gpio fuel (simStart L)).map (fun r => storedPairs r.2.1) =
      some (measuredPairs req) := by
  have hb := measuredPairs_bound req hreq
  constructor
  · obtain ⟨s1, h⟩ := sendPulsePairs_sim gpio fuel req
      (fun p hp => by
        have := hreq p hp
        refine ⟨by omega, by omega, by omega⟩) s
    rw [h]; rfl
  · have hlen : (durationsOf (natPairs (measuredPairs req))).length + 2 ≤ fuel := by
      rw [durationsOf_length]
      simp only [natPairs, measuredPairs, List.length_map]
      exact h2
    obtain ⟨s1, h⟩ := gpio_watchpulsepairs_sim gpio (durationsOf (natPairs (measuredPairs req)))
      (durationsOf_bound _ (natPairs_bound _ hb)) L hL fuel h1 hlen
    rw [h, pairUp_durationsOf,
      pairsOf_natPairs _ (fun q hq => ⟨by have := hb q hq; omega, by have := hb q hq; omega⟩)]
    simp only [Option.map_some', storedPairs_tableOf]

/-- Witness for C11 (as amended): the requested pairs (100, 50) and (500, 300) are measured
as (100, 50) and (500, 300) and reconstructed from the signal low 100, high 50,
low 500, high 300. -/
theorem emit_capture_roundtrip_witness :
    (gpio_watchpulsepairs simWorld 4 65000 (simStart (signal [100, 50, 500, 300] false))).map
        (fun r => storedPairs r.2.1) = some [(100, 50), (500, 300)] :=
  (emit_capture_roundtrip 4 [(100, 50), (500, 300)] (by decide) 65000 (le_refl _) (by decide)
    (simStart (fun _ => false)) _ (follows_signal _ false)).2

/-- Counterexample to C11 as stated: emitting the pair (26, 50) writes the pin
high at 0 µs and low at 13 µs (one carrier cycle); this pin waveform, fed to
`gpio_watchpulsepairs`, is captured as the single pair (1, 12), which is
neither the requested pair (26, 50) nor the measured pair (25, 50). -/
theorem carrier_not_reconstructed :
    ∃ ms s1 r,
      sendPulsePairs simWorld 4 10 [(26, 50)] (simStart (fun _ => false)) = some (ms, s1) ∧
      ms = [(25, 50)] ∧ s1.wave = [(0, 4, 1), (13, 4, 0)] ∧
      gpio_watchpulsepairs simWorld 4 65000 (simStart (waveLevel s1.wave 4)) = some r ∧
      storedPairs r.2.1 = [(1, 12)] ∧ storedPairs r.2.1 ≠ [(26, 50)] ∧ storedPairs r.2.1 ≠ ms := by
  have hF : Follows (waveLevel [(0, 4, 1), (13, 4, 0)] 4) 0 [1, 12] false := by
    intro t h0 ht
    simp only [waveLevel, List.foldl, signal, Nat.zero_add]
    by_cases h13 : 13 ≤ t
    · have e1 : ¬ (t < 1) := by omega
      have e2 : ¬ (t - 1 < 12) := by omega
      simp [h13, e1, e2]
    · have e1 : ¬ (t < 1) := by omega
      have e2 : t - 1 < 12 := by omega
      simp [h13, e1, e2]
  obtain ⟨s2, h⟩ := gpio_watchpulsepairs_sim 4 [1, 12] (by decide) _ hF 65000 (le_refl _)
    (by decide)
  have hst : storedPairs
      ((if (pairUp (List.map Int.ofNat [1, 12] ++ [65000])).length < PULSEPAIR_MINPAIRS
          then (0 : Int) else 1,
        tableOf (pairUp (List.map Int.ofNat [1, 12] ++ [65000])), s2) :
          Int × PulsePairs × Sim).2.1 = [(1, 12)] := rfl
  refine ⟨[(25, 50)], ⟨75, fun _ => false, [(0, 4, 1), (13, 4, 0)]⟩, _, rfl, rfl, rfl, h,
    hst, ?_, ?_⟩
  · rw [hst]; decide
  · rw [hst]; decide

/-! ## Time differences -/

/-- C21: over exact integers, `delta_time_in_microseconds(t2, t1)` is the
difference of the two times in microseconds,
`(t2.tv_sec * 1000000 + t2.tv_usec) - (t1.tv_sec * 1000000 + t1.tv_usec)`,
on both branches of the borrow test; hence it is 0 for equal arguments,
antisymmetric, and non-negative exactly when `t2` is not earlier than `t1`. -/
theorem delta_time_exact (t2 t1 : Timeval) :
    delta_time_in_microseconds t2 t1 =
      (t2.tv_sec * 1000000 + t2.tv_usec) - (t1.tv_sec * 1000000 + t1.tv_usec) ∧
    (t2.tv_usec - t1.tv_usec < 0 →
      delta_time_in_microseconds t2 t1 =
        (t2.tv_sec - t1.tv_sec - 1) * 1000000 + (t2.tv_usec - t1.tv_usec + 1000000)) ∧
    delta_time_in_microseconds t1 t1 = 0 ∧
    delta_time_in_microseconds t1 t2 = - delta_time_in_microseconds t2 t1 ∧
    (0 ≤ delta_time_in_microseconds t2 t1 ↔
      t1.tv_sec * 1000000 + t1.tv_usec ≤ t2.tv_sec * 1000000 + t2.tv_usec) := by
  have key : ∀ a b : Timeval, delta_time_in_microseconds a b =
      (a.tv_sec * 1000000 + a.tv_usec) - (b.tv_sec * 1000000 + b.tv_usec) := by
    intro a b
    unfold delta_time_in_microseconds
    simp only
    split <;> omega
  refine ⟨key t2 t1, ?_, ?_, ?_, ?_⟩
  · intro h
    unfold delta_time_in_microseconds
    simp only [h, if_true]
  · rw [key]; omega
  · rw [key, key]; omega
  · rw [key]; omega

/-- Witness for C21: from 1.999999 s to 3.000001 s the borrow branch is taken and the
difference is 1000002 µs. -/
theorem delta_time_exact_witness :
    delta_time_in_microseconds ⟨3, 1⟩ ⟨1, 999999⟩ = 1000002 :=
  ((delta_time_exact ⟨3, 1⟩ ⟨1, 999999⟩).2.1 (by decide)).trans (by decide)

/-! ## Event status and falling-edge enable: exact accesses -/

/-- Accesses made by `clear_event_detect`, for any bus. -/
theorem clear_event_detect_trace (bus : Bus) (p : Nat) (m : Machine) :
    (clear_event_detect bus p m).trace =
      m.trace ++
        [Access.read (EVENT_DETECT_OFFSET + p / 32),
         Access.write (EVENT_DETECT_OFFSET + p / 32)
           ((m.regs (EVENT_DETECT_OFFSET + p / 32) ||| 2 ^ (p % 32)) % 2 ^ 32),
         Access.wait,
         Access.write (EVENT_DETECT_OFFSET + p / 32) 0] := by
  have hb : p % 32 < 32 := Nat.mod_lt _ (by decide)
  simp only [clear_event_detect, rd, wr, short_wait, shl32_one _ hb, List.append_assoc,
    List.singleton_append, List.cons_append, List.nil_append, Nat.zero_mod]

/-- C23: for every pin in 0..53 and any bus, `clear_event_detect` appends
exactly these accesses to the trace: the read of event-status word
`16 + p / 32`, the write to it of the word read with bit `p % 32` set, one
settling delay, and the write of 0 to it; on plain memory the word ends as 0
and every other word keeps its value. -/
theorem clear_event_detect_exact (bus : Bus) (p : Nat) (_hp : p < 54) (m : Machine) :
    (clear_event_detect bus p m).trace =
      m.trace ++
        [Access.read (EVENT_DETECT_OFFSET + p / 32),
         Access.write (EVENT_DETECT_OFFSET + p / 32)
           ((m.regs (EVENT_DETECT_OFFSET + p / 32) ||| 2 ^ (p % 32)) % 2 ^ 32),
         Access.wait,
         Access.write (EVENT_DETECT_OFFSET + p / 32) 0] ∧
    ((m.regs (EVENT_DETECT_OFFSET + p / 32) ||| 2 ^ (p % 32)) % 2 ^ 32).testBit (p % 32) = true ∧
    (clear_event_detect plainBus p m).regs (EVENT_DETECT_OFFSET + p / 32) = 0 ∧
    ∀ w, w ≠ EVENT_DETECT_OFFSET + p / 32 → (clear_event_detect plainBus p m).regs w = m.regs w := by
  have hb : p % 32 < 32 := Nat.mod_lt _ (by decide)
  refine ⟨clear_event_detect_trace bus p m, ?_, clear_event_detect_word p m,
    fun w hw => clear_event_detect_regs_other p m w hw⟩
  rw [testBit_or_bit _ _ _ hb]
  simp

/-- Witness for C23: pin 40 with bits 0 and 8 of status word 17 pending. -/
theorem clear_event_detect_exact_witness :
    (clear_event_detect plainBus 40 ⟨fun i => if i = 17 then 257 else 0, []⟩).trace =
      [Access.read 17, Access.write 17 257, Access.wait, Access.write 17 0] :=
  (clear_event_detect_exact plainBus 40 (by decide)
    ⟨fun i => if i = 17 then 257 else 0, []⟩).1.trans (by decide)

/-- C22: on plain register memory, for every pin in 0..53, every non-zero
`enable` and every prior content, `set_falling_event` reads the falling-edge
enable word `22 + p / 32`, writes it twice, first with the old word or-ed
with the bit and then with the bit alone, and then runs
`clear_event_detect`; the enable word is left equal to exactly
`1 << (p % 32)`, so no other bit of it is set afterwards. -/
theorem set_falling_event_overwrites (p : Nat) (_hp : p < 54) (e : Int) (he : e ≠ 0)
    (m : Machine) :
    (set_falling_event plainBus p e m).trace =
      m.trace ++
        [Access.read (FALLING_ED_OFFSET + p / 32),
         Access.write (FALLING_ED_OFFSET + p / 32)
           ((m.regs (FALLING_ED_OFFSET + p / 32) ||| 2 ^ (p % 32)) % 2 ^ 32),
         Access.write (FALLING_ED_OFFSET + p / 32) (2 ^ (p % 32)),
         Access.read (EVENT_DETECT_OFFSET + p / 32),
         Access.write (EVENT_DETECT_OFFSET + p / 32)
           ((m.regs (EVENT_DETECT_OFFSET + p / 32) ||| 2 ^ (p % 32)) % 2 ^ 32),
         Access.wait,
         Access.write (EVENT_DETECT_OFFSET + p / 32) 0] ∧
    (set_falling_event plainBus p e m).regs (FALLING_ED_OFFSET + p / 32) = 2 ^ (p % 32) ∧
    ∀ j, j ≠ p % 32 →
      ((set_falling_event plainBus p e m).regs (FALLING_ED_OFFSET + p / 32)).testBit j = false := by
  have hb : p % 32 < 32 := Nat.mod_lt _ (by decide)
  have hoff : FALLING_ED_OFFSET + p / 32 ≠ EVENT_DETECT_OFFSET + p / 32 := by
    unfold FALLING_ED_OFFSET EVENT_DETECT_OFFSET; omega
  have hoff2 : EVENT_DETECT_OFFSET + p / 32 ≠ FALLING_ED_OFFSET + p / 32 := fun h => hoff h.symm
  have hmod : 2 ^ (p % 32) % 2 ^ 32 = 2 ^ (p % 32) := Nat.mod_eq_of_lt (two_pow_lt_word _ hb)
  have hword : (set_falling_event plainBus p e m).regs (FALLING_ED_OFFSET + p / 32)
      = 2 ^ (p % 32) := by
    unfold set_falling_event
    simp only [he, ne_eq, not_false_eq_true, if_true]
    rw [clear_event_detect_regs_other _ _ _ hoff]
    simp only [rd, wr, plainBus_apply, if_true, shl32_one _ hb, hmod]
  refine ⟨?_, hword, ?_⟩
  · unfold set_falling_event
    simp only [he, ne_eq, not_false_eq_true, if_true]
    rw [clear_event_detect_trace]
    simp only [rd, wr, plainBus_apply, if_neg hoff2, shl32_one _ hb, hmod, List.append_assoc,
      List.singleton_append, List.cons_append, List.nil_append]
  · intro j hj
    rw [hword, Nat.testBit_two_pow]
    simp [Ne.symm hj]

/-- Witness for C22: pin 3 enabled while pins 0 and 4 were enabled: the word 17 becomes 8. -/
theorem set_falling_event_overwrites_witness :
    (set_falling_event plainBus 3 1 ⟨fun i => if i = 22 then 17 else 0, []⟩).regs 22 = 8 ∧
    (set_falling_event plainBus 3 1 ⟨fun i => if i = 22 then 17 else 0, []⟩).trace =
      [Access.read 22, Access.write 22 25, Access.write 22 8,
       Access.read 16, Access.write 16 8, Access.wait, Access.write 16 0] :=
  ⟨(set_falling_event_overwrites 3 (by decide) 1 (by decide)
      ⟨fun i => if i = 22 then 17 else 0, []⟩).2.1.trans (by decide), by decide⟩

/-- C27: on plain register memory, for distinct pins `p` and `q` of the same
event-status word whose status bits are both set, `eventdetected(p)` returns
non-zero, the value it first writes to the status word contains the bit of
`q` as well, the word is then set to 0, and a following `eventdetected(q)`
returns 0 although `eventdetected(q)` on the initial state would have
returned non-zero. -/
theorem eventdetected_consumes_word (p q : Nat) (_hp : p < 54) (_hq : q < 54) (_hpq : p ≠ q)
    (hword : p / 32 = q / 32) (m : Machine)
    (hpb : (m.regs (EVENT_DETECT_OFFSET + p / 32)).testBit (p % 32) = true)
    (hqb : (m.regs (EVENT_DETECT_OFFSET + q / 32)).testBit (q % 32) = true) :
    (eventdetected plainBus p m).1 ≠ 0 ∧
    (eventdetected plainBus q m).1 ≠ 0 ∧
    (eventdetected plainBus p m).2.trace =
      m.trace ++
        [Access.read (EVENT_DETECT_OFFSET + p / 32),
         Access.read (EVENT_DETECT_OFFSET + p / 32),
         Access.write (EVENT_DETECT_OFFSET + p / 32)
           ((m.regs (EVENT_DETECT_OFFSET + p / 32) ||| 2 ^ (p % 32)) % 2 ^ 32),
         Access.wait,
         Access.write (EVENT_DETECT_OFFSET + p / 32) 0] ∧
    ((m.regs (EVENT_DETECT_OFFSET + p / 32) ||| 2 ^ (p % 32)) % 2 ^ 32).testBit (q % 32) = true ∧
    (eventdetected plainBus p m).2.regs (EVENT_DETECT_OFFSET + q / 32) = 0 ∧
    (eventdetected plainBus q (eventdetected plainBus p m).2).1 = 0 := by
  have hpm : p % 32 < 32 := Nat.mod_lt _ (by decide)
  have hqm : q % 32 < 32 := Nat.mod_lt _ (by decide)
  have h1 : (eventdetected plainBus p m).1 ≠ 0 := by
    rw [eventdetected_val, Ne, int32_and_bit_eq_zero_iff _ _ hpm, hpb]
    simp
  have h2 : (eventdetected plainBus q m).1 ≠ 0 := by
    rw [eventdetected_val, Ne, int32_and_bit_eq_zero_iff _ _ hqm, hqb]
    simp
  have hm : (eventdetected plainBus p m).2 =
      clear_event_detect plainBus p (rd m (EVENT_DETECT_OFFSET + p / 32)).2 := by
    rw [eventdetected_val] at h1
    unfold eventdetected
    simp only [rd] at h1 ⊢
    rw [if_pos h1]
  have hz : (eventdetected plainBus p m).2.regs (EVENT_DETECT_OFFSET + q / 32) = 0 := by
    rw [hm, ← hword, clear_event_detect_word]
  refine ⟨h1, h2, ?_, ?_, hz, ?_⟩
  · rw [hm, clear_event_detect_trace]
    simp only [rd, List.append_assoc, List.singleton_append]
  · rw [testBit_or_bit _ _ _ hqm, ← hword] at *
    rw [hword, hqb]
    rfl
  · rw [eventdetected_val, hz, Nat.zero_and, int32_zero]

/-- Witness for C27: pins 3 and 5 both pending in status word 16. -/
theorem eventdetected_consumes_word_witness :
    (eventdetected plainBus 3 ⟨fun i => if i = 16 then 40 else 0, []⟩).1 ≠ 0 ∧
    (eventdetected plainBus 5 ⟨fun i => if i = 16 then 40 else 0, []⟩).1 ≠ 0 ∧
    (eventdetected plainBus 5
      (eventdetected plainBus 3 ⟨fun i => if i = 16 then 40 else 0, []⟩).2).1 = 0 :=
  ⟨(eventdetected_consumes_word 3 5 (by decide) (by decide) (by decide) (by decide)
      ⟨fun i => if i = 16 then 40 else 0, []⟩ (by decide) (by decide)).1,
    by decide, by decide⟩

/-! ## Trigger configuration: frame -/

theorem rmw_set_other_bits (m : Machine) (off k j : Nat) (hk : k < 32) (hj : j < 32)
    (hne : j ≠ k) :
    ((wr plainBus (rd m off).2 off ((rd m off).1 ||| shl32 1 k)).regs off).testBit j =
      (m.regs off).testBit j := by
  simp only [rd, wr, plainBus_apply, if_true, shl32_one k hk]
  rw [testBit_or_bit _ _ _ hj]
  simp [Ne.symm hne]

theorem rmw_clear_other_bits (m : Machine) (off k j : Nat) (hk : k < 32) (hj : j < 32)
    (hne : j ≠ k) :
    ((wr plainBus (rd m off).2 off ((rd m off).1 &&& not32 (shl32 1 k))).regs off).testBit j =
      (m.regs off).testBit j := by
  simp only [rd, wr, plainBus_apply, if_true, shl32_one k hk]
  rw [testBit_andnot_bit _ _ _ hj]
  simp [Ne.symm hne]

theorem rmw_other_word (m : Machine) (off v w : Nat) (hw : w ≠ off) :
    (wr plainBus (rd m off).2 off v).regs w = m.regs w := by
  simp only [rd, wr, plainBus_apply, if_neg hw]

theorem set_rising_event_frame (p : Nat) (e : Int) (m : Machine) :
    (∀ w, w ≠ RISING_ED_OFFSET + p / 32 → w ≠ EVENT_DETECT_OFFSET + p / 32 →
      (set_rising_event plainBus p e m).regs w = m.regs w) ∧
    (∀ j, j < 32 → j ≠ p % 32 →
      ((set_rising_event plainBus p e m).regs (RISING_ED_OFFSET + p / 32)).testBit j =
        (m.regs (RISING_ED_OFFSET + p / 32)).testBit j) := by
  have hb : p % 32 < 32 := Nat.mod_lt _ (by decide)
  have hoff : RISING_ED_OFFSET + p / 32 ≠ EVENT_DETECT_OFFSET + p / 32 := by
    unfold RISING_ED_OFFSET EVENT_DETECT_OFFSET; omega
  constructor
  · intro w hw hs
    unfold set_rising_event
    rw [clear_event_detect_regs_other _ _ _ hs]
    by_cases he : e ≠ 0
    · rw [if_pos he]; exact rmw_other_word _ _ _ _ hw
    · rw [if_neg he]; exact rmw_other_word _ _ _ _ hw
  · intro j hj hne
    unfold set_rising_event
    rw [clear_event_detect_regs_other _ _ _ hoff]
    by_cases he : e ≠ 0
    · rw [if_pos he]; exact rmw_set_other_bits _ _ _ _ hb hj hne
    · rw [if_neg he]; exact rmw_clear_other_bits _ _ _ _ hb hj hne

theorem set_high_event_frame (p : Nat) (e : Int) (m : Machine) :
    (∀ w, w ≠ HIGH_DETECT_OFFSET + p / 32 → w ≠ EVENT_DETECT_OFFSET + p / 32 →
      (set_high_event plainBus p e m).regs w = m.regs w) ∧
    (∀ j, j < 32 → j ≠ p % 32 →
      ((set_high_event plainBus p e m).regs (HIGH_DETECT_OFFSET + p / 32)).testBit j =
        (m.regs (HIGH_DETECT_OFFSET + p / 32)).testBit j) := by
  have hb : p % 32 < 32 := Nat.mod_lt _ (by decide)
  have hoff : HIGH_DETECT_OFFSET + p / 32 ≠ EVENT_DETECT_OFFSET + p / 32 := by
    unfold HIGH_DETECT_OFFSET EVENT_DETECT_OFFSET; omega
  constructor
  · intro w hw hs
    unfold set_high_event
    rw [clear_event_detect_regs_other _ _ _ hs]
    by_cases he : e ≠ 0
    · rw [if_pos he]; exact rmw_other_word _ _ _ _ hw
    · rw [if_neg he]; exact rmw_other_word _ _ _ _ hw
  · intro j hj hne
    unfold set_high_event
    rw [clear_event_detect_regs_other _ _ _ hoff]
    by_cases he : e ≠ 0
    · rw [if_pos he]; exact rmw_set_other_bits _ _ _ _ hb hj hne
    · rw [if_neg he]; exact rmw_clear_other_bits _ _ _ _ hb hj hne

theorem set_low_event_frame (p : Nat) (e : Int) (m : Machine) :
    (∀ w, w ≠ LOW_DETECT_OFFSET + p / 32 → w ≠ EVENT_DETECT_OFFSET + p / 32 →
      (set_low_event plainBus p e m).regs w = m.regs w) ∧
    (∀ j, j < 32 → j ≠ p % 32 →
      ((set_low_event plainBus p e m).regs (LOW_DETECT_OFFSET + p / 32)).testBit j =
        (m.regs (LOW_DETECT_OFFSET + p / 32)).testBit j) := by
  have hb : p % 32 < 32 := Nat.mod_lt _ (by decide)
  have hoff : LOW_DETECT_OFFSET + p / 32 ≠ EVENT_DETECT_OFFSET + p / 32 := by
    unfold LOW_DETECT_OFFSET EVENT_DETECT_OFFSET; omega
  constructor
  · intro w hw hs
    unfold set_low_event
    rw [clear_event_detect_regs_other _ _ _ hs]
    by_cases he : e ≠ 0
    · rw [if_pos he]; exact rmw_other_word _ _ _ _ hw
    · rw [if_neg he]; exact rmw_other_word _ _ _ _ hw
  · intro j hj hne
    unfold set_low_event
    rw [clear_event_detect_regs_other _ _ _ hoff]
    by_cases he : e ≠ 0
    · rw [if_pos he]; exact rmw_set_other_bits _ _ _ _ hb hj hne
    · rw [if_neg he]; exact rmw_clear_other_bits _ _ _ _ hb hj hne

theorem set_falling_event_frame (p : Nat) (m : Machine) :
    (∀ w, w ≠ FALLING_ED_OFFSET + p / 32 → w ≠ EVENT_DETECT_OFFSET + p / 32 →
      (set_falling_event plainBus p 0 m).regs w = m.regs w) ∧
    (∀ j, j < 32 → j ≠ p % 32 →
      ((set_falling_event plainBus p 0 m).regs (FALLING_ED_OFFSET + p / 32)).testBit j =
        (m.regs (FALLING_ED_OFFSET + p / 32)).testBit j) := by
  have hb : p % 32 < 32 := Nat.mod_lt _ (by decide)
  have hoff : FALLING_ED_OFFSET + p / 32 ≠ EVENT_DETECT_OFFSET + p / 32 := by
    unfold FALLING_ED_OFFSET EVENT_DETECT_OFFSET; omega
  have he : ¬ ((0 : Int) ≠ 0) := fun h => h rfl
  constructor
  · intro w hw hs
    unfold set_falling_event
    rw [clear_event_detect_regs_other _ _ _ hs, if_neg he]
    exact rmw_other_word _ _ _ _ hw
  · intro j hj hne
    unfold set_falling_event
    rw [clear_event_detect_regs_other _ _ _ hoff, if_neg he]
    exact rmw_clear_other_bits _ _ _ _ hb hj hne

/-- C26: on plain register memory, for every pin in 0..53,
`set_rising_event`, `set_high_event` and `set_low_event` with any `enable`,
and `set_falling_event` with `enable` 0, leave every word other than their
own trigger-enable word and the event-status word of the pin unchanged (so
all words of the other three trigger-enable groups keep their value), and
in their own word change no bit other than bit `p % 32`. -/
theorem trigger_config_frame (p : Nat) (_hp : p < 54) (e : Int) (m : Machine) :
    ((∀ w, w ≠ RISING_ED_OFFSET + p / 32 → w ≠ EVENT_DETECT_OFFSET + p / 32 →
        (set_rising_event plainBus p e m).regs w = m.regs w) ∧
     (∀ j, j < 32 → j ≠ p % 32 →
        ((set_rising_event plainBus p e m).regs (RISING_ED_OFFSET + p / 32)).testBit j =
          (m.regs (RISING_ED_OFFSET + p / 32)).testBit j)) ∧
    ((∀ w, w ≠ HIGH_DETECT_OFFSET + p / 32 → w ≠ EVENT_DETECT_OFFSET + p / 32 →
        (set_high_event plainBus p e m).regs w = m.regs w) ∧
     (∀ j, j < 32 → j ≠ p % 32 →
        ((set_high_event plainBus p e m).regs (HIGH_DETECT_OFFSET + p / 32)).testBit j =
          (m.regs (HIGH_DETECT_OFFSET + p / 32)).testBit j)) ∧
    ((∀ w, w ≠ LOW_DETECT_OFFSET + p / 32 → w ≠ EVENT_DETECT_OFFSET + p / 32 →
        (set_low_event plainBus p e m).regs w = m.regs w) ∧
     (∀ j, j < 32 → j ≠ p % 32 →
        ((set_low_event plainBus p e m).regs (LOW_DETECT_OFFSET + p / 32)).testBit j =
          (m.regs (LOW_DETECT_OFFSET + p / 32)).testBit j)) ∧
    ((∀ w, w ≠ FALLING_ED_OFFSET + p / 32 → w ≠ EVENT_DETECT_OFFSET + p / 32 →
        (set_falling_event plainBus p 0 m).regs w = m.regs w) ∧
     (∀ j, j < 32 → j ≠ p % 32 →
        ((set_falling_event plainBus p 0 m).regs (FALLING_ED_OFFSET + p / 32)).testBit j =
          (m.regs (FALLING_ED_OFFSET + p / 32)).testBit j)) :=
  ⟨set_rising_event_frame p e m, set_high_event_frame p e m, set_low_event_frame p e m,
    set_falling_event_frame p m⟩

/-- Witness for C26: enabling rising-edge detection on pin 3 while pins 0 and 4 are
enabled keeps bit 4 of word 19 set. -/
theorem trigger_config_frame_witness :
    ((set_rising_event plainBus 3 1 ⟨fun i => if i = 19 then 17 else 0, []⟩).regs
        (RISING_ED_OFFSET + 3 / 32)).testBit 4 = true :=
  ((trigger_config_frame 3 (by decide) 1 ⟨fun i => if i = 19 then 17 else 0, []⟩).1.2 4
    (by decide) (by decide)).trans (by decide)

/-! ## The carrier loop -/

theorem carrierWave_length (gpio : Nat) (n : Nat) :
    ∀ t, (carrierWave gpio t n).length = 2 * n := by
  induction n with
  | zero => intro t; rfl
  | succ n ih =>
    intro t
    simp only [carrierWave, List.length_cons, ih]
    omega

theorem carrierWave_last (gpio : Nat) (n : Nat) :
    ∀ t, (carrierWave gpio t (n + 1)).getLast? = some (t + 25 * n + 13, gpio, 0) := by
  induction n with
  | zero => intro t; rfl
  | succ n ih =>
    intro t
    have h := ih (t + 25)
    have e : t + 25 + 25 * n + 13 = t + 25 * (n + 1) + 13 := by omega
    rw [e] at h
    rw [← h]
    simp [carrierWave, List.getLast?_cons_cons]

/-- The carrier loop on the simulated clock: with enough fuel it ends after
`microCycles tpulse` micro-cycles, having written exactly their pin writes;
with less fuel it does not end. -/
theorem pulse_loop_wave (gpio : Nat) (fuel : Nat) :
    ∀ (tpulse : Int) (s : Sim),
      (microCycles tpulse ≤ fuel →
        pulse_loop simWorld gpio fuel tpulse s =
          some { now := s.now + 25 * microCycles tpulse, level := s.level,
                 wave := s.wave ++ carrierWave gpio s.now (microCycles tpulse) }) ∧
      (fuel < microCycles tpulse → pulse_loop simWorld gpio fuel tpulse s = none) := by
  induction fuel with
  | zero =>
    intro tpulse s
    constructor
    · intro hf
      have h0 : microCycles tpulse = 0 := by omega
      have hn : ¬ tpulse > 0 := by
        intro hpos
        have := microCycles_pos tpulse hpos
        omega
      simp [pulse_loop, hn, h0, carrierWave]
    · intro hf
      have hpos : tpulse > 0 := by
        by_contra hn
        have := microCycles_nonpos tpulse hn
        omega
      simp [pulse_loop, hpos]
  | succ fuel ih =>
    intro tpulse s
    by_cases hpos : tpulse > 0
    · have hc := microCycles_pos tpulse hpos
      have hstep := ih (tpulse - 26)
        (simWorld.bcm2835_delayMicroseconds 12
          (simWorld.bcm2835_gpio_write gpio 0
            (simWorld.bcm2835_delayMicroseconds 13
              (simWorld.bcm2835_gpio_write gpio 1 s))))
      constructor
      · intro hf
        simp only [pulse_loop, hpos, if_true]
        rw [hstep.1 (by omega), hc]
        simp only [simWorld, carrierWave, List.append_assoc, List.singleton_append,
          List.cons_append, List.nil_append]
        congr 2
        omega
      · intro hf
        simp only [pulse_loop, hpos, if_true]
        exact hstep.2 (by omega)
    · have h0 := microCycles_nonpos tpulse hpos
      constructor
      · intro _
        simp [pulse_loop, hpos, h0, carrierWave]
      · intro hf
        omega

/-- C29: carrier loop of `gpio_pulsepause` on the simulated clock, for every
`tpulse`: with `n = ceil (tpulse / 26)` when `tpulse > 0` and `n = 0` when
`tpulse ≤ 0`, the loop ends after exactly `n` micro-cycles (it ends with `n`
units of fuel and with no fewer), each micro-cycle writing the pin high,
then low 13 µs later, the next cycle starting 12 µs after that; so the last
pin write is low whenever `tpulse > 0`, and no pin write occurs when
`tpulse ≤ 0`. -/
theorem carrier_loop_exact (gpio : Nat) (tpulse : Int) (s : Sim) (fuel : Nat) :
    (microCycles tpulse ≤ fuel →
      pulse_loop simWorld gpio fuel tpulse s =
        some { now := s.now + 25 * microCycles tpulse, level := s.level,
               wave := s.wave ++ carrierWave gpio s.now (microCycles tpulse) }) ∧
    (fuel < microCycles tpulse → pulse_loop simWorld gpio fuel tpulse s = none) ∧
    (0 < tpulse →
      26 * ((microCycles tpulse : Int) - 1) < tpulse ∧ tpulse ≤ 26 * (microCycles tpulse : Int)) ∧
    (tpulse ≤ 0 → microCycles tpulse = 0 ∧ carrierWave gpio s.now (microCycles tpulse) = []) ∧
    (0 < tpulse →
      ∃ t, (s.wave ++ carrierWave gpio s.now (microCycles tpulse)).getLast? = some (t, gpio, 0)) ∧
    (carrierWave gpio s.now (microCycles tpulse)).length = 2 * microCycles tpulse := by
  refine ⟨(pulse_loop_wave gpio fuel tpulse s).1, (pulse_loop_wave gpio fuel tpulse s).2,
    ?_, ?_, ?_, carrierWave_length gpio _ _⟩
  · intro h
    unfold microCycles
    omega
  · intro h
    have h0 : microCycles tpulse = 0 := microCycles_nonpos tpulse (by omega)
    rw [h0]
    exact ⟨rfl, rfl⟩
  · intro h
    have h1 := microCycles_ge_one tpulse h
    obtain ⟨n, hn⟩ : ∃ n, microCycles tpulse = n + 1 := ⟨microCycles tpulse - 1, by omega⟩
    rw [hn]
    refine ⟨s.now + 25 * n + 13, ?_⟩
    have hl := carrierWave_last gpio n s.now
    have hne : carrierWave gpio s.now (n + 1) ≠ [] := by
      simp [carrierWave]
    rw [List.getLast?_append_of_ne_nil _ hne, hl]

/-- Witness for C29: `tpulse` = 100 gives four micro-cycles, the eight pin writes below,
and the loop does not end with three units of fuel. -/
theorem carrier_loop_exact_witness :
    (pulse_loop simWorld 4 4 100 (simStart (fun _ => false))).map (fun s => (s.now, s.wave)) =
      some (100, [(0, 4, 1), (13, 4, 0), (25, 4, 1), (38, 4, 0), (50, 4, 1), (63, 4, 0),
                  (75, 4, 1), (88, 4, 0)]) ∧
    pulse_loop simWorld 4 3 100 (simStart (fun _ => false)) = none :=
  ⟨by rw [(carrier_loop_exact 4 100 (simStart (fun _ => false)) 4).1 (by decide)]; decide,
   (carrier_loop_exact 4 100 (simStart (fun _ => false)) 3).2.1 (by decide)⟩

/-! ## Register offsets -/

theorem offsetsOf_rd (m : Machine) (off : Nat) :
    offsetsOf (rd m off).2.trace = offsetsOf m.trace ++ [off] := by
  simp [offsetsOf, rd, accessOffset]

theorem offsetsOf_wr (bus : Bus) (m : Machine) (off val : Nat) :
    offsetsOf (wr bus m off val).trace = offsetsOf m.trace ++ [off] := by
  simp [offsetsOf, wr, accessOffset]

theorem offsetsOf_wait (m : Machine) :
    offsetsOf (short_wait m).trace = offsetsOf m.trace := by
  simp [offsetsOf, short_wait, accessOffset]

theorem offsets_clear_event_detect (bus : Bus) (p : Nat) (m : Machine) :
    offsetsOf (clear_event_detect bus p m).trace =
      offsetsOf m.trace ++
        [EVENT_DETECT_OFFSET + p / 32, EVENT_DETECT_OFFSET + p / 32,
         EVENT_DETECT_OFFSET + p / 32] := by
  unfold clear_event_detect
  simp only [offsetsOf_wr, offsetsOf_wait, offsetsOf_rd, List.append_assoc,
    List.singleton_append, List.cons_append, List.nil_append]

theorem offsets_eventdetected (bus : Bus) (p : Nat) (m : Machine) :
    offsetsOf (eventdetected bus p m).2.trace =
      offsetsOf m.trace ++
        (if (eventdetected bus p m).1 ≠ 0 then
          [EVENT_DETECT_OFFSET + p / 32, EVENT_DETECT_OFFSET + p / 32,
           EVENT_DETECT_OFFSET + p / 32, EVENT_DETECT_OFFSET + p / 32]
         else [EVENT_DETECT_OFFSET + p / 32]) := by
  rw [eventdetected_val]
  unfold eventdetected
  by_cases h : int32 (m.regs (EVENT_DETECT_OFFSET + p / 32) &&& shl32 1 (p % 32)) ≠ 0
  · have h1 : int32 ((rd m (EVENT_DETECT_OFFSET + p / 32)).1 &&& shl32 1 (p % 32)) ≠ 0 := h
    simp only [if_pos h, if_pos h1, offsets_clear_event_detect, offsetsOf_rd,
      List.append_assoc, List.singleton_append, List.cons_append, List.nil_append]
  · have h1 : ¬ int32 ((rd m (EVENT_DETECT_OFFSET + p / 32)).1 &&& shl32 1 (p % 32)) ≠ 0 := h
    simp only [if_neg h, if_neg h1, offsetsOf_rd]

theorem offsets_set_pullupdn (bus : Bus) (p : Nat) (pud : Int) (m : Machine) :
    offsetsOf (set_pullupdn bus p pud m).trace =
      offsetsOf m.trace ++
        [PULLUPDN_OFFSET, PULLUPDN_OFFSET, PULLUPDNCLK_OFFSET + p / 32, PULLUPDN_OFFSET,
         PULLUPDN_OFFSET, PULLUPDNCLK_OFFSET + p / 32] := by
  unfold set_pullupdn
  simp only [offsetsOf_wr, offsetsOf_wait, offsetsOf_rd]
  split
  · simp only [offsetsOf_wr, offsetsOf_rd, List.append_assoc, List.singleton_append,
      List.cons_append, List.nil_append]
  · split
    · simp only [offsetsOf_wr, offsetsOf_rd, List.append_assoc, List.singleton_append,
        List.cons_append, List.nil_append]
    · simp only [offsetsOf_wr, offsetsOf_rd, List.append_assoc, List.singleton_append,
        List.cons_append, List.nil_append]

theorem offsets_setup_gpio (bus : Bus) (p : Nat) (d pud : Int) (m : Machine) :
    offsetsOf (setup_gpio bus p d pud m).trace =
      offsetsOf m.trace ++
        [PULLUPDN_OFFSET, PULLUPDN_OFFSET, PULLUPDNCLK_OFFSET + p / 32, PULLUPDN_OFFSET,
         PULLUPDN_OFFSET, PULLUPDNCLK_OFFSET + p / 32, FSEL_OFFSET + p / 10,
         FSEL_OFFSET + p / 10] := by
  unfold setup_gpio
  split
  · simp only [offsetsOf_wr, offsetsOf_rd, offsets_set_pullupdn, List.append_assoc,
      List.singleton_append, List.cons_append, List.nil_append]
  · simp only [offsetsOf_wr, offsetsOf_rd, offsets_set_pullupdn, List.append_assoc,
      List.singleton_append, List.cons_append, List.nil_append]

theorem offsets_gpio_function (p : Nat) (m : Machine) :
    offsetsOf (gpio_function p m).2.trace = offsetsOf m.trace ++ [FSEL_OFFSET + p / 10] := by
  unfold gpio_function
  simp only [offsetsOf_rd]

theorem offsets_input_gpio (p : Nat) (m : Machine) :
    offsetsOf (input_gpio p m).2.trace = offsetsOf m.trace ++ [PINLEVEL_OFFSET + p / 32] := by
  unfold input_gpio
  simp only [offsetsOf_rd]

theorem offsets_output_gpio (bus : Bus) (p : Nat) (v : Int) (m : Machine) :
    offsetsOf (output_gpio bus p v m).trace =
      offsetsOf m.trace ++ [if v ≠ 0 then SET_OFFSET + p / 32 else CLR_OFFSET + p / 32] := by
  unfold output_gpio
  simp only [offsetsOf_wr]

theorem offsets_set_rising_event (bus : Bus) (p : Nat) (e : Int) (m : Machine) :
    offsetsOf (set_rising_event bus p e m).trace =
      offsetsOf m.trace ++
        [RISING_ED_OFFSET + p / 32, RISING_ED_OFFSET + p / 32, EVENT_DETECT_OFFSET + p / 32,
         EVENT_DETECT_OFFSET + p / 32, EVENT_DETECT_OFFSET + p / 32] := by
  unfold set_rising_event
  split
  · simp only [offsetsOf_wr, offsetsOf_wait, offsetsOf_rd, offsets_clear_event_detect,
      List.append_assoc, List.singleton_append, List.cons_append, List.nil_append]
  · simp only [offsetsOf_wr, offsetsOf_wait, offsetsOf_rd, offsets_clear_event_detect,
      List.append_assoc, List.singleton_append, List.cons_append, List.nil_append]

theorem offsets_set_high_event (bus : Bus) (p : Nat) (e : Int) (m : Machine) :
    offsetsOf (set_high_event bus p e m).trace =
      offsetsOf m.trace ++
        [HIGH_DETECT_OFFSET + p / 32, HIGH_DETECT_OFFSET + p / 32, EVENT_DETECT_OFFSET + p / 32,
         EVENT_DETECT_OFFSET + p / 32, EVENT_DETECT_OFFSET + p / 32] := by
  unfold set_high_event
  split
  · simp only [offsetsOf_wr, offsetsOf_wait, offsetsOf_rd, offsets_clear_event_detect,
      List.append_assoc, List.singleton_append, List.cons_append, List.nil_append]
  · simp only [offsetsOf_wr, offsetsOf_wait, offsetsOf_rd, offsets_clear_event_detect,
      List.append_assoc, List.singleton_append, List.cons_append, List.nil_append]

theorem offsets_set_low_event (bus : Bus) (p : Nat) (e : Int) (m : Machine) :
    offsetsOf (set_low_event bus p e m).trace =
      offsetsOf m.trace ++
        [LOW_DETECT_OFFSET + p / 32, LOW_DETECT_OFFSET + p / 32, EVENT_DETECT_OFFSET + p / 32,
         EVENT_DETECT_OFFSET + p / 32, EVENT_DETECT_OFFSET + p / 32] := by
  unfold set_low_event
  split
  · simp only [offsetsOf_wr, offsetsOf_wait, offsetsOf_rd, offsets_clear_event_detect,
      List.append_assoc, List.singleton_append, List.cons_append, List.nil_append]
  · simp only [offsetsOf_wr, offsetsOf_wait, offsetsOf_rd, offsets_clear_event_detect,
      List.append_assoc, List.singleton_append, List.cons_append, List.nil_append]

theorem offsets_set_falling_event (bus : Bus) (p : Nat) (e : Int) (m : Machine) :
    offsetsOf (set_falling_event bus p e m).trace =
      offsetsOf m.trace ++
        ((if e ≠ 0 then
            [FALLING_ED_OFFSET + p / 32, FALLING_ED_OFFSET + p / 32, FALLING_ED_OFFSET + p / 32]
          else [FALLING_ED_OFFSET + p / 32, FALLING_ED_OFFSET + p / 32]) ++
         [EVENT_DETECT_OFFSET + p / 32, EVENT_DETECT_OFFSET + p / 32,
          EVENT_DETECT_OFFSET + p / 32]) := by
  unfold set_falling_event
  split
  · simp only [offsetsOf_wr, offsetsOf_wait, offsetsOf_rd, offsets_clear_event_detect,
      List.append_assoc, List.singleton_append, List.cons_append, List.nil_append]
  · simp only [offsetsOf_wr, offsetsOf_wait, offsetsOf_rd, offsets_clear_event_detect,
      List.append_assoc, List.singleton_append, List.cons_append, List.nil_append]

/-- The register groups are given in increasing order, do not overlap, and
lie inside the 1024-word block. -/
theorem regGroups_disjoint :
    List.Pairwise (fun a b => a.2 < b.1) regGroups ∧
    ∀ g ∈ regGroups, g.1 ≤ g.2 ∧ g.2 < 1024 := by
  decide

/-- C30: for every pin in 0..53, any bus and any arguments, every word
offset read or written by `setup_gpio`, `gpio_function`, `set_pullupdn`,
`output_gpio`, `input_gpio`, `clear_event_detect`, `eventdetected` and the
four `set_*_event` functions is below 1024 and lies in the word range of the
intended register groups only: function select 0..5, set 7..8, clear 10..11,
level 13..14, event status 16..17, rising 19..20, falling 22..23, high
25..26, low 28..29, pull control 37, pull clock 38..39; these ranges are
pairwise disjoint. -/
theorem register_offsets_in_group (bus : Bus) (p : Nat) (hp : p < 54) (d pud v e : Int)
    (m : Machine) :
    (∃ L, offsetsOf (setup_gpio bus p d pud m).trace = offsetsOf m.trace ++ L ∧
      ∀ o ∈ L, o < 1024 ∧ (o ≤ 5 ∨ o = 37 ∨ (38 ≤ o ∧ o ≤ 39))) ∧
    (∃ L, offsetsOf (gpio_function p m).2.trace = offsetsOf m.trace ++ L ∧
      ∀ o ∈ L, o < 1024 ∧ (o ≤ 5)) ∧
    (∃ L, offsetsOf (set_pullupdn bus p pud m).trace = offsetsOf m.trace ++ L ∧
      ∀ o ∈ L, o < 1024 ∧ (o = 37 ∨ (38 ≤ o ∧ o ≤ 39))) ∧
    (∃ L, offsetsOf (output_gpio bus p v m).trace = offsetsOf m.trace ++ L ∧
      ∀ o ∈ L, o < 1024 ∧ ((v ≠ 0 ∧ 7 ≤ o ∧ o ≤ 8) ∨ (v = 0 ∧ 10 ≤ o ∧ o ≤ 11))) ∧
    (∃ L, offsetsOf (input_gpio p m).2.trace = offsetsOf m.trace ++ L ∧
      ∀ o ∈ L, o < 1024 ∧ (13 ≤ o ∧ o ≤ 14)) ∧
    (∃ L, offsetsOf (clear_event_detect bus p m).trace = offsetsOf m.trace ++ L ∧
      ∀ o ∈ L, o < 1024 ∧ (16 ≤ o ∧ o ≤ 17)) ∧
    (∃ L, offsetsOf (eventdetected bus p m).2.trace = offsetsOf m.trace ++ L ∧
      ∀ o ∈ L, o < 1024 ∧ (16 ≤ o ∧ o ≤ 17)) ∧
    (∃ L, offsetsOf (set_rising_event bus p e m).trace = offsetsOf m.trace ++ L ∧
      ∀ o ∈ L, o < 1024 ∧ ((19 ≤ o ∧ o ≤ 20) ∨ (16 ≤ o ∧ o ≤ 17))) ∧
    (∃ L, offsetsOf (set_falling_event bus p e m).trace = offsetsOf m.trace ++ L ∧
      ∀ o ∈ L, o < 1024 ∧ ((22 ≤ o ∧ o ≤ 23) ∨ (16 ≤ o ∧ o ≤ 17))) ∧
    (∃ L, offsetsOf (set_high_event bus p e m).trace = offsetsOf m.trace ++ L ∧
      ∀ o ∈ L, o < 1024 ∧ ((25 ≤ o ∧ o ≤ 26) ∨ (16 ≤ o ∧ o ≤ 17))) ∧
    (∃ L, offsetsOf (set_low_event bus p e m).trace = offsetsOf m.trace ++ L ∧
      ∀ o ∈ L, o < 1024 ∧ ((28 ≤ o ∧ o ≤ 29) ∨ (16 ≤ o ∧ o ≤ 17))) ∧
    (List.Pairwise (fun a b => a.2 < b.1) regGroups ∧
      ∀ g ∈ regGroups, g.1 ≤ g.2 ∧ g.2 < 1024) := by
  have h10 : p / 10 ≤ 5 := by omega
  have h32 : p / 32 ≤ 1 := by omega
  refine ⟨?_, ?_, ?_, ?_, ?_, ?_, ?_, ?_, ?_, ?_, ?_, regGroups_disjoint⟩
  · refine ⟨_, offsets_setup_gpio bus p d pud m, ?_⟩
    intro o ho
    simp only [FSEL_OFFSET, SET_OFFSET, CLR_OFFSET, PINLEVEL_OFFSET, EVENT_DETECT_OFFSET,
      RISING_ED_OFFSET, FALLING_ED_OFFSET, HIGH_DETECT_OFFSET, LOW_DETECT_OFFSET,
      PULLUPDN_OFFSET, PULLUPDNCLK_OFFSET] at ho
    simp only [List.mem_cons, List.mem_singleton, List.not_mem_nil, or_false, or_self] at ho
    omega
  · refine ⟨_, offsets_gpio_function p m, ?_⟩
    intro o ho
    simp only [FSEL_OFFSET, SET_OFFSET, CLR_OFFSET, PINLEVEL_OFFSET, EVENT_DETECT_OFFSET,
      RISING_ED_OFFSET, FALLING_ED_OFFSET, HIGH_DETECT_OFFSET, LOW_DETECT_OFFSET,
      PULLUPDN_OFFSET, PULLUPDNCLK_OFFSET] at ho
    simp only [List.mem_cons, List.mem_singleton, List.not_mem_nil, or_false, or_self] at ho
    omega
  · refine ⟨_, offsets_set_pullupdn bus p pud m, ?_⟩
    intro o ho
    simp only [FSEL_OFFSET, SET_OFFSET, CLR_OFFSET, PINLEVEL_OFFSET, EVENT_DETECT_OFFSET,
      RISING_ED_OFFSET, FALLING_ED_OFFSET, HIGH_DETECT_OFFSET, LOW_DETECT_OFFSET,
      PULLUPDN_OFFSET, PULLUPDNCLK_OFFSET] at ho
    simp only [List.mem_cons, List.mem_singleton, List.not_mem_nil, or_false, or_self] at ho
    omega
  · refine ⟨_, offsets_output_gpio bus p v m, ?_⟩
    intro o ho
    simp only [FSEL_OFFSET, SET_OFFSET, CLR_OFFSET, PINLEVEL_OFFSET, EVENT_DETECT_OFFSET,
      RISING_ED_OFFSET, FALLING_ED_OFFSET, HIGH_DETECT_OFFSET, LOW_DETECT_OFFSET,
      PULLUPDN_OFFSET, PULLUPDNCLK_OFFSET] at ho
    by_cases hv : v ≠ 0
    · simp only [if_pos hv, List.mem_singleton] at ho
      have hv0 : v ≠ 0 := hv
      refine ⟨by omega, Or.inl ⟨hv0, by omega, by omega⟩⟩
    · simp only [if_neg hv, List.mem_singleton] at ho
      have hv0 : v = 0 := not_not.mp hv
      refine ⟨by omega, Or.inr ⟨hv0, by omega, by omega⟩⟩
  · refine ⟨_, offsets_input_gpio p m, ?_⟩
    intro o ho
    simp only [FSEL_OFFSET, SET_OFFSET, CLR_OFFSET, PINLEVEL_OFFSET, EVENT_DETECT_OFFSET,
      RISING_ED_OFFSET, FALLING_ED_OFFSET, HIGH_DETECT_OFFSET, LOW_DETECT_OFFSET,
      PULLUPDN_OFFSET, PULLUPDNCLK_OFFSET] at ho
    simp only [List.mem_cons, List.mem_singleton, List.not_mem_nil, or_false, or_self] at ho
    omega
  · refine ⟨_, offsets_clear_event_detect bus p m, ?_⟩
    intro o ho
    simp only [FSEL_OFFSET, SET_OFFSET, CLR_OFFSET, PINLEVEL_OFFSET, EVENT_DETECT_OFFSET,
      RISING_ED_OFFSET, FALLING_ED_OFFSET, HIGH_DETECT_OFFSET, LOW_DETECT_OFFSET,
      PULLUPDN_OFFSET, PULLUPDNCLK_OFFSET] at ho
    simp only [List.mem_cons, List.mem_singleton, List.not_mem_nil, or_false, or_self] at ho
    omega
  · refine ⟨_, offsets_eventdetected bus p m, ?_⟩
    intro o ho
    simp only [FSEL_OFFSET, SET_OFFSET, CLR_OFFSET, PINLEVEL_OFFSET, EVENT_DETECT_OFFSET,
      RISING_ED_OFFSET, FALLING_ED_OFFSET, HIGH_DETECT_OFFSET, LOW_DETECT_OFFSET,
      PULLUPDN_OFFSET, PULLUPDNCLK_OFFSET] at ho
    split at ho <;>
      simp only [List.mem_cons, List.mem_singleton, List.not_mem_nil, or_false, or_self] at ho <;>
      omega
  · refine ⟨_, offsets_set_rising_event bus p e m, ?_⟩
    intro o ho
    simp only [FSEL_OFFSET, SET_OFFSET, CLR_OFFSET, PINLEVEL_OFFSET, EVENT_DETECT_OFFSET,
      RISING_ED_OFFSET, FALLING_ED_OFFSET, HIGH_DETECT_OFFSET, LOW_DETECT_OFFSET,
      PULLUPDN_OFFSET, PULLUPDNCLK_OFFSET] at ho
    simp only [List.mem_cons, List.mem_singleton, List.not_mem_nil, or_false, or_self] at ho
    omega
  · refine ⟨_, offsets_set_falling_event bus p e m, ?_⟩
    intro o ho
    simp only [FSEL_OFFSET, SET_OFFSET, CLR_OFFSET, PINLEVEL_OFFSET, EVENT_DETECT_OFFSET,
      RISING_ED_OFFSET, FALLING_ED_OFFSET, HIGH_DETECT_OFFSET, LOW_DETECT_OFFSET,
      PULLUPDN_OFFSET, PULLUPDNCLK_OFFSET] at ho
    split at ho <;>
      simp only [List.mem_cons, List.mem_singleton, List.not_mem_nil, or_false, or_self,
        List.mem_append] at ho <;>
      omega
  · refine ⟨_, offsets_set_high_event bus p e m, ?_⟩
    intro o ho
    simp only [FSEL_OFFSET, SET_OFFSET, CLR_OFFSET, PINLEVEL_OFFSET, EVENT_DETECT_OFFSET,
      RISING_ED_OFFSET, FALLING_ED_OFFSET, HIGH_DETECT_OFFSET, LOW_DETECT_OFFSET,
      PULLUPDN_OFFSET, PULLUPDNCLK_OFFSET] at ho
    simp only [List.mem_cons, List.mem_singleton, List.not_mem_nil, or_false, or_self] at ho
    omega
  · refine ⟨_, offsets_set_low_event bus p e m, ?_⟩
    intro o ho
    simp only [FSEL_OFFSET, SET_OFFSET, CLR_OFFSET, PINLEVEL_OFFSET, EVENT_DETECT_OFFSET,
      RISING_ED_OFFSET, FALLING_ED_OFFSET, HIGH_DETECT_OFFSET, LOW_DETECT_OFFSET,
      PULLUPDN_OFFSET, PULLUPDNCLK_OFFSET] at ho
    simp only [List.mem_cons, List.mem_singleton, List.not_mem_nil, or_false, or_self] at ho
    omega

/-- Witness for C30: the offsets accessed by `setup_gpio` for pin 53. -/
theorem register_offsets_in_group_witness :
    offsetsOf (setup_gpio plainBus 53 OUTPUT PUD_UP ⟨fun _ => 0, []⟩).trace =
      [37, 37, 39, 37, 37, 39, 5, 5] ∧
    ∃ L, offsetsOf (setup_gpio plainBus 53 OUTPUT PUD_UP ⟨fun _ => 0, []⟩).trace =
        offsetsOf ([] : List Access) ++ L ∧
      ∀ o ∈ L, o < 1024 ∧ (o ≤ 5 ∨ o = 37 ∨ (38 ≤ o ∧ o ≤ 39)) :=
  ⟨by decide,
   (register_offsets_in_group plainBus 53 (by decide) OUTPUT PUD_UP 0 0 ⟨fun _ => 0, []⟩).1⟩

/-! ## The baseline of the first stage -/

/-- A signal that starts high for `d1 > 1` µs is seen by the capture as a low
stage of 1 µs (the time to the first sample) followed by a high stage of
`d1 - 1` µs. -/
theorem follows_high_start (L : Nat → Bool) (d1 : Nat) (ds : List Nat) (hd : 1 < d1)
    (h : Follows L 0 (d1 :: ds) true) : Follows L 0 (1 :: (d1 - 1) :: ds) false := by
  intro t h0 ht
  have hsum : (1 :: (d1 - 1) :: ds).sum = (d1 :: ds).sum := by
    simp only [List.sum_cons]
    omega
  rw [hsum] at ht
  rw [h t h0 ht]
  have e1 : ¬ (t < 1) := by omega
  simp only [signal, e1, if_false, Bool.not_false, Bool.not_true]
  by_cases hlt : t < d1
  · have e2 : t - 1 < d1 - 1 := by omega
    simp only [hlt, e2, if_true]
  · have e2 : ¬ (t - 1 < d1 - 1) := by omega
    have e3 : t - 1 - (d1 - 1) = t - d1 := by omega
    simp only [hlt, e2, if_false, e3]

/-- C24 (as amended): `gpio_watchpulsepairs` does not sample the pin at
entry; the baseline of the first stage is the low level.  On the simulated
pin, for a pin that is high at entry and stays high for `d1` µs
(`1 < d1 < 65000`), the first stage ends at the first sample, its elapsed
time of 1 µs is recorded as a pulse, and the rest of the high period is
stored with it as the first pair `(1, d1 - 1)`; the pairs that follow are the
(low, high) durations of the signal after it. -/
theorem watch_baseline_is_low (gpio : Nat) (d1 : Nat) (ds : List Nat)
    (hd1 : 1 < d1 ∧ d1 < 65000) (hds : ∀ d ∈ ds, 0 < d ∧ d < 65000)
    (L : Nat → Bool) (hL : Follows L 0 (d1 :: ds) true)
    (fuel : Nat) (h1 : 65000 ≤ fuel) (h2 : ds.length + 4 ≤ fuel) :
    ∃ r, gpio_watchpulsepairs simWorld gpio fuel (simStart L) = some r ∧
      storedPairs r.2.1 = (1, (d1 : Int) - 1) :: pairUp (ds.map Int.ofNat ++ [65000]) := by
  have hb : ∀ d ∈ 1 :: (d1 - 1) :: ds, 0 < d ∧ d < 65000 := by
    intro d hd
    simp only [List.mem_cons] at hd
    rcases hd with rfl | rfl | hd
    · decide
    · omega
    · exact hds d hd
  obtain ⟨s1, h⟩ := gpio_watchpulsepairs_sim gpio (1 :: (d1 - 1) :: ds) hb L
    (follows_high_start L d1 ds hd1.1 hL) fuel h1 (by simp only [List.length_cons]; omega)
  refine ⟨_, h, ?_⟩
  rw [storedPairs_tableOf]
  have hstep : pairUp ((1 :: (d1 - 1) :: ds).map Int.ofNat ++ [65000]) =
      (Int.ofNat 1, Int.ofNat (d1 - 1)) :: pairUp (ds.map Int.ofNat ++ [65000]) := rfl
  rw [hstep]
  congr 2
  show ((d1 - 1 : Nat) : Int) = (d1 : Int) - 1
  omega

/-- Witness for C24 (as amended): a pin high for 100 µs, then low for 200 µs, then high. -/
theorem watch_baseline_is_low_witness :
    ∃ r, gpio_watchpulsepairs simWorld 17 65000 (simStart (signal [100, 200] true)) = some r ∧
      storedPairs r.2.1 = [(1, 99), (200, 65000)] := by
  obtain ⟨r, h, hs⟩ := watch_baseline_is_low 17 100 [200] (by decide) (by decide) _
    (follows_signal _ true) 65000 (le_refl _) (by decide)
  exact ⟨r, h, hs.trans (by decide)⟩

/-- Counterexample to C24 as stated: the pin is high at entry for 100 µs and
is low only from 100 µs on, yet the first stored pair is (1, 99): a pulse of
1 µs has been recorded and paired before the pin was ever low, and the first
stage has measured 1 µs, not the 100 µs the pin stays high. -/
theorem watch_high_entry_bogus_pulse :
    signal [100, 200] true 1 = true ∧ signal [100, 200] true 99 = true ∧
    ∃ r, gpio_watchpulsepairs simWorld 17 65000 (simStart (signal [100, 200] true)) = some r ∧
      (storedPairs r.2.1).head? = some (1, 99) := by
  refine ⟨by decide, by decide, ?_⟩
  obtain ⟨s1, h⟩ := gpio_watchpulsepairs_sim 17 [1, 99, 200] (by decide) _
    (follows_high_start _ 100 [200] (by decide) (follows_signal _ true)) 65000 (le_refl _)
    (by decide)
  exact ⟨_, h, rfl⟩

/-! ## Intervals fed from a high level -/

/-- Counterexample to C8 as stated: the four intervals (100, 200),
(300, 400), (500, 600), (700, 800) µs fed as alternating levels that start
high (high 100 µs, low 200 µs, ..., low 800 µs), then idle, make `gpio_watchpulsepairs` return 1, not 0, with the five
rows (1, 99), (200, 300), (400, 500), (600, 700), (800, 65000), none of which
is a fed interval. -/
theorem watch_four_intervals_high_start :
    (gpio_watchpulsepairs simWorld 17 65000
        (simStart (signal [100, 200, 300, 400, 500, 600, 700, 800] true))).map
          (fun r => (r.1, storedPairs r.2.1)) =
      some (1, [(1, 99), (200, 300), (400, 500), (600, 700), (800, 65000)]) := by
  obtain ⟨s1, h⟩ := gpio_watchpulsepairs_sim 17 [1, 99, 200, 300, 400, 500, 600, 700, 800]
    (by decide) _
    (follows_high_start _ 100 [200, 300, 400, 500, 600, 700, 800] (by decide)
      (follows_signal _ true)) 65000 (le_refl _) (by decide)
  rw [h]
  rfl

/-! ## Timeout termination -/

/-- Within `n` samples after time `a`, either the level stays at `v`, or
there is a first sample at which it differs. -/
theorem first_change (L : Nat → Bool) (a : Nat) (v : Bool) (n : Nat) :
    (∀ t, 0 < t → t ≤ n → L (a + t) = v) ∨
    ∃ d, 0 < d ∧ d ≤ n ∧ (∀ t, 0 < t → t < d → L (a + t) = v) ∧ L (a + d) = !v := by
  induction n with
  | zero =>
    left
    intro t h0 ht
    omega
  | succ n ih =>
    rcases ih with hall | ⟨d, hd0, hdn, hold, hch⟩
    · by_cases hL : L (a + (n + 1)) = v
      · left
        intro t h0 ht
        by_cases htn : t ≤ n
        · exact hall t h0 htn
        · have : t = n + 1 := by omega
          rw [this]; exact hL
      · right
        refine ⟨n + 1, by omega, le_refl _, fun t h0 ht => hall t h0 (by omega), ?_⟩
        cases hv : v <;> cases hl : L (a + (n + 1)) <;> simp_all
    · right
      exact ⟨d, hd0, by omega, hold, hch⟩

/-- Every stage on the simulated pin ends, after `d` samples with
`0 < d ≤ 65000`: at the first sample whose level differs, or at the timeout. -/
theorem stage_loop_ends (gpio : Nat) (L : Nat → Bool) (wave : List (Nat × Nat × Int))
    (a : Nat) (v : Bool) (inner : Nat) (hin : 65000 ≤ inner) :
    ∃ d, 0 < d ∧ d ≤ 65000 ∧ (∀ t, 0 < t → t < d → L (a + t) = v) ∧
      (d = 65000 ∨ L (a + d) = !v) ∧
      stage_loop simWorld gpio (levelInt v) (timevalOf a) inner (levelInt v) 0
          { now := a, level := L, wave := wave } =
        some (levelInt (L (a + d)), (d : Int), { now := a + d, level := L, wave := wave }) := by
  rcases first_change L a v 64999 with hall | ⟨d, hd0, hdn, hold, hch⟩
  · have hst := stage_loop_sim gpio L wave a 65000 v (le_refl _)
      (fun t h0 ht => hall t h0 (by omega)) (Or.inl rfl) inner 0 (by decide) (by omega)
    simp only [Nat.add_zero, Nat.cast_zero] at hst
    exact ⟨65000, by decide, le_refl _, fun t h0 ht => hall t h0 (by omega), Or.inl rfl, hst⟩
  · have hst := stage_loop_sim gpio L wave a d v (by omega) hold (Or.inr hch) inner 0 hd0
      (by omega)
    simp only [Nat.add_zero, Nat.cast_zero] at hst
    exact ⟨d, hd0, by omega, hold, Or.inr hch, hst⟩

/-- The outer loop on the simulated pin returns whenever the level function
holds one level `w` from time `T` for 65000 µs, and not before the clock
has reached 65000 µs. -/
theorem watch_loop_terminates (gpio inner : Nat) (hin : 65000 ≤ inner) (L : Nat → Bool)
    (wave : List (Nat × Nat × Int)) (T : Nat) (w : Bool)
    (hT : ∀ t, T ≤ t → t ≤ T + 65000 → L t = w) :
    ∀ (k : Nat) (v : Bool) (a : Nat) (caps : List (Int × Int)) (pl pa ts : Int) (fuel : Nat),
      a ≤ T + 1 → T + 1 ≤ a + k → ((a = 0 ∧ v = false) ∨ (0 < a ∧ v = L a)) →
      (v = true → pl ≠ 0) → k + 1 ≤ fuel →
      ∃ st1 s1,
        watch_loop simWorld gpio inner fuel (watchAt v a caps pl pa ts)
            { now := a, level := L, wave := wave } = some (st1, s1) ∧
        st1.finish = true ∧ 65000 ≤ s1.now := by
  intro k
  induction k using Nat.strong_induction_on with
  | _ k ih =>
    intro v a caps pl pa ts fuel haT hak hinv hpl hfuel
    obtain ⟨fuel, rfl⟩ : ∃ f, fuel = f + 1 := ⟨fuel - 1, by omega⟩
    obtain ⟨d, hd0, hd, hold, hend, hst⟩ := stage_loop_ends gpio L wave a v inner hin
    rw [watch_loop_step, hst]
    by_cases hd65 : d = 65000
    · subst hd65
      have hF : (if ((65000 : Nat) : Int) ≥ PULSEPAIR_TIMEOUTSTAGE then true else false) = true := by
        decide
      cases v with
      | false =>
        simp only [stage_update_low, hF, Bool.false_eq_true, if_false]
        rw [watch_loop_finished _ _ _ _ _ _ rfl]
        exact ⟨_, _, rfl, rfl, by simp⟩
      | true =>
        have hp : pl ≠ 0 := hpl rfl
        simp only [stage_update_high _ _ _ _ _ _ _ _ hp, hF, Bool.false_eq_true, if_false]
        rw [watch_loop_finished _ _ _ _ _ _ rfl]
        exact ⟨_, _, rfl, rfl, by simp⟩
    · have hch : L (a + d) = !v := by
        rcases hend with h | h
        · exact absurd h hd65
        · exact h
      have hlt : d < 65000 := by omega
      have hle : a + d ≤ T + 1 := by
        by_contra hgt
        have h1 : L (a + d) = w := hT (a + d) (by omega) (by omega)
        have h2 : L (a + (d - 1)) = w := hT (a + (d - 1)) (by omega) (by omega)
        have h3 : L (a + (d - 1)) = v := by
          by_cases hd1 : d = 1
          · subst hd1
            rcases hinv with ⟨ha, _⟩ | ⟨_, hv⟩
            · omega
            · simpa using hv.symm
          · exact hold (d - 1) (by omega) (by omega)
        rw [h1] at hch
        rw [h2] at h3
        rw [h3] at hch
        cases v <;> simp at hch
      have hF : (if ((d : Nat) : Int) ≥ PULSEPAIR_TIMEOUTSTAGE then true else false) = false := by
        have : ¬ (((d : Nat) : Int) ≥ PULSEPAIR_TIMEOUTSTAGE) := by
          unfold PULSEPAIR_TIMEOUTSTAGE
          omega
        simp [this]
      have hinv1 : (a + d = 0 ∧ (!v) = false) ∨ (0 < a + d ∧ (!v) = L (a + d)) :=
        Or.inr ⟨by omega, hch.symm⟩
      rw [hch]
      cases v with
      | false =>
        simp only [stage_update_low, hF, Bool.false_eq_true, if_false, Bool.not_false]
        have hdz : ((d : Nat) : Int) ≠ 0 := by omega
        exact ih (k - 1) (by omega) true (a + d) caps (d : Int) pa (d : Int) fuel hle
          (by omega) hinv1 (fun _ => hdz) (by omega)
      | true =>
        have hp : pl ≠ 0 := hpl rfl
        simp only [stage_update_high _ _ _ _ _ _ _ _ hp, hF, Bool.false_eq_true, if_false,
          Bool.not_true]
        exact ih (k - 1) (by omega) false (a + d) (caps ++ [(intCell pl, intCell (d : Int))]) 0 0
          (d : Int) fuel hle (by omega) hinv1 (fun h => by cases h) (by omega)

/-- The loop body sets `finish` exactly when the stage reached the timeout,
unless it leaves through `break`, which only a failed `realloc` causes. -/
theorem stage_update_finish {σ : Type} (W : World σ) (st : WatchState) (vread tStage : Int)
    (tStart : Timeval) (hfin : st.finish = false) :
    ((stage_update W st vread tStage tStart).2 = false →
      ((stage_update W st vread tStage tStart).1.finish = true ↔
        PULSEPAIR_TIMEOUTSTAGE ≤ tStage)) ∧
    ((stage_update W st vread tStage tStart).2 = true →
      W.realloc_ok (st.size + 1) = false) := by
  unfold stage_update
  by_cases hv : st.value = 0
  · simp [hv, hfin]
  · by_cases hp : st.pulse = 0
    · simp [hv, hp, hfin]
    · by_cases hs : st.size = 0
      · simp [hv, hp, hs, hfin]
      · by_cases hr : W.realloc_ok (st.size + 1) = true
        · simp [hv, hp, hs, hr, hfin]
        · simp [hv, hp, hs, hr, hfin]

/-- C25: timeout termination of `gpio_watchpulsepairs`.  A measuring stage
takes another sample exactly while the level read equals the stage level and
the elapsed time is below 65000 µs, and otherwise ends; the outer loop returns
at once when `finish` is set; the loop body sets `finish` exactly when the
elapsed time of its stage reached 65000 µs, unless it leaves through `break`,
which happens only when `realloc` fails; and on the simulated pin the call
returns, with the clock at 65000 µs or later, for every level function that
holds one level `w` from some time `T` on for 65000 µs. -/
theorem watch_timeout_termination (gpio : Nat) :
    (∀ {σ : Type} (W : World σ) (value : Int) (tStart : Timeval) (fuel : Nat)
        (vread tStage : Int) (s : σ),
      stage_loop W gpio value tStart (fuel + 1) vread tStage s =
        if vread = value ∧ tStage < 65000 then
          stage_loop W gpio value tStart fuel (W.bcm2835_gpio_lev gpio s).1
            (delta_time_in_microseconds
              (W.gettimeofday (W.bcm2835_gpio_lev gpio s).2).1 tStart)
            (W.gettimeofday (W.bcm2835_gpio_lev gpio s).2).2
        else some (vread, tStage, s)) ∧
    (∀ {σ : Type} (W : World σ) (inner fuel : Nat) (st : WatchState) (s : σ),
      st.finish = true → watch_loop W gpio inner fuel st s = some (st, s)) ∧
    (∀ {σ : Type} (W : World σ) (st : WatchState) (vread tStage : Int) (tStart : Timeval),
      st.finish = false →
      ((stage_update W st vread tStage tStart).2 = false →
        ((stage_update W st vread tStage tStart).1.finish = true ↔ 65000 ≤ tStage)) ∧
      ((stage_update W st vread tStage tStart).2 = true →
        W.realloc_ok (st.size + 1) = false)) ∧
    (∀ (L : Nat → Bool) (T : Nat) (w : Bool) (fuel : Nat),
      (∀ t, T ≤ t → t ≤ T + 65000 → L t = w) → 65000 ≤ fuel → T + 2 ≤ fuel →
      ∃ r, gpio_watchpulsepairs simWorld gpio fuel (simStart L) = some r ∧
        65000 ≤ r.2.2.now) := by
  refine ⟨fun W value tStart fuel vread tStage s => rfl,
    fun W inner fuel st s h => watch_loop_finished W gpio inner fuel st s h,
    fun W st vread tStage tStart hfin => stage_update_finish W st vread tStage tStart hfin, ?_⟩
  intro L T w fuel hT h1 h2
  obtain ⟨st1, s1, h, _, hnow⟩ :=
    watch_loop_terminates gpio fuel h1 L [] T w hT (T + 1) false 0 [] 0 0 0 fuel
      (by omega) (by omega) (Or.inl ⟨rfl, rfl⟩) (fun h => by cases h) (by omega)
  have hw : watch_loop simWorld gpio fuel fuel
      { value := 0, vread := 0, size := 0, finish := false, pulse := 0, pause := 0,
        tStage := 0, tStart := timevalOf 0, pulsepairs := { pairs := [none], size := 1 } }
      (simStart L) = some (st1, s1) := h
  simp only [gpio_watchpulsepairs, sim_gettimeofday, simStart] at hw ⊢
  rw [hw]
  by_cases hsz : st1.size < PULSEPAIR_MINPAIRS
  · exact ⟨(0, st1.pulsepairs, s1), by simp [hsz], hnow⟩
  · exact ⟨(1, st1.pulsepairs, s1), by simp [hsz], hnow⟩

/-- Instance of the timeout termination: a pin that is low throughout, with
65002 units of fuel. -/
theorem watch_timeout_termination_witness :
    (∀ t, 0 ≤ t → t ≤ 0 + 65000 → (fun _ : Nat => false) t = false) ∧
    65000 ≤ 65002 ∧ 0 + 2 ≤ 65002 ∧
    ∃ r, gpio_watchpulsepairs simWorld 4 65002 (simStart (fun _ => false)) = some r ∧
      65000 ≤ r.2.2.now :=
  ⟨fun _ _ _ => rfl, by decide, by decide,
    (watch_timeout_termination 4).2.2.2 (fun _ => false) 0 false 65002 (fun _ _ _ => rfl)
      (by decide) (by decide)⟩

/-! ## Bounds on the captured pairs -/

end RPiGpio
